import Mathlib

/-!
# Sandbox-Numworks: the packed particle grid and the tick algorithm

A shallow embedding of `src/main.cpp` (structs `Point`, `ParticleMap`, `FluxState`
and the function `update_world`) together with the properties of the packed
storage and of one simulation tick.

Conventions of the embedding.

* `size_t` is the 32-bit unsigned type of the target (ARM Cortex-M); its
  arithmetic is written on `Nat` with an explicit `% SIZE_MOD`.
* A cell type is the 4-bit code stored in the grid, a `Nat`; the five
  enumerators are the constants `EMPTY` .. `PARTICLE_WATER`.
* `abort()` (an endless loop in this program) and an access outside the heap
  block of a grid are the two ways a call fails to return; fallible code
  returns `Except Fault`.
* `rand()` is an external source: the successive values it returns are a
  stream `rng : Nat → Nat` and the number of values consumed so far is threaded
  through the tick.
* The properties are stated for well-formed grids (`ParticleMap.wf`): the
  block holds `buf_size = (width*height + 1) >> 1` bytes and the cell count did
  not wrap around in `size_t`. The constructor establishes this when
  `width*height + 1 < 2^32`, and `set`, `fill` and `swap` keep it. For larger
  dimensions the constructor builds a grid that is not well-formed; what
  `get` and `set` do on such a grid is shown by the counterexamples of C4, C5
  and C18.
-/

namespace Sandbox

/-- Width in bits of `size_t` on the target. -/
def SIZE_BITS : Nat := 32

/-- Modulus of `size_t` arithmetic. -/
def SIZE_MOD : Nat := 2 ^ SIZE_BITS

/-- The ways a call fails to return: `abort()`, or a read or write outside
the heap block `buf` (undefined behaviour in the source). -/
inductive Fault where
  | abort
  | out_of_bounds
deriving DecidableEq, Repr

deriving instance DecidableEq for Except

/-- The struct `Point` (lines 51-67): two `size_t` coordinates. -/
structure Point where
  x : Nat
  y : Nat
deriving DecidableEq, Repr

/-- The enum `ParticleMap::CellType` as the numeric code kept in a nibble. -/
abbrev CellType := Nat

/-- The struct `ParticleMap` (lines 78-139); `buf` is the heap block of bytes. -/
structure ParticleMap where
  dims : Point
  buf_size : Nat
  buf : List Nat
deriving DecidableEq, Repr

namespace ParticleMap

def EMPTY : CellType := 0
def OBSTACLE : CellType := 1
def PARTICLE_HEAVY : CellType := 2
def PARTICLE_LIGHT : CellType := 3
def PARTICLE_WATER : CellType := 4

/-- The operator `~` on an `int` (32 bits, two's complement), as a bit pattern. -/
def bit_not (v : Nat) : Nat := 0xFFFFFFFF - v

/-- The byte written by `fill` (line 99): the `int` expression truncated to `uint8_t`. -/
def fill_elem (ty : CellType) : Nat :=
  ((ty <<< 0) ||| (ty <<< 4) ||| (ty <<< 8) ||| (ty <<< 12)) % 256

/-- `fill` (lines 98-101): `std::fill_n` over the `buf_size` bytes of the block. -/
def fill (m : ParticleMap) (ty : CellType) : ParticleMap :=
  { m with buf := List.replicate m.buf_size (fill_elem ty) }

/-- The constructor (lines 87-92): `buf_size` is computed in `size_t`, the block
of `buf_size` bytes is allocated (allocation is taken to succeed) and filled. -/
def init (dims : Point) (ty : CellType) : ParticleMap :=
  let buf_size := (((dims.x * dims.y) % SIZE_MOD + 1) % SIZE_MOD) >>> 1
  fill { dims := dims, buf_size := buf_size, buf := List.replicate buf_size 0 } ty

/-- `clear` (lines 103-105). -/
def clear (m : ParticleMap) : ParticleMap := m.fill EMPTY

/-- `check_loc` (lines 107-109). -/
def check_loc (m : ParticleMap) (loc : Point) : Bool :=
  decide (loc.x < m.dims.x) && decide (loc.y < m.dims.y)

/-- `assert_loc` (lines 111-113). -/
def assert_loc (m : ParticleMap) (loc : Point) : Except Fault Unit :=
  if m.check_loc loc then pure () else throw Fault.abort

/-- `elem_idx` of `get` and `set` (lines 117 and 125), in `size_t`. -/
def elem_idx (m : ParticleMap) (loc : Point) : Nat :=
  ((loc.y * m.dims.x) % SIZE_MOD + loc.x) % SIZE_MOD

/-- `get` (lines 115-121). -/
def get (m : ParticleMap) (loc : Point) : Except Fault CellType := do
  m.assert_loc loc
  let elem_idx := m.elem_idx loc
  let idx := elem_idx >>> 1
  let off := (elem_idx &&& 1) <<< 2
  match m.buf[idx]? with
  | none => throw Fault.out_of_bounds
  | some b => pure ((b >>> off) &&& 15)

/-- `set` (lines 123-129); the stored value is truncated to `uint8_t`. -/
def set (m : ParticleMap) (loc : Point) (ty : CellType) : Except Fault ParticleMap := do
  m.assert_loc loc
  let elem_idx := m.elem_idx loc
  let idx := elem_idx >>> 1
  let off := (elem_idx &&& 1) <<< 2
  match m.buf[idx]? with
  | none => throw Fault.out_of_bounds
  | some b =>
    pure { m with buf := m.buf.set idx (((b &&& bit_not (15 <<< off)) ||| (ty <<< off)) % 256) }

/-- `swap` (lines 131-134): only the two `buf` pointers are exchanged; the
result is the pair (this, other). -/
def swap (m other : ParticleMap) : Except Fault (ParticleMap × ParticleMap) :=
  if m.buf_size != other.buf_size then throw Fault.abort
  else pure ({ m with buf := other.buf }, { other with buf := m.buf })

/-- The class invariant of a grid that the constructor establishes when the
cell count fits in `size_t`: the block has `buf_size = ceil(width*height/2)`
bytes. -/
def wf (m : ParticleMap) : Prop :=
  m.dims.x * m.dims.y + 1 < SIZE_MOD ∧
  m.buf_size = (m.dims.x * m.dims.y + 1) >>> 1 ∧
  m.buf.length = m.buf_size ∧
  ∀ b ∈ m.buf, b < 256

instance (m : ParticleMap) : Decidable m.wf :=
  inferInstanceAs (Decidable (_ ∧ _ ∧ _ ∧ _))

end ParticleMap

open ParticleMap (EMPTY OBSTACLE PARTICLE_HEAVY PARTICLE_LIGHT PARTICLE_WATER)

/-- The struct `FluxState` (lines 142-216). -/
structure FluxState where
  back : ParticleMap
  front : ParticleMap
deriving DecidableEq, Repr

namespace FluxState

/-- The constructor (line 147). -/
def init (dims : Point) : FluxState :=
  { back := ParticleMap.init dims EMPTY, front := ParticleMap.init dims EMPTY }

/-- `dims` (lines 149-151). -/
def dims (s : FluxState) : Point := s.back.dims

/-- `get_particle` (lines 153-155). -/
def get_particle (s : FluxState) (loc : Point) : Except Fault CellType :=
  s.front.get loc

/-- `is_obstacle` (lines 157-159). -/
def is_obstacle (s : FluxState) (loc : Point) : Except Fault Bool := do
  let ty ← s.get_particle loc
  pure (ty == OBSTACLE)

/-- `is_fully_empty` (lines 161-163); `&&` evaluates `front.get` only when the
back cell is EMPTY. -/
def is_fully_empty (s : FluxState) (loc : Point) : Except Fault Bool := do
  let b ← s.back.get loc
  if b == EMPTY then
    let f ← s.front.get loc
    pure (f == EMPTY)
  else
    pure false

/-- `set_particle` (lines 165-167). -/
def set_particle (s : FluxState) (loc : Point) (type : CellType) : Except Fault FluxState := do
  let f ← s.front.set loc type
  pure { s with front := f }

/-- `back_set_particle` (lines 190-192). -/
def back_set_particle (s : FluxState) (loc : Point) (ty : CellType) : Except Fault FluxState := do
  let b ← s.back.set loc ty
  pure { s with back := b }

/-- `flip` (lines 194-196). -/
def flip (s : FluxState) : Except Fault FluxState := do
  let r ← s.back.swap s.front
  pure { back := r.1, front := r.2 }

/-- `left` (lines 198-200): `loc.x - 1` in `size_t`. -/
def left (loc : Point) : Point := ⟨(loc.x + SIZE_MOD - 1) % SIZE_MOD, loc.y⟩

/-- `right` (lines 202-204): `loc.x + 1` in `size_t`. -/
def right (loc : Point) : Point := ⟨(loc.x + 1) % SIZE_MOD, loc.y⟩

/-- `above` (lines 206-208): `loc.y - 1` in `size_t`. -/
def above (loc : Point) : Point := ⟨loc.x, (loc.y + SIZE_MOD - 1) % SIZE_MOD⟩

/-- `below` (lines 210-212): `loc.y + 1` in `size_t`. -/
def below (loc : Point) : Point := ⟨loc.x, (loc.y + 1) % SIZE_MOD⟩

/-- Both grids satisfy the class invariant and have the same dimensions, as
the constructor of `FluxState` builds them. -/
def wf (s : FluxState) : Prop :=
  s.back.wf ∧ s.front.wf ∧ s.back.dims = s.front.dims

instance (s : FluxState) : Decidable s.wf :=
  inferInstanceAs (Decidable (_ ∧ _ ∧ _))

end FluxState

open FluxState (left right above below)

/-- The operator `&&` whose right operand may fail to return: it is evaluated
only when the left operand is true. -/
def and_then (a : Bool) (b : Except Fault Bool) : Except Fault Bool :=
  if a then b else pure false

/-- The value of `rand() % 2 == 0 ? -1 : 1` (lines 280 and 294) for the draw `r`. -/
def direction_of (r : Nat) : Int := if r % 2 = 0 then -1 else 1

/-- The value of `rand() % 5 - 2` (line 270) for the draw `r`. -/
def leftright_of (r : Nat) : Int := ((r % 5 : Nat) : Int) - 2

/-- The movement rule of PARTICLE_HEAVY (lines 273-285): the new `new_loc` and
the number of draws consumed so far. -/
def heavy_rule (state : FluxState) (rng : Nat → Nat) (k : Nat) (new_loc : Point) :
    Except Fault (Point × Nat) := do
  let below_loc := below new_loc
  let left_below := left below_loc
  let right_below := right below_loc
  if ← state.is_fully_empty below_loc then
    pure (below_loc, k)
  else
    let direction := direction_of (rng k)
    if ← and_then (direction == -1) (state.is_fully_empty left_below) then
      pure (left_below, k + 1)
    else if ← and_then (direction == 1) (state.is_fully_empty right_below) then
      pure (right_below, k + 1)
    else
      pure (new_loc, k + 1)

/-- The movement rule of PARTICLE_LIGHT (lines 287-299). -/
def light_rule (state : FluxState) (rng : Nat → Nat) (k : Nat) (new_loc : Point) :
    Except Fault (Point × Nat) := do
  let above_loc := above new_loc
  let left_above := left above_loc
  let right_above := right above_loc
  if ← state.is_fully_empty above_loc then
    pure (above_loc, k)
  else
    let direction := direction_of (rng k)
    if ← and_then (direction == -1) (state.is_fully_empty left_above) then
      pure (left_above, k + 1)
    else if ← and_then (direction == 1) (state.is_fully_empty right_above) then
      pure (right_above, k + 1)
    else
      pure (new_loc, k + 1)

/-- The movement rule of PARTICLE_WATER (lines 301-317). -/
def water_rule (state : FluxState) (new_loc : Point) : Except Fault Point := do
  let below_loc := below new_loc
  let left_below := left below_loc
  let right_below := right below_loc
  let left_loc := left new_loc
  let right_loc := right new_loc
  if ← state.is_fully_empty below_loc then
    pure below_loc
  else if ← state.is_fully_empty left_below then
    pure left_below
  else if ← state.is_fully_empty right_below then
    pure right_below
  else if ← state.is_fully_empty left_loc then
    pure left_loc
  else if ← state.is_fully_empty right_loc then
    pure right_loc
  else
    pure new_loc

/-- The provisional destination (lines 272-318) of the particle `ty` at `loc`. -/
def provisional (state : FluxState) (rng : Nat → Nat) (k : Nat) (loc : Point) (ty : CellType) :
    Except Fault (Point × Nat) :=
  if ty == PARTICLE_HEAVY then heavy_rule state rng k loc
  else if ty == PARTICLE_LIGHT then light_rule state rng k loc
  else if ty == PARTICLE_WATER then do
    let d ← water_rule state loc
    pure (d, k)
  else pure (loc, k)

/-- The horizontal drift (lines 320-330) applied to `new_loc`. -/
def apply_drift (state : FluxState) (leftright : Int) (new_loc : Point) : Except Fault Point := do
  if leftright == -1 then
    let left_loc := left new_loc
    if ← state.is_fully_empty left_loc then pure left_loc else pure new_loc
  else if leftright == 1 then
    let right_loc := right new_loc
    if ← state.is_fully_empty right_loc then pure right_loc else pure new_loc
  else
    pure new_loc

/-- The condition of line 333; `dims.x - 3` and `dims.y - 3` are `size_t`. -/
def culled (dims new_loc : Point) : Bool :=
  decide (new_loc.x < 3) || decide (new_loc.x > (dims.x + SIZE_MOD - 3) % SIZE_MOD) ||
  decide (new_loc.y < 3) || decide (new_loc.y ≥ (dims.y + SIZE_MOD - 3) % SIZE_MOD)

/-- The final destination (lines 270-330) of the particle `ty` at `loc`: one
draw for the drift, then the movement rule, then the drift. -/
def destination (state : FluxState) (rng : Nat → Nat) (k : Nat) (loc : Point) (ty : CellType) :
    Except Fault (Point × Nat) := do
  let leftright := leftright_of (rng k)
  let r ← provisional state rng (k + 1) loc ty
  let new_loc ← apply_drift state leftright r.1
  pure (new_loc, r.2)

/-- The body of the loops of pass 1 (lines 255-258). -/
def seed_cell (loc : Point) (state : FluxState) : Except Fault FluxState := do
  let ty ← state.get_particle loc
  let ty := if ty != OBSTACLE then EMPTY else ty
  state.back_set_particle loc ty

/-- The body of the loops of pass 2 (lines 264-337) on the state and the
number of draws consumed. -/
def move_cell (dims : Point) (rng : Nat → Nat) (loc : Point) (w : FluxState × Nat) :
    Except Fault (FluxState × Nat) := do
  let ty ← w.1.get_particle loc
  if ty == EMPTY || ty == OBSTACLE then
    pure w
  else
    let r ← destination w.1 rng w.2 loc ty
    if culled dims r.1 then
      let s ← w.1.back_set_particle loc EMPTY
      pure (s, r.2)
    else
      let s ← w.1.back_set_particle r.1 ty
      pure (s, r.2)

/-- The two nested `for` loops (lines 253-254 and 262-263): `y` outer, `x`
inner, both counting up from 0 while below the dimension. The counters are
`int` in the source and are compared and passed on as `size_t`; for
dimensions up to `INT_MAX` they take the values 0 .. dimension - 1. -/
def for_each_cell {σ : Type} (dims : Point) (body : Point → σ → Except Fault σ) (s : σ) :
    Except Fault σ :=
  (List.range dims.y).foldlM
    (fun s y => (List.range dims.x).foldlM (fun s x => body ⟨x, y⟩ s) s) s

/-- `update_world` (lines 250-342): the new state and the number of draws
consumed. -/
def update_world (state : FluxState) (rng : Nat → Nat) (k : Nat) :
    Except Fault (FluxState × Nat) := do
  let dims := state.dims
  let s1 ← for_each_cell dims seed_cell state
  let w ← for_each_cell dims (move_cell dims rng) (s1, k)
  let s3 ← w.1.flip
  pure (s3, w.2)

/-- A grid of the given dimensions from rows of cell codes (for concrete states). -/
def grid_of (dims : Point) (cells : List (Point × CellType)) : ParticleMap :=
  cells.foldl (fun m c => match m.set c.1 c.2 with
    | .ok m1 => m1
    | .error _ => m) (ParticleMap.init dims EMPTY)


/-- The nibble of the byte `b` at bit offset `off`, as `get` reads it (line 120). -/
def take_nibble (b off : Nat) : Nat := (b >>> off) &&& 15

/-- The byte `set` stores (line 128) for the old byte `b`. -/
def put_nibble (b off : Nat) (ty : CellType) : Nat :=
  ((b &&& ParticleMap.bit_not (15 <<< off)) ||| (ty <<< off)) % 256

/-- The code of the cell `loc` held in the block, read without the bounds guard. -/
def ParticleMap.cell (m : ParticleMap) (loc : Point) : CellType :=
  take_nibble (m.buf.getD (m.elem_idx loc >>> 1) 0) ((m.elem_idx loc &&& 1) <<< 2)

/-- The cells in the order the nested loops of `update_world` visit them. -/
def scan_order (dims : Point) : List Point :=
  (List.range dims.y).flatMap (fun y => (List.range dims.x).map (fun x => Point.mk x y))

/-- The code pass 1 writes to the back grid for the front code `ty` (line 257). -/
def seed_of (ty : CellType) : CellType := if ty != OBSTACLE then EMPTY else ty

/-- The state and draw count with which pass 2 of the tick on `state` reaches
the cell `loc`: pass 1, then the iterations of pass 2 for the cells that come
before `loc` in scan order. -/
def pass2_before (state : FluxState) (rng : Nat → Nat) (k : Nat) (loc : Point) :
    Except Fault (FluxState × Nat) := do
  let dims := state.dims
  let s1 ← for_each_cell dims seed_cell state
  ((scan_order dims).takeWhile (fun q => decide (q ≠ loc))).foldlM
    (fun w q => move_cell dims rng q w) (s1, k)

/-- The particle type and the final destination (lines 270-330) that the tick
on `state` computes for the source cell `loc`, if pass 2 reaches `loc`, finds
a particle there and computes a destination. -/
def final_destination (state : FluxState) (rng : Nat → Nat) (k : Nat) (loc : Point) :
    Option (CellType × Point) :=
  match pass2_before state rng k loc with
  | .error _ => none
  | .ok w =>
    match w.1.get_particle loc with
    | .error _ => none
    | .ok ty =>
      if ty == EMPTY || ty == OBSTACLE then none
      else
        match destination w.1 rng w.2 loc ty with
        | .error _ => none
        | .ok r => some (ty, r.1)

/-- The invariant of pass 2 of the tick on `s`, where `s1` is the state after
pass 1, `pre` the cells already processed and `w` the current state and draw
count: the front grid is untouched, the back grid holds an obstacle exactly
where the front grid does, no particle lies in the culling margin of the back
grid, and the back cell of a cell that is not yet processed and not EMPTY in
the front grid is still as pass 1 seeded it. -/
def Pass2Inv (s s1 : FluxState) (rng : Nat → Nat) (k : Nat) (pre : List Point)
    (w : FluxState × Nat) : Prop :=
  pre.foldlM (fun w q => move_cell s.dims rng q w) (s1, k) = .ok w ∧
  w.1.wf ∧ w.1.front = s.front ∧ w.1.back.dims = s.back.dims ∧
  (∀ p, s.back.check_loc p = true →
    (w.1.back.cell p = OBSTACLE ↔ s.front.cell p = OBSTACLE)) ∧
  (∀ p, s.back.check_loc p = true → culled s.dims p = true →
    w.1.back.cell p ≠ OBSTACLE → w.1.back.cell p = EMPTY) ∧
  (∀ p, s.back.check_loc p = true → p ∉ pre → s.front.cell p ≠ EMPTY →
    w.1.back.cell p = seed_of (s.front.cell p))

/-- In the tick on `s` the source cell `loc` writes the particle type `t` to the
back cell `p`: `p` is its final destination and is not culled. -/
def WritesTo (s : FluxState) (rng : Nat → Nat) (k : Nat) (loc : Point) (t : CellType)
    (p : Point) : Prop :=
  final_destination s rng k loc = some (t, p) ∧ culled s.dims p = false

/-- The particles of the back grid during pass 2 are exactly the ones written
by the source cells `pre` processed so far, each at its final destination, and
no two processed source cells wrote to the same cell. -/
def Pass2Writes (s : FluxState) (rng : Nat → Nat) (k : Nat) (pre : List Point)
    (w : FluxState × Nat) : Prop :=
  (∀ loc ∈ pre, ∀ t p, WritesTo s rng k loc t p → w.1.back.cell p = t) ∧
  (∀ p, s.back.check_loc p = true → w.1.back.cell p ≠ EMPTY → w.1.back.cell p ≠ OBSTACLE →
    ∃ loc ∈ pre, WritesTo s rng k loc (w.1.back.cell p) p) ∧
  (∀ loc1 ∈ pre, ∀ loc2 ∈ pre, ∀ t1 t2 p,
    WritesTo s rng k loc1 t1 p → WritesTo s rng k loc2 t2 p → loc1 = loc2)

/-- The number of cells of the grid that read the code `t`. -/
def count_type (m : ParticleMap) (t : CellType) : Nat :=
  (scan_order m.dims).countP (fun p => decide (m.get p = .ok t))

/-- The source cell `loc` holds a particle of type `t` that the tick on `s`
culls. -/
def culled_source (s : FluxState) (rng : Nat → Nat) (k : Nat) (t : CellType) (loc : Point) :
    Bool :=
  match final_destination s rng k loc with
  | some r => r.1 == t && culled s.dims r.2
  | none => false

/-- The source cell `loc` holds a particle of type `t` that the tick on `s`
writes to the back grid. -/
def moved_source (s : FluxState) (rng : Nat → Nat) (k : Nat) (t : CellType) (loc : Point) :
    Bool :=
  match final_destination s rng k loc with
  | some r => r.1 == t && !culled s.dims r.2
  | none => false

/-- The number of particles of type `t` that the tick on `s` culls. -/
def count_culled (s : FluxState) (rng : Nat → Nat) (k : Nat) (t : CellType) : Nat :=
  (scan_order s.dims).countP (culled_source s rng k t)

/-- The final destination of the source cell `loc`, or `loc` when it has none. -/
def dest_of (s : FluxState) (rng : Nat → Nat) (k : Nat) (loc : Point) : Point :=
  match final_destination s rng k loc with
  | some r => r.2
  | none => loc

/-- The first cell of `cands` that reads EMPTY in both grids of `s`, or `dflt`
when there is none. -/
def first_fully_empty (s : FluxState) (cands : List Point) (dflt : Point) : Point :=
  (cands.find? (fun p => decide (s.back.get p = .ok EMPTY ∧ s.front.get p = .ok EMPTY))).getD dflt

/-- The cells the movement rules can examine or return for a particle at `loc`. -/
def near_cells (loc : Point) : List Point :=
  [loc, below loc, left (below loc), right (below loc), above loc, left (above loc),
    right (above loc), left loc, right loc]

/-- The body of the loops of pass 2 with the write of line 334 removed: in the
culling branch the back grid is left as it is. -/
def move_cell_without_cull_write (dims : Point) (rng : Nat → Nat) (loc : Point)
    (w : FluxState × Nat) : Except Fault (FluxState × Nat) := do
  let ty ← w.1.get_particle loc
  if ty == EMPTY || ty == OBSTACLE then
    pure w
  else
    let r ← destination w.1 rng w.2 loc ty
    if culled dims r.1 then
      pure (w.1, r.2)
    else
      let s ← w.1.back_set_particle r.1 ty
      pure (s, r.2)

/-- The function `update_world` with the write of line 334 removed. -/
def update_world_without_cull_write (state : FluxState) (rng : Nat → Nat) (k : Nat) :
    Except Fault (FluxState × Nat) := do
  let dims := state.dims
  let s1 ← for_each_cell dims seed_cell state
  let w ← for_each_cell dims (move_cell_without_cull_write dims rng) (s1, k)
  let s3 ← w.1.flip
  pure (s3, w.2)

/-- Two well-formed states of the same dimensions whose front grids read the
same and whose back grids read the same at every coordinate. -/
def SameCells (s t : FluxState) : Prop :=
  s.wf ∧ t.wf ∧ s.back.dims = t.back.dims ∧ (∀ p, s.front.get p = t.front.get p) ∧
    (∀ p, s.back.get p = t.back.get p)

/-- Two results of pass 2 that fail in the same way or return states that read
the same, with the same number of draws consumed. -/
def SameOutcome (r r2 : Except Fault (FluxState × Nat)) : Prop :=
  match r, r2 with
  | .ok w, .ok w2 => SameCells w.1 w2.1 ∧ w.2 = w2.2
  | .error e, .error e2 => e = e2
  | _, _ => False

/-! ## The packed grid: nibble arithmetic -/

set_option maxRecDepth 100000 in
theorem nibble_table : ∀ b < 256, ∀ t < 16,
    take_nibble (put_nibble b 0 t) 0 = t ∧ take_nibble (put_nibble b 0 t) 4 = take_nibble b 4 ∧
    take_nibble (put_nibble b 4 t) 4 = t ∧ take_nibble (put_nibble b 4 t) 0 = take_nibble b 0 := by
  decide

theorem fill_table : ∀ t < 16,
    take_nibble (ParticleMap.fill_elem t) 0 = t ∧ take_nibble (ParticleMap.fill_elem t) 4 = t := by
  decide

theorem offset_cases (e : Nat) : (e &&& 1) <<< 2 = 0 ∧ e % 2 = 0 ∨ (e &&& 1) <<< 2 = 4 ∧ e % 2 = 1 := by
  rw [Nat.and_one_is_mod]
  rcases Nat.mod_two_eq_zero_or_one e with h | h <;> simp [h]

theorem take_nibble_lt (b off : Nat) : take_nibble b off < 16 := by
  unfold take_nibble
  exact Nat.lt_of_le_of_lt Nat.and_le_right (by decide)

/-- Writing one nibble and reading a nibble of the same byte back. -/
theorem take_put (b t e e2 : Nat) (hb : b < 256) (ht : t < 16) :
    take_nibble (put_nibble b ((e &&& 1) <<< 2) t) ((e2 &&& 1) <<< 2) =
      if e % 2 = e2 % 2 then t else take_nibble b ((e2 &&& 1) <<< 2) := by
  have h := nibble_table b hb t ht
  rcases offset_cases e with ⟨h1, h1m⟩ | ⟨h1, h1m⟩ <;>
    rcases offset_cases e2 with ⟨h2, h2m⟩ | ⟨h2, h2m⟩ <;>
    simp [h1, h2, h1m, h2m, h.1, h.2.1, h.2.2.1, h.2.2.2]

/-! ## The packed grid: addressing -/

namespace ParticleMap

theorem check_loc_iff (m : ParticleMap) (loc : Point) :
    m.check_loc loc = true ↔ loc.x < m.dims.x ∧ loc.y < m.dims.y := by
  simp [check_loc]

/-- Row-major index of an in-range cell is below the cell count. -/
theorem index_lt {w h x y : Nat} (hx : x < w) (hy : y < h) : y * w + x < w * h := by
  calc y * w + x < y * w + w := by omega
    _ = (y + 1) * w := by ring
    _ ≤ h * w := Nat.mul_le_mul_right w hy
    _ = w * h := by ring

/-- Row-major indexing is injective on in-range cells. -/
theorem index_inj {w x y x2 y2 : Nat} (hx : x < w) (hx2 : x2 < w)
    (h : y * w + x = y2 * w + x2) : x = x2 ∧ y = y2 := by
  have h1 : (y * w + x) % w = x := by
    rw [Nat.add_comm, Nat.add_mul_mod_self_right, Nat.mod_eq_of_lt hx]
  have h2 : (y2 * w + x2) % w = x2 := by
    rw [Nat.add_comm, Nat.add_mul_mod_self_right, Nat.mod_eq_of_lt hx2]
  have hxx : x = x2 := by rw [← h1, ← h2, h]
  subst hxx
  have hw : 0 < w := by omega
  have : y * w = y2 * w := by omega
  exact ⟨rfl, Nat.eq_of_mul_eq_mul_right hw this⟩

theorem elem_idx_eq {m : ParticleMap} (hm : m.wf) {loc : Point} (hl : m.check_loc loc = true) :
    m.elem_idx loc = loc.y * m.dims.x + loc.x := by
  rw [check_loc_iff] at hl
  have h := index_lt hl.1 hl.2
  have h0 := hm.1
  unfold elem_idx
  have h1 : loc.y * m.dims.x < SIZE_MOD := by omega
  rw [Nat.mod_eq_of_lt h1, Nat.mod_eq_of_lt (by omega)]

theorem byte_idx_lt {m : ParticleMap} (hm : m.wf) {loc : Point} (hl : m.check_loc loc = true) :
    m.elem_idx loc >>> 1 < m.buf.length := by
  rw [elem_idx_eq hm hl, hm.2.2.1, hm.2.1]
  rw [check_loc_iff] at hl
  have h := index_lt hl.1 hl.2
  simp only [Nat.shiftRight_eq_div_pow]
  omega

theorem cell_lt (m : ParticleMap) (loc : Point) : m.cell loc < 16 := take_nibble_lt _ _

theorem get_out {m : ParticleMap} {loc : Point} (hl : m.check_loc loc = false) :
    m.get loc = .error Fault.abort := by
  simp [get, assert_loc, hl, bind, Except.bind, throw, throwThe, MonadExceptOf.throw]

theorem set_out {m : ParticleMap} {loc : Point} (hl : m.check_loc loc = false) (t : CellType) :
    m.set loc t = .error Fault.abort := by
  simp [set, assert_loc, hl, bind, Except.bind, throw, throwThe, MonadExceptOf.throw]

/-- On a well-formed grid `get` of an in-range cell returns its code. -/
theorem get_in {m : ParticleMap} (hm : m.wf) {loc : Point} (hl : m.check_loc loc = true) :
    m.get loc = .ok (m.cell loc) := by
  have hb := byte_idx_lt hm hl
  simp [get, assert_loc, hl, bind, Except.bind, pure, Except.pure, cell, take_nibble,
    List.getElem?_eq_getElem hb, List.getD_eq_getElem?_getD]

/-- On a well-formed grid `set` of an in-range cell returns, with the byte rewritten. -/
theorem set_in {m : ParticleMap} (hm : m.wf) {loc : Point} (hl : m.check_loc loc = true)
    (t : CellType) :
    m.set loc t = .ok { m with
      buf := m.buf.set (m.elem_idx loc >>> 1)
        (put_nibble (m.buf.getD (m.elem_idx loc >>> 1) 0) ((m.elem_idx loc &&& 1) <<< 2) t) } := by
  have hb := byte_idx_lt hm hl
  simp [set, assert_loc, hl, bind, Except.bind, pure, Except.pure, put_nibble,
    List.getElem?_eq_getElem hb, List.getD_eq_getElem?_getD]

theorem byte_lt {m : ParticleMap} (hm : m.wf) (i : Nat) : m.buf.getD i 0 < 256 := by
  rw [List.getD_eq_getElem?_getD]
  rcases h : m.buf[i]? with _ | b
  · simp
  · simp only [Option.getD_some]
    exact hm.2.2.2 b (List.getElem?_mem h)

/-- The grid after a successful `set`, cell by cell. -/
theorem set_spec {m : ParticleMap} (hm : m.wf) {loc : Point} (hl : m.check_loc loc = true)
    {t : CellType} (ht : t < 16) :
    ∃ m2, m.set loc t = .ok m2 ∧ m2.wf ∧ m2.dims = m.dims ∧ m2.buf_size = m.buf_size ∧
      m2.cell loc = t ∧
      ∀ loc2, m.check_loc loc2 = true → loc2 ≠ loc → m2.cell loc2 = m.cell loc2 := by
  have hb := byte_idx_lt hm hl
  have hbyte := byte_lt hm (m.elem_idx loc >>> 1)
  refine ⟨_, set_in hm hl t, ?_, rfl, rfl, ?_, ?_⟩
  · refine ⟨hm.1, hm.2.1, ?_, ?_⟩
    · simp only [List.length_set]; exact hm.2.2.1
    · intro b hbm
      rcases List.mem_or_eq_of_mem_set hbm with h | h
      · exact hm.2.2.2 b h
      · rw [h]; unfold put_nibble; exact Nat.mod_lt _ (by decide)
  · simp only [cell, elem_idx, List.getD_eq_getElem?_getD]
    have hb2 : (((loc.y * m.dims.x) % SIZE_MOD + loc.x) % SIZE_MOD) >>> 1 < m.buf.length := hb
    rw [List.getElem?_set_self hb2]
    simp only [Option.getD_some]
    have := take_put _ t (m.elem_idx loc) (m.elem_idx loc) hbyte ht
    simpa [elem_idx, List.getD_eq_getElem?_getD] using this
  · intro loc2 hl2 hne
    have e1 := elem_idx_eq hm hl
    have e2 := elem_idx_eq hm hl2
    have hne2 : m.elem_idx loc2 ≠ m.elem_idx loc := by
      intro h
      rw [e1, e2] at h
      rw [check_loc_iff] at hl hl2
      have := index_inj hl2.1 hl.1 h
      apply hne
      cases loc; cases loc2
      simp only [Point.mk.injEq]
      exact this
    show take_nibble ((m.buf.set (m.elem_idx loc >>> 1) _).getD (m.elem_idx loc2 >>> 1) 0)
        ((m.elem_idx loc2 &&& 1) <<< 2) = m.cell loc2
    by_cases hsame : m.elem_idx loc >>> 1 = m.elem_idx loc2 >>> 1
    · rw [List.getD_eq_getElem?_getD, ← hsame, List.getElem?_set_self hb]
      simp only [Option.getD_some]
      rw [take_put _ t (m.elem_idx loc) (m.elem_idx loc2) hbyte ht]
      have hpar : ¬ (m.elem_idx loc % 2 = m.elem_idx loc2 % 2) := by
        intro hp
        simp only [Nat.shiftRight_eq_div_pow] at hsame
        omega
      rw [if_neg hpar, cell, hsame]
    · rw [List.getD_eq_getElem?_getD, List.getElem?_set_ne hsame, cell,
        List.getD_eq_getElem?_getD]

/-- After a successful `set`, `get` reads the written code at the written cell
and the old value at every other coordinate. -/
theorem get_set {m m2 : ParticleMap} (hm : m.wf) {loc : Point} {t : CellType} (ht : t < 16)
    (hs : m.set loc t = .ok m2) (loc2 : Point) :
    m2.get loc2 = if loc2 = loc then .ok t else m.get loc2 := by
  have hl : m.check_loc loc = true := by
    by_contra h
    rw [set_out (Bool.eq_false_iff.mpr h)] at hs
    exact absurd hs (by simp)
  obtain ⟨m3, h3, hw, hd, _, hc, hrest⟩ := set_spec hm hl ht
  rw [hs] at h3
  cases h3
  by_cases hl2 : m.check_loc loc2 = true
  · have hl2b : m2.check_loc loc2 = true := by
      simpa [check_loc, hd] using hl2
    rw [get_in hw hl2b]
    by_cases he : loc2 = loc
    · rw [if_pos he, he, hc]
    · rw [if_neg he, get_in hm hl2, hrest loc2 hl2 he]
  · have hl2f : m.check_loc loc2 = false := Bool.eq_false_iff.mpr hl2
    have hl2b : m2.check_loc loc2 = false := by
      simpa [check_loc, hd] using hl2f
    have he : loc2 ≠ loc := by
      intro h; rw [h] at hl2; exact hl2 hl
    rw [get_out hl2b, get_out hl2f, if_neg he]

/-- A successful `set` keeps the class invariant and the dimensions. -/
theorem set_wf {m m2 : ParticleMap} (hm : m.wf) {loc : Point} {t : CellType} (ht : t < 16)
    (hs : m.set loc t = .ok m2) : m2.wf ∧ m2.dims = m.dims ∧ m2.buf_size = m.buf_size := by
  have hl : m.check_loc loc = true := by
    by_contra h
    rw [set_out (Bool.eq_false_iff.mpr h)] at hs
    exact absurd hs (by simp)
  obtain ⟨m3, h3, hw, hd, hb, _, _⟩ := set_spec hm hl ht
  rw [hs] at h3
  cases h3
  exact ⟨hw, hd, hb⟩

theorem set_ok {m : ParticleMap} (hm : m.wf) {loc : Point} (hl : m.check_loc loc = true)
    (t : CellType) : ∃ m2, m.set loc t = .ok m2 := ⟨_, set_in hm hl t⟩

/-! ## The packed grid: fill, construction, swap -/

theorem fill_wf {m : ParticleMap} (hm : m.wf) (t : CellType) : (m.fill t).wf := by
  refine ⟨hm.1, hm.2.1, ?_, ?_⟩
  · simp [fill]
  · intro b hb
    simp only [fill, List.mem_replicate] at hb
    rw [hb.2]
    exact Nat.mod_lt _ (by decide)

theorem fill_cell {m : ParticleMap} (hm : m.wf) {t : CellType} (ht : t < 16) {loc : Point}
    (hl : m.check_loc loc = true) : (m.fill t).cell loc = t := by
  have hb := byte_idx_lt hm hl
  rw [hm.2.2.1] at hb
  have h1 : (m.fill t).cell loc = take_nibble
      ((List.replicate m.buf_size (fill_elem t)).getD (m.elem_idx loc >>> 1) 0)
      ((m.elem_idx loc &&& 1) <<< 2) := rfl
  rw [h1, List.getD_eq_getElem?_getD, List.getElem?_replicate_of_lt hb, Option.getD_some]
  rcases offset_cases (m.elem_idx loc) with ⟨h, _⟩ | ⟨h, _⟩
  · rw [h]; exact (fill_table t ht).1
  · rw [h]; exact (fill_table t ht).2

theorem fill_get {m : ParticleMap} (hm : m.wf) {t : CellType} (ht : t < 16) {loc : Point}
    (hl : m.check_loc loc = true) : (m.fill t).get loc = .ok t := by
  have hl2 : (m.fill t).check_loc loc = true := hl
  rw [get_in (fill_wf hm t) hl2, fill_cell hm ht hl]

theorem raw_wf {dims : Point} (hd : dims.x * dims.y + 1 < SIZE_MOD) :
    ParticleMap.wf ⟨dims, (((dims.x * dims.y) % SIZE_MOD + 1) % SIZE_MOD) >>> 1,
      List.replicate ((((dims.x * dims.y) % SIZE_MOD + 1) % SIZE_MOD) >>> 1) 0⟩ := by
  have h1 : (dims.x * dims.y) % SIZE_MOD = dims.x * dims.y := Nat.mod_eq_of_lt (by omega)
  have h2 : (dims.x * dims.y + 1) % SIZE_MOD = dims.x * dims.y + 1 := Nat.mod_eq_of_lt hd
  refine ⟨hd, ?_, ?_, ?_⟩
  · simp only [h1, h2]
  · simp
  · intro b hb
    simp only [List.mem_replicate] at hb
    rw [hb.2]; decide

theorem init_wf {dims : Point} (hd : dims.x * dims.y + 1 < SIZE_MOD) (t : CellType) :
    (init dims t).wf := fill_wf (raw_wf hd) t

theorem init_get {dims : Point} (hd : dims.x * dims.y + 1 < SIZE_MOD) {t : CellType}
    (ht : t < 16) {loc : Point} (hl : (init dims t).check_loc loc = true) :
    (init dims t).get loc = .ok t := fill_get (raw_wf hd) ht hl

theorem swap_eq_ok {a b : ParticleMap} (h : a.buf_size = b.buf_size) :
    a.swap b = .ok ({ a with buf := b.buf }, { b with buf := a.buf }) := by
  simp [swap, h, pure, Except.pure]

theorem swap_abort_iff (a b : ParticleMap) :
    a.swap b = .error Fault.abort ↔ a.buf_size ≠ b.buf_size := by
  by_cases h : a.buf_size = b.buf_size
  · simp [swap, h, pure, Except.pure]
  · simp [swap, h, throw, throwThe, MonadExceptOf.throw]

theorem swap_wf {a b : ParticleMap} (ha : a.wf) (hb : b.wf) (h : a.buf_size = b.buf_size) :
    ParticleMap.wf { a with buf := b.buf } ∧ ParticleMap.wf { b with buf := a.buf } := by
  refine ⟨⟨ha.1, ha.2.1, ?_, hb.2.2.2⟩, ⟨hb.1, hb.2.1, ?_, ha.2.2.2⟩⟩
  · show b.buf.length = a.buf_size
    rw [hb.2.2.1, h]
  · show a.buf.length = b.buf_size
    rw [ha.2.2.1, h]

end ParticleMap

/-! ## Loops -/

theorem mem_scan_order (dims p : Point) : p ∈ scan_order dims ↔ p.x < dims.x ∧ p.y < dims.y := by
  cases p with
  | mk px py =>
    simp only [scan_order, List.mem_flatMap, List.mem_range, List.mem_map, Point.mk.injEq]
    constructor
    · rintro ⟨y, hy, x, hx, h1, h2⟩
      subst h1; subst h2; exact ⟨hx, hy⟩
    · rintro ⟨hx, hy⟩
      exact ⟨py, hy, px, hx, rfl, rfl⟩

theorem nodup_scan_order (dims : Point) : (scan_order dims).Nodup := by
  unfold scan_order
  rw [List.nodup_flatMap]
  refine ⟨?_, ?_⟩
  · intro y _
    apply List.Nodup.map _ (List.nodup_range _)
    intro a b h
    simpa using h
  · apply List.Pairwise.imp _ (List.nodup_range dims.y)
    intro a b hab
    intro p h1 h2
    simp only [List.mem_map, List.mem_range] at h1 h2
    obtain ⟨_, _, h1⟩ := h1
    obtain ⟨_, _, h2⟩ := h2
    rw [← h2] at h1
    simp only [Point.mk.injEq] at h1
    exact hab h1.2

theorem foldlM_flatMap {α β σ : Type} (f : α → List β) (g : σ → β → Except Fault σ) :
    ∀ (l : List α) (s : σ),
      (l.flatMap f).foldlM g s = l.foldlM (fun s a => (f a).foldlM g s) s := by
  intro l
  induction l with
  | nil => intro s; rfl
  | cons a l ih =>
    intro s
    rw [List.flatMap_cons, List.foldlM_append, List.foldlM_cons]
    congr 1
    funext s2
    exact ih s2

/-- The nested loops are one loop over the cells in scan order. -/
theorem for_each_cell_eq {σ : Type} (dims : Point) (body : Point → σ → Except Fault σ) (s : σ) :
    for_each_cell dims body s = (scan_order dims).foldlM (fun s loc => body loc s) s := by
  unfold for_each_cell scan_order
  rw [foldlM_flatMap]
  congr 1
  funext s2 y
  rw [List.foldlM_map]

/-- Invariant rule for a loop that may fail: `J pre s` relates the cells
already visited to the state; the rule applies to every segment of the loop. -/
theorem foldlM_inv {α σ : Type} (body : σ → α → Except Fault σ) (J : List α → σ → Prop)
    (l : List α)
    (hstep : ∀ pre a post s s2, l = pre ++ a :: post → J pre s → body s a = .ok s2 →
      J (pre ++ [a]) s2) :
    ∀ (mid pre post : List α) (s s2 : σ), l = pre ++ mid ++ post → J pre s →
      mid.foldlM body s = .ok s2 → J (pre ++ mid) s2 := by
  intro mid
  induction mid with
  | nil =>
    intro pre post s s2 _ hJ hf
    simp only [List.foldlM_nil, pure, Except.pure, Except.ok.injEq] at hf
    rw [List.append_nil, ← hf]; exact hJ
  | cons a mid ih =>
    intro pre post s s2 hl hJ hf
    rw [List.foldlM_cons] at hf
    cases hb : body s a with
    | error e => rw [hb] at hf; exact absurd hf (by simp [bind, Except.bind])
    | ok s1 =>
      rw [hb] at hf
      have h := ih (pre ++ [a]) post s1 s2 (by simp [hl])
        (hstep pre a (mid ++ post) s s1 (by simp [hl]) hJ hb) hf
      simpa using h

theorem foldlM_append_ok {α σ : Type} (body : σ → α → Except Fault σ) (l1 l2 : List α)
    {s r : σ} (h : (l1 ++ l2).foldlM body s = .ok r) :
    ∃ m, l1.foldlM body s = .ok m ∧ l2.foldlM body m = .ok r := by
  rw [List.foldlM_append] at h
  cases h1 : l1.foldlM body s with
  | error e => rw [h1] at h; exact absurd h (by simp [bind, Except.bind])
  | ok m => rw [h1] at h; exact ⟨m, rfl, h⟩

/-- Invariant rule for a loop whose body returns whenever the invariant holds. -/
theorem foldlM_total {α σ : Type} (body : σ → α → Except Fault σ) (J : List α → σ → Prop)
    (l : List α)
    (hstep : ∀ pre a post s, l = pre ++ a :: post → J pre s →
      ∃ s2, body s a = .ok s2 ∧ J (pre ++ [a]) s2) :
    ∀ (post pre : List α) (s : σ), l = pre ++ post → J pre s →
      ∃ s2, post.foldlM body s = .ok s2 ∧ J l s2 := by
  intro post
  induction post with
  | nil =>
    intro pre s hl hJ
    refine ⟨s, rfl, ?_⟩
    rw [hl, List.append_nil]; exact hJ
  | cons a post ih =>
    intro pre s hl hJ
    obtain ⟨s1, hb, hJ1⟩ := hstep pre a post s hl hJ
    obtain ⟨s2, hf, hJ2⟩ := ih (pre ++ [a]) s1 (by simp [hl]) hJ1
    refine ⟨s2, ?_, hJ2⟩
    rw [List.foldlM_cons, hb]
    exact hf

/-! ## The simulation state -/

theorem bind_ite_ok {α : Type} {c : Except Fault Bool} {A B : Except Fault α} {r : α} :
    (c >>= fun b => if b = true then A else B) = .ok r ↔
      (c = .ok true ∧ A = .ok r) ∨ (c = .ok false ∧ B = .ok r) := by
  cases c with
  | error e => simp [bind, Except.bind]
  | ok b => cases b <;> simp [bind, Except.bind]

theorem and_then_true {a : Bool} {c : Except Fault Bool} :
    and_then a c = .ok true ↔ a = true ∧ c = .ok true := by
  cases a <;> simp [and_then, pure, Except.pure]

namespace FluxState

theorem check_front {s : FluxState} (hs : s.wf) (p : Point) :
    s.front.check_loc p = s.back.check_loc p := by
  simp [ParticleMap.check_loc, hs.2.2]

theorem get_particle_eq {s : FluxState} (hs : s.wf) (p : Point) :
    s.get_particle p =
      if s.back.check_loc p = true then .ok (s.front.cell p) else .error Fault.abort := by
  unfold get_particle
  by_cases h : s.back.check_loc p = true
  · rw [if_pos h, ParticleMap.get_in hs.2.1 (by rw [check_front hs]; exact h)]
  · rw [if_neg h, ParticleMap.get_out (by rw [check_front hs]; exact Bool.eq_false_iff.mpr h)]

theorem is_fully_empty_eq {s : FluxState} (hs : s.wf) (p : Point) :
    s.is_fully_empty p =
      if s.back.check_loc p = true then
        .ok (decide (s.back.cell p = EMPTY) && decide (s.front.cell p = EMPTY))
      else .error Fault.abort := by
  unfold is_fully_empty
  by_cases h : s.back.check_loc p = true
  · rw [if_pos h, ParticleMap.get_in hs.1 h,
      ParticleMap.get_in hs.2.1 (by rw [check_front hs]; exact h)]
    by_cases hb : s.back.cell p = EMPTY
    · by_cases hf : s.front.cell p = EMPTY
      · simp [hb, hf, bind, Except.bind, pure, Except.pure]
      · simp [hb, hf, bind, Except.bind, pure, Except.pure]
    · simp [hb, bind, Except.bind, pure, Except.pure]
  · rw [if_neg h, ParticleMap.get_out (Bool.eq_false_iff.mpr h)]
    rfl

/-- A cell for which `is_fully_empty` returned true. -/
theorem fully_empty_true {s : FluxState} (hs : s.wf) {p : Point}
    (h : s.is_fully_empty p = .ok true) :
    s.back.check_loc p = true ∧ s.back.cell p = EMPTY ∧ s.front.cell p = EMPTY := by
  rw [is_fully_empty_eq hs] at h
  by_cases hc : s.back.check_loc p = true
  · rw [if_pos hc] at h
    simp only [Except.ok.injEq, Bool.and_eq_true, decide_eq_true_eq] at h
    exact ⟨hc, h.1, h.2⟩
  · rw [if_neg hc] at h
    exact absurd h (by simp)

/-- The state after a successful write to the back grid. -/
theorem back_set_spec {s s2 : FluxState} (hs : s.wf) {loc : Point} {t : CellType} (ht : t < 16)
    (h : s.back_set_particle loc t = .ok s2) :
    s2.wf ∧ s2.front = s.front ∧ s2.back.dims = s.back.dims ∧ s.back.check_loc loc = true ∧
      s2.back.cell loc = t ∧
      ∀ p, s.back.check_loc p = true → p ≠ loc → s2.back.cell p = s.back.cell p := by
  unfold back_set_particle at h
  by_cases hl : s.back.check_loc loc = true
  · obtain ⟨m2, hm2, hw, hd, _, hc, hrest⟩ := ParticleMap.set_spec hs.1 hl ht
    rw [hm2] at h
    simp only [bind, Except.bind, pure, Except.pure, Except.ok.injEq] at h
    subst h
    exact ⟨⟨hw, hs.2.1, by rw [hd]; exact hs.2.2⟩, rfl, hd, hl, hc, hrest⟩
  · rw [ParticleMap.set_out (Bool.eq_false_iff.mpr hl)] at h
    exact absurd h (by simp [bind, Except.bind])

theorem back_set_ok {s : FluxState} (hs : s.wf) {loc : Point} (hl : s.back.check_loc loc = true)
    (t : CellType) : ∃ s2, s.back_set_particle loc t = .ok s2 := by
  obtain ⟨m2, hm2⟩ := ParticleMap.set_ok hs.1 hl t
  exact ⟨{ s with back := m2 }, by simp [back_set_particle, hm2, bind, Except.bind, pure, Except.pure]⟩

end FluxState

theorem seed_of_lt (t : CellType) : seed_of t < 16 := by
  unfold seed_of
  split
  · decide
  · rename_i h
    simp only [bne_iff_ne, ne_eq, Decidable.not_not] at h
    rw [h]; decide

/-- One iteration of pass 1 on an in-range cell. -/
theorem seed_cell_spec {s : FluxState} (hs : s.wf) {loc : Point}
    (hl : s.back.check_loc loc = true) :
    ∃ s2, seed_cell loc s = .ok s2 ∧ s2.wf ∧ s2.front = s.front ∧ s2.back.dims = s.back.dims ∧
      s2.back.cell loc = seed_of (s.front.cell loc) ∧
      ∀ p, s.back.check_loc p = true → p ≠ loc → s2.back.cell p = s.back.cell p := by
  obtain ⟨s2, h2⟩ := FluxState.back_set_ok hs hl (seed_of (s.front.cell loc))
  obtain ⟨hw, hf, hd, _, hc, hrest⟩ := FluxState.back_set_spec hs (seed_of_lt _) h2
  refine ⟨s2, ?_, hw, hf, hd, hc, hrest⟩
  unfold seed_cell
  rw [FluxState.get_particle_eq hs, if_pos hl]
  exact h2

/-- Pass 1 returns; afterwards the back grid holds the obstacles of the front
grid and EMPTY everywhere else, and the front grid is untouched. -/
theorem pass1_spec {s : FluxState} (hs : s.wf) :
    ∃ s1, for_each_cell s.dims seed_cell s = .ok s1 ∧ s1.wf ∧ s1.front = s.front ∧
      s1.back.dims = s.back.dims ∧
      ∀ p, s.back.check_loc p = true → s1.back.cell p = seed_of (s.front.cell p) := by
  rw [for_each_cell_eq]
  have key := foldlM_total (fun s loc => seed_cell loc s)
    (fun pre s1 => s1.wf ∧ s1.front = s.front ∧ s1.back.dims = s.back.dims ∧
      ∀ p ∈ pre, s1.back.cell p = seed_of (s.front.cell p))
    (scan_order s.dims) ?_ (scan_order s.dims) [] s rfl ⟨hs, rfl, rfl, by simp⟩
  · obtain ⟨s1, h1, hw, hf, hd, hc⟩ := key
    refine ⟨s1, h1, hw, hf, hd, ?_⟩
    intro p hp
    apply hc
    rw [mem_scan_order]
    exact (ParticleMap.check_loc_iff _ _).mp hp
  · intro pre a post s1 hl ⟨hw, hf, hd, hc⟩
    have ha : a ∈ scan_order s.dims := by rw [hl]; simp
    rw [mem_scan_order] at ha
    have hin : s1.back.check_loc a = true := by
      rw [ParticleMap.check_loc_iff, hd]; exact ha
    obtain ⟨s2, h2, hw2, hf2, hd2, hc2, hrest⟩ := seed_cell_spec hw hin
    refine ⟨s2, h2, hw2, hf2.trans hf, hd2.trans hd, ?_⟩
    intro p hp
    by_cases hpa : p = a
    · rw [hpa, hc2, hf]
    · have hp2 : p ∈ pre := by
        simp only [List.mem_append, List.mem_singleton] at hp
        exact hp.resolve_right hpa
      have hpin : p ∈ scan_order s.dims := by rw [hl]; simp [hp2]
      rw [mem_scan_order] at hpin
      rw [hrest p (by rw [ParticleMap.check_loc_iff, hd]; exact hpin) hpa]
      exact hc p hp2

/-! ## Pass 2: destinations -/

theorem heavy_rule_dest {s : FluxState} {rng : Nat → Nat} {k : Nat} {loc : Point}
    {r : Point × Nat} (h : heavy_rule s rng k loc = .ok r) :
    r.1 = loc ∨ s.is_fully_empty r.1 = .ok true := by
  unfold heavy_rule at h
  simp only [bind_ite_ok, and_then_true, pure, Except.pure, Except.ok.injEq] at h
  rcases h with ⟨h1, rfl⟩ | ⟨_, ⟨⟨_, h1⟩, rfl⟩ | ⟨_, ⟨⟨_, h1⟩, rfl⟩ | ⟨_, rfl⟩⟩⟩
  · exact Or.inr h1
  · exact Or.inr h1
  · exact Or.inr h1
  · exact Or.inl rfl

theorem light_rule_dest {s : FluxState} {rng : Nat → Nat} {k : Nat} {loc : Point}
    {r : Point × Nat} (h : light_rule s rng k loc = .ok r) :
    r.1 = loc ∨ s.is_fully_empty r.1 = .ok true := by
  unfold light_rule at h
  simp only [bind_ite_ok, and_then_true, pure, Except.pure, Except.ok.injEq] at h
  rcases h with ⟨h1, rfl⟩ | ⟨_, ⟨⟨_, h1⟩, rfl⟩ | ⟨_, ⟨⟨_, h1⟩, rfl⟩ | ⟨_, rfl⟩⟩⟩
  · exact Or.inr h1
  · exact Or.inr h1
  · exact Or.inr h1
  · exact Or.inl rfl

theorem water_rule_dest {s : FluxState} {loc d : Point} (h : water_rule s loc = .ok d) :
    d = loc ∨ s.is_fully_empty d = .ok true := by
  unfold water_rule at h
  simp only [bind_ite_ok, pure, Except.pure, Except.ok.injEq] at h
  rcases h with ⟨h1, rfl⟩ | ⟨_, ⟨h1, rfl⟩ | ⟨_, ⟨h1, rfl⟩ | ⟨_, ⟨h1, rfl⟩ | ⟨_, ⟨h1, rfl⟩ | ⟨_, rfl⟩⟩⟩⟩⟩
  · exact Or.inr h1
  · exact Or.inr h1
  · exact Or.inr h1
  · exact Or.inr h1
  · exact Or.inr h1
  · exact Or.inl rfl

theorem provisional_dest {s : FluxState} {rng : Nat → Nat} {k : Nat} {loc : Point}
    {ty : CellType} {r : Point × Nat} (h : provisional s rng k loc ty = .ok r) :
    r.1 = loc ∨ s.is_fully_empty r.1 = .ok true := by
  unfold provisional at h
  split at h
  · exact heavy_rule_dest h
  · split at h
    · exact light_rule_dest h
    · split at h
      · cases hw : water_rule s loc with
        | error e => rw [hw] at h; exact absurd h (by simp [bind, Except.bind])
        | ok d =>
          rw [hw] at h
          simp only [bind, Except.bind, pure, Except.pure, Except.ok.injEq] at h
          rw [← h]
          exact water_rule_dest hw
      · simp only [pure, Except.pure, Except.ok.injEq] at h
        rw [← h]; exact Or.inl rfl

theorem apply_drift_dest {s : FluxState} {lr : Int} {p d : Point}
    (h : apply_drift s lr p = .ok d) : d = p ∨ s.is_fully_empty d = .ok true := by
  unfold apply_drift at h
  split at h
  · simp only [bind_ite_ok, pure, Except.pure, Except.ok.injEq] at h
    rcases h with ⟨h1, rfl⟩ | ⟨_, rfl⟩
    · exact Or.inr h1
    · exact Or.inl rfl
  · split at h
    · simp only [bind_ite_ok, pure, Except.pure, Except.ok.injEq] at h
      rcases h with ⟨h1, rfl⟩ | ⟨_, rfl⟩
      · exact Or.inr h1
      · exact Or.inl rfl
    · simp only [pure, Except.pure, Except.ok.injEq] at h
      exact Or.inl h.symm

/-- The final destination of a particle is its own cell or a cell that
`is_fully_empty` accepted in the state in which the particle is processed. -/
theorem destination_dest {s : FluxState} {rng : Nat → Nat} {k : Nat} {loc : Point}
    {ty : CellType} {r : Point × Nat} (h : destination s rng k loc ty = .ok r) :
    r.1 = loc ∨ s.is_fully_empty r.1 = .ok true := by
  unfold destination at h
  cases hp : provisional s rng (k + 1) loc ty with
  | error e => rw [hp] at h; exact absurd h (by simp [bind, Except.bind])
  | ok r1 =>
    rw [hp] at h
    simp only [bind, Except.bind] at h
    cases hd : apply_drift s (leftright_of (rng k)) r1.1 with
    | error e => rw [hd] at h; exact absurd h (by simp)
    | ok d =>
      rw [hd] at h
      simp only [pure, Except.pure, Except.ok.injEq] at h
      rw [← h]
      rcases apply_drift_dest hd with h1 | h1
      · rw [h1]; exact provisional_dest hp
      · exact Or.inr h1

/-- What one iteration of pass 2 does when it returns. -/
theorem move_cell_spec {s s2 : FluxState} {k k2 : Nat} {dims : Point} {rng : Nat → Nat}
    {loc : Point} (hs : s.wf) (h : move_cell dims rng loc (s, k) = .ok (s2, k2)) :
    s.back.check_loc loc = true ∧
    (((s.front.cell loc = EMPTY ∨ s.front.cell loc = OBSTACLE) ∧ s2 = s ∧ k2 = k) ∨
     (s.front.cell loc ≠ EMPTY ∧ s.front.cell loc ≠ OBSTACLE ∧
      ∃ d, destination s rng k loc (s.front.cell loc) = .ok (d, k2) ∧
        ((culled dims d = true ∧ s.back_set_particle loc EMPTY = .ok s2) ∨
         (culled dims d = false ∧ s.back_set_particle d (s.front.cell loc) = .ok s2)))) := by
  unfold move_cell at h
  simp only at h
  rw [FluxState.get_particle_eq hs] at h
  by_cases hl : s.back.check_loc loc = true
  · refine ⟨hl, ?_⟩
    rw [if_pos hl] at h
    simp only [bind, Except.bind] at h
    split at h
    · rename_i hty
      simp only [Bool.or_eq_true, beq_iff_eq] at hty
      simp only [pure, Except.pure, Except.ok.injEq, Prod.mk.injEq] at h
      exact Or.inl ⟨hty, h.1.symm, h.2.symm⟩
    · rename_i hty
      simp only [Bool.or_eq_true, beq_iff_eq, not_or] at hty
      refine Or.inr ⟨hty.1, hty.2, ?_⟩
      cases hd : destination s rng k loc (s.front.cell loc) with
      | error e => rw [hd] at h; exact absurd h (by simp)
      | ok r =>
        rw [hd] at h
        simp only at h
        refine ⟨r.1, ?_, ?_⟩
        · by_cases hc : culled dims r.1 = true
          · rw [if_pos hc] at h
            cases hb : s.back_set_particle loc EMPTY with
            | error e => rw [hb] at h; exact absurd h (by simp)
            | ok s3 =>
              rw [hb] at h
              simp only [pure, Except.pure, Except.ok.injEq, Prod.mk.injEq] at h
              rw [← h.2]
          · rw [if_neg hc] at h
            cases hb : s.back_set_particle r.1 (s.front.cell loc) with
            | error e => rw [hb] at h; exact absurd h (by simp)
            | ok s3 =>
              rw [hb] at h
              simp only [pure, Except.pure, Except.ok.injEq, Prod.mk.injEq] at h
              rw [← h.2]
        · by_cases hc : culled dims r.1 = true
          · rw [if_pos hc] at h
            cases hb : s.back_set_particle loc EMPTY with
            | error e => rw [hb] at h; exact absurd h (by simp)
            | ok s3 =>
              rw [hb] at h
              simp only [pure, Except.pure, Except.ok.injEq, Prod.mk.injEq] at h
              exact Or.inl ⟨hc, by rw [h.1]⟩
          · rw [if_neg hc] at h
            cases hb : s.back_set_particle r.1 (s.front.cell loc) with
            | error e => rw [hb] at h; exact absurd h (by simp)
            | ok s3 =>
              rw [hb] at h
              simp only [pure, Except.pure, Except.ok.injEq, Prod.mk.injEq] at h
              exact Or.inr ⟨Bool.eq_false_iff.mpr hc, by rw [h.1]⟩
  · rw [if_neg hl] at h
    exact absurd h (by simp [bind, Except.bind])

/-- An EMPTY or OBSTACLE cell is skipped by pass 2. -/
theorem move_cell_skip {s : FluxState} (hs : s.wf) {loc : Point}
    (hl : s.back.check_loc loc = true)
    (hty : s.front.cell loc = EMPTY ∨ s.front.cell loc = OBSTACLE)
    (dims : Point) (rng : Nat → Nat) (k : Nat) :
    move_cell dims rng loc (s, k) = .ok (s, k) := by
  unfold move_cell
  simp only
  rw [FluxState.get_particle_eq hs, if_pos hl]
  rcases hty with h | h <;> simp [h, bind, Except.bind, pure, Except.pure]

theorem foldlM_skip {s : FluxState} (hs : s.wf) (dims : Point) (rng : Nat → Nat) (k : Nat) :
    ∀ (l : List Point),
      (∀ q ∈ l, s.back.check_loc q = true ∧
        (s.front.cell q = EMPTY ∨ s.front.cell q = OBSTACLE)) →
      l.foldlM (fun w loc => move_cell dims rng loc w) (s, k) = .ok (s, k) := by
  intro l
  induction l with
  | nil => intro _; rfl
  | cons a l ih =>
    intro h
    rw [List.foldlM_cons, move_cell_skip hs (h a (by simp)).1 (h a (by simp)).2]
    exact ih (fun q hq => h q (by simp [hq]))

namespace FluxState

/-- `flip` returns on a well-formed state and exchanges what the two grids read. -/
theorem flip_spec {s : FluxState} (hs : s.wf) :
    ∃ s2, s.flip = .ok s2 ∧ s2.wf ∧ s2.back.dims = s.back.dims ∧
      ∀ p, s2.front.get p = s.back.get p ∧ s2.back.get p = s.front.get p := by
  have hsz : s.back.buf_size = s.front.buf_size := by
    rw [hs.1.2.1, hs.2.1.2.1, hs.2.2]
  have hb : ({ s.back with buf := s.front.buf } : ParticleMap) = s.front := by
    cases hbk : s.back; cases hfr : s.front
    rw [hbk, hfr] at hsz
    have hd := hs.2.2
    rw [hbk, hfr] at hd
    simp only at hsz hd
    simp [hsz, hd]
  have hf : ({ s.front with buf := s.back.buf } : ParticleMap) = s.back := by
    cases hbk : s.back; cases hfr : s.front
    rw [hbk, hfr] at hsz
    have hd := hs.2.2
    rw [hbk, hfr] at hd
    simp only at hsz hd
    simp [hsz, hd]
  refine ⟨⟨s.front, s.back⟩, ?_, ⟨hs.2.1, hs.1, hs.2.2.symm⟩, hs.2.2.symm, fun p => ⟨rfl, rfl⟩⟩
  unfold flip
  rw [ParticleMap.swap_eq_ok hsz, hb, hf]
  rfl

end FluxState

/-! ## One tick -/

/-- `update_world` as pass 1, pass 2 over the cells in scan order, and `flip`. -/
theorem update_world_eq (s : FluxState) (rng : Nat → Nat) (k : Nat) :
    update_world s rng k =
      (for_each_cell s.dims seed_cell s >>= fun s1 =>
        (scan_order s.dims).foldlM (fun w loc => move_cell s.dims rng loc w) (s1, k) >>= fun w =>
          w.1.flip >>= fun s3 => pure (s3, w.2)) := by
  unfold update_world
  simp only [for_each_cell_eq]

/-- A tick that returns went through a pass-1 state and a pass-2 state. -/
theorem update_world_ok {s s2 : FluxState} {rng : Nat → Nat} {k k2 : Nat}
    (h : update_world s rng k = .ok (s2, k2)) :
    ∃ s1 w, for_each_cell s.dims seed_cell s = .ok s1 ∧
      (scan_order s.dims).foldlM (fun w loc => move_cell s.dims rng loc w) (s1, k) = .ok w ∧
      w.1.flip = .ok s2 ∧ w.2 = k2 := by
  rw [update_world_eq] at h
  cases h1 : for_each_cell s.dims seed_cell s with
  | error e => rw [h1] at h; exact absurd h (by simp [bind, Except.bind])
  | ok s1 =>
    rw [h1] at h
    simp only [bind, Except.bind] at h
    cases h2 : (scan_order s.dims).foldlM (fun w loc => move_cell s.dims rng loc w) (s1, k) with
    | error e => rw [h2] at h; exact absurd h (by simp)
    | ok w =>
      rw [h2] at h
      simp only at h
      cases h3 : w.1.flip with
      | error e => rw [h3] at h; exact absurd h (by simp)
      | ok s3 =>
        rw [h3] at h
        simp only [pure, Except.pure, Except.ok.injEq, Prod.mk.injEq] at h
        exact ⟨s1, w, rfl, h2, by rw [h3, h.1], h.2⟩

/-- Composition of the three stages of a tick when each returns. -/
theorem update_world_of {s s1 s2 : FluxState} {w : FluxState × Nat} {rng : Nat → Nat} {k : Nat}
    (h1 : for_each_cell s.dims seed_cell s = .ok s1)
    (h2 : (scan_order s.dims).foldlM (fun w loc => move_cell s.dims rng loc w) (s1, k) = .ok w)
    (h3 : w.1.flip = .ok s2) : update_world s rng k = .ok (s2, w.2) := by
  rw [update_world_eq, h1]
  simp only [bind, Except.bind]
  rw [h2]
  simp only
  rw [h3]
  rfl

theorem get_of_cell {m : ParticleMap} (hm : m.wf) {p : Point} (hp : m.check_loc p = true)
    {t : CellType} (h : m.get p = .ok t) : m.cell p = t := by
  rw [ParticleMap.get_in hm hp] at h
  exact Except.ok.inj h

/-- A front grid of obstacles and empty cells only is a fixed point of a tick. -/
theorem obstacle_tick {s : FluxState} (hs : s.wf)
    (hfront : ∀ p, s.back.check_loc p = true →
      s.front.cell p = EMPTY ∨ s.front.cell p = OBSTACLE)
    (rng : Nat → Nat) (k : Nat) :
    ∃ s2, update_world s rng k = .ok (s2, k) ∧ s2.wf ∧ s2.back.dims = s.back.dims ∧
      ∀ p, s2.front.get p = s.front.get p := by
  obtain ⟨s1, h1, hw1, hf1, hd1, hc1⟩ := pass1_spec hs
  have h2 := foldlM_skip hw1 s.dims rng k (scan_order s.dims) (by
    intro q hq
    rw [mem_scan_order] at hq
    have hq2 : s.back.check_loc q = true := (ParticleMap.check_loc_iff _ _).mpr hq
    refine ⟨by rw [ParticleMap.check_loc_iff, hd1]; exact hq, ?_⟩
    rw [hf1]; exact hfront q hq2)
  obtain ⟨s2, h3, hw2, hd2, hg⟩ := FluxState.flip_spec hw1
  refine ⟨s2, update_world_of h1 h2 h3, hw2, hd2.trans hd1, ?_⟩
  intro p
  rw [(hg p).1]
  by_cases hp : s.back.check_loc p = true
  · have hp1 : s1.back.check_loc p = true := by
      rw [ParticleMap.check_loc_iff, hd1]; exact (ParticleMap.check_loc_iff _ _).mp hp
    have hpf : s.front.check_loc p = true := by rw [FluxState.check_front hs]; exact hp
    rw [ParticleMap.get_in hw1.1 hp1, ParticleMap.get_in hs.2.1 hpf, hc1 p hp]
    rcases hfront p hp with h | h <;> rw [h] <;> rfl
  · have hpF := Bool.eq_false_iff.mpr hp
    have hp1 : s1.back.check_loc p = false := by
      rw [← hpF]; simp [ParticleMap.check_loc, hd1]
    have hpf : s.front.check_loc p = false := by rw [FluxState.check_front hs]; exact hpF
    rw [ParticleMap.get_out hp1, ParticleMap.get_out hpf]

/-- One iteration of pass 2 on a particle whose destination is known. -/
theorem move_cell_eval {s s2 : FluxState} (hs : s.wf) {loc : Point}
    (hl : s.back.check_loc loc = true) {ty : CellType} (hty : s.front.cell loc = ty)
    (h0 : ty ≠ EMPTY) (h1 : ty ≠ OBSTACLE) {dims : Point} {rng : Nat → Nat} {k k2 : Nat}
    {d : Point} (hd : destination s rng k loc ty = .ok (d, k2))
    (hw : (if culled dims d = true then s.back_set_particle loc EMPTY
      else s.back_set_particle d ty) = .ok s2) :
    move_cell dims rng loc (s, k) = .ok (s2, k2) := by
  unfold move_cell
  simp only
  rw [FluxState.get_particle_eq hs, if_pos hl, hty]
  have hne : (ty == EMPTY || ty == OBSTACLE) = false := by
    simp [h0, h1]
  simp only [bind, Except.bind, hne, hd]
  by_cases hc : culled dims d = true
  · rw [if_pos hc] at hw
    simp [hc, hw, pure, Except.pure]
  · rw [if_neg hc] at hw
    simp [hc, hw, pure, Except.pure]

theorem dims_lt {m : ParticleMap} (hm : m.wf) {p : Point} (hp : m.check_loc p = true) :
    m.dims.x < SIZE_MOD ∧ m.dims.y < SIZE_MOD := by
  rw [ParticleMap.check_loc_iff] at hp
  have h0 := hm.1
  have hx : m.dims.x ≤ m.dims.x * m.dims.y := Nat.le_mul_of_pos_right _ (by omega)
  have hy : m.dims.y ≤ m.dims.x * m.dims.y := Nat.le_mul_of_pos_left _ (by omega)
  omega

/-- A tick of a state whose front grid holds one particle and is EMPTY
elsewhere: pass 1 clears the back grid, and the tick returns as soon as the
destination of the particle is computed on that state. -/
theorem single_particle_tick {s : FluxState} (hs : s.wf) {loc : Point}
    (hl : s.back.check_loc loc = true) {ty : CellType} (h0 : ty ≠ EMPTY) (h1 : ty ≠ OBSTACLE)
    (hfront : ∀ p, s.back.check_loc p = true →
      s.front.cell p = if p = loc then ty else EMPTY)
    (rng : Nat → Nat) (k : Nat) :
    ∃ s1, s1.wf ∧ s1.front = s.front ∧ s1.back.dims = s.back.dims ∧
      (∀ p, s.back.check_loc p = true → s1.back.cell p = EMPTY) ∧
      ∀ d k2, destination s1 rng k loc ty = .ok (d, k2) →
        ∃ s2, update_world s rng k = .ok (s2, k2) ∧
          ∀ p, s.back.check_loc p = true →
            s2.front.get p = .ok (if culled s.dims d = false ∧ p = d then ty else EMPTY) := by
  obtain ⟨s1, hp1, hw1, hf1, hd1, hc1⟩ := pass1_spec hs
  have hin : ∀ p, s.back.check_loc p = true → s1.back.check_loc p = true := by
    intro p hp
    rw [ParticleMap.check_loc_iff, hd1]; exact (ParticleMap.check_loc_iff _ _).mp hp
  have hty : ty < 16 := by
    have := hfront loc hl
    rw [if_pos rfl] at this
    rw [← this]; exact ParticleMap.cell_lt _ _
  have hback : ∀ p, s.back.check_loc p = true → s1.back.cell p = EMPTY := by
    intro p hp
    rw [hc1 p hp, hfront p hp]
    split
    · simp [seed_of, h1]
    · rfl
  refine ⟨s1, hw1, hf1, hd1, hback, ?_⟩
  intro d k2 hd
  have hmem : loc ∈ scan_order s.dims := by
    rw [mem_scan_order]; exact (ParticleMap.check_loc_iff _ _).mp hl
  obtain ⟨pre, post, hsplit⟩ := List.append_of_mem hmem
  have hnd := nodup_scan_order s.dims
  rw [hsplit] at hnd
  have hpre : ∀ q ∈ pre, q ≠ loc := by
    intro q hq he
    rw [he] at hq
    have := (List.nodup_append.mp hnd).2.2
    exact this hq (by simp) 
  have hpost : ∀ q ∈ post, q ≠ loc := by
    intro q hq he
    rw [he] at hq
    have := (List.nodup_append.mp hnd).2.1
    rw [List.nodup_cons] at this
    exact this.1 hq
  have hrange : ∀ q, q ∈ pre ∨ q ∈ post → s.back.check_loc q = true := by
    intro q hq
    have : q ∈ scan_order s.dims := by
      rw [hsplit]
      rcases hq with h | h <;> simp [h]
    rw [mem_scan_order] at this
    exact (ParticleMap.check_loc_iff _ _).mpr this
  -- the write of the particle
  have hdin : culled s.dims d = false → s1.back.check_loc d = true := by
    intro _
    rcases destination_dest hd with h | h
    · simp only at h; rw [h]; exact hin loc hl
    · exact (FluxState.fully_empty_true hw1 h).1
  have hwrite : ∃ s3, (if culled s.dims d = true then s1.back_set_particle loc EMPTY
      else s1.back_set_particle d ty) = .ok s3 := by
    by_cases hc : culled s.dims d = true
    · rw [if_pos hc]; exact FluxState.back_set_ok hw1 (hin loc hl) _
    · rw [if_neg hc]; exact FluxState.back_set_ok hw1 (hdin (Bool.eq_false_iff.mpr hc)) _
  obtain ⟨s3, hs3⟩ := hwrite
  have hs3spec : s3.wf ∧ s3.front = s.front ∧ s3.back.dims = s.back.dims ∧
      ∀ p, s.back.check_loc p = true →
        s3.back.cell p = if culled s.dims d = false ∧ p = d then ty else EMPTY := by
    by_cases hc : culled s.dims d = true
    · rw [if_pos hc] at hs3
      obtain ⟨a1, a2, a3, _, a5, a6⟩ := FluxState.back_set_spec hw1 (by decide) hs3
      refine ⟨a1, a2.trans hf1, a3.trans hd1, ?_⟩
      intro p hp
      rw [if_neg (by simp [hc])]
      by_cases hpl : p = loc
      · rw [hpl, a5]
      · rw [a6 p (hin p hp) hpl, hback p hp]
    · rw [if_neg hc] at hs3
      have hcf := Bool.eq_false_iff.mpr hc
      obtain ⟨a1, a2, a3, _, a5, a6⟩ := FluxState.back_set_spec hw1 hty hs3
      refine ⟨a1, a2.trans hf1, a3.trans hd1, ?_⟩
      intro p hp
      by_cases hpd : p = d
      · rw [if_pos ⟨hcf, hpd⟩, hpd, a5]
      · rw [if_neg (by simp [hpd]), a6 p (hin p hp) hpd, hback p hp]
  obtain ⟨hw3, hf3, hd3, hc3⟩ := hs3spec
  have hin3 : ∀ p, s.back.check_loc p = true → s3.back.check_loc p = true := by
    intro p hp
    rw [ParticleMap.check_loc_iff, hd3]; exact (ParticleMap.check_loc_iff _ _).mp hp
  -- pass 2
  have hpass2 : (scan_order s.dims).foldlM (fun w loc => move_cell s.dims rng loc w) (s1, k) =
      .ok (s3, k2) := by
    rw [hsplit, List.foldlM_append, foldlM_skip hw1 s.dims rng k pre (by
      intro q hq
      refine ⟨hin q (hrange q (Or.inl hq)), Or.inl ?_⟩
      rw [hf1, hfront q (hrange q (Or.inl hq)), if_neg (hpre q hq)])]
    simp only [bind, Except.bind]
    rw [List.foldlM_cons, move_cell_eval hw1 (hin loc hl)
      (by rw [hf1, hfront loc hl, if_pos rfl]) h0 h1 hd hs3]
    simp only [bind, Except.bind]
    exact foldlM_skip hw3 s.dims rng k2 post (by
      intro q hq
      refine ⟨hin3 q (hrange q (Or.inr hq)), Or.inl ?_⟩
      rw [hf3, hfront q (hrange q (Or.inr hq)), if_neg (hpost q hq)])
  obtain ⟨s2, hflip, _, _, hg⟩ := FluxState.flip_spec hw3
  refine ⟨s2, update_world_of hp1 hpass2 hflip, ?_⟩
  intro p hp
  rw [(hg p).1, ParticleMap.get_in hw3.1 (hin3 p hp), hc3 p hp]

/-! ## Evaluating the movement rules -/

theorem fully_empty_of_cells {s : FluxState} (hs : s.wf) {p : Point}
    (hp : s.back.check_loc p = true) (hb : s.back.cell p = EMPTY) (hf : s.front.cell p = EMPTY) :
    s.is_fully_empty p = .ok true := by
  rw [FluxState.is_fully_empty_eq hs, if_pos hp, hb, hf]
  rfl

theorem left_eq {p : Point} (h1 : 1 ≤ p.x) (h2 : p.x < SIZE_MOD) : left p = ⟨p.x - 1, p.y⟩ := by
  unfold FluxState.left
  have : p.x + SIZE_MOD - 1 = (p.x - 1) + SIZE_MOD := by omega
  rw [this, Nat.add_mod_right, Nat.mod_eq_of_lt (by omega)]

theorem right_eq {p : Point} (h2 : p.x + 1 < SIZE_MOD) : right p = ⟨p.x + 1, p.y⟩ := by
  unfold FluxState.right
  rw [Nat.mod_eq_of_lt h2]

theorem above_eq {p : Point} (h1 : 1 ≤ p.y) (h2 : p.y < SIZE_MOD) : above p = ⟨p.x, p.y - 1⟩ := by
  unfold FluxState.above
  have : p.y + SIZE_MOD - 1 = (p.y - 1) + SIZE_MOD := by omega
  rw [this, Nat.add_mod_right, Nat.mod_eq_of_lt (by omega)]

theorem below_eq {p : Point} (h2 : p.y + 1 < SIZE_MOD) : below p = ⟨p.x, p.y + 1⟩ := by
  unfold FluxState.below
  rw [Nat.mod_eq_of_lt h2]

/-- The culling test without wrap-around, for dimensions of at least 3. -/
theorem culled_eq {dims : Point} (hx : 3 ≤ dims.x) (hx2 : dims.x < SIZE_MOD) (hy : 3 ≤ dims.y)
    (hy2 : dims.y < SIZE_MOD) (p : Point) :
    culled dims p = (decide (p.x < 3) || decide (p.x > dims.x - 3) ||
      decide (p.y < 3) || decide (p.y ≥ dims.y - 3)) := by
  unfold culled
  have h1 : (dims.x + SIZE_MOD - 3) % SIZE_MOD = dims.x - 3 := by
    have : dims.x + SIZE_MOD - 3 = (dims.x - 3) + SIZE_MOD := by omega
    rw [this, Nat.add_mod_right, Nat.mod_eq_of_lt (by omega)]
  have h2 : (dims.y + SIZE_MOD - 3) % SIZE_MOD = dims.y - 3 := by
    have : dims.y + SIZE_MOD - 3 = (dims.y - 3) + SIZE_MOD := by omega
    rw [this, Nat.add_mod_right, Nat.mod_eq_of_lt (by omega)]
  rw [h1, h2]

theorem heavy_rule_below {s : FluxState} {loc : Point}
    (h : s.is_fully_empty (below loc) = .ok true) (rng : Nat → Nat) (k : Nat) :
    heavy_rule s rng k loc = .ok (below loc, k) := by
  unfold heavy_rule
  simp [h, bind, Except.bind, pure, Except.pure]

theorem light_rule_above {s : FluxState} {loc : Point}
    (h : s.is_fully_empty (above loc) = .ok true) (rng : Nat → Nat) (k : Nat) :
    light_rule s rng k loc = .ok (above loc, k) := by
  unfold light_rule
  simp [h, bind, Except.bind, pure, Except.pure]

theorem destination_of {s : FluxState} {rng : Nat → Nat} {k k2 : Nat} {loc q d : Point}
    {ty : CellType} (hp : provisional s rng (k + 1) loc ty = .ok (q, k2))
    (hd : apply_drift s (leftright_of (rng k)) q = .ok d) :
    destination s rng k loc ty = .ok (d, k2) := by
  unfold destination
  simp [hp, hd, bind, Except.bind, pure, Except.pure]

/-- The drift from a cell `(cx, cy)` whose row is EMPTY in both grids. -/
theorem drift_in_empty_row {s : FluxState} (hs : s.wf) (cx cy : Nat) (h1 : 1 ≤ cx)
    (h2 : cx + 1 < s.back.dims.x) (h3 : cy < s.back.dims.y)
    (hrow : ∀ px, px < s.back.dims.x →
      s.back.cell ⟨px, cy⟩ = EMPTY ∧ s.front.cell ⟨px, cy⟩ = EMPTY) (lr : Int) :
    apply_drift s lr ⟨cx, cy⟩ =
      .ok ⟨if lr = -1 then cx - 1 else if lr = 1 then cx + 1 else cx, cy⟩ := by
  have hin : s.back.check_loc ⟨cx, cy⟩ = true := by
    rw [ParticleMap.check_loc_iff]; exact ⟨by show cx < _; omega, h3⟩
  have hdl := (dims_lt hs.1 hin).1
  have hfe : ∀ px, px < s.back.dims.x → s.is_fully_empty ⟨px, cy⟩ = .ok true := by
    intro px hpx
    exact fully_empty_of_cells hs (by rw [ParticleMap.check_loc_iff]; exact ⟨hpx, h3⟩)
      (hrow px hpx).1 (hrow px hpx).2
  unfold apply_drift
  by_cases hm : lr = -1
  · have hl : left ⟨cx, cy⟩ = ⟨cx - 1, cy⟩ := left_eq h1 (by show cx < SIZE_MOD; omega)
    simp [hm, hl, hfe (cx - 1) (by omega), bind, Except.bind, pure, Except.pure]
  · by_cases hp : lr = 1
    · have hr : right ⟨cx, cy⟩ = ⟨cx + 1, cy⟩ := right_eq (by show cx + 1 < SIZE_MOD; omega)
      simp [hp, hr, hfe (cx + 1) (by omega), bind, Except.bind, pure, Except.pure]
    · simp [hm, hp, pure, Except.pure]

theorem leftright_cases (r : Nat) :
    (leftright_of r = -1 ∧ r % 5 = 1) ∨ (leftright_of r = 1 ∧ r % 5 = 3) ∨
      (leftright_of r ≠ -1 ∧ leftright_of r ≠ 1 ∧ r % 5 ≠ 1 ∧ r % 5 ≠ 3) := by
  unfold leftright_of
  have h : r % 5 < 5 := Nat.mod_lt _ (by decide)
  omega

/-- A tick of a state with one particle at `(x, y)` whose movement rule sends
it to column `x` of another row `cy`: the particle ends in that row, in the
column the drift selects, unless that cell is culled. -/
theorem single_tick_row {s : FluxState} (hs : s.wf) (x y cy : Nat)
    (hl : s.back.check_loc ⟨x, y⟩ = true) (ty : CellType) (h0 : ty ≠ EMPTY) (h1 : ty ≠ OBSTACLE)
    (hfront : ∀ p, s.back.check_loc p = true →
      s.front.cell p = if p = ⟨x, y⟩ then ty else EMPTY)
    (h1x : 1 ≤ x) (h2x : x + 1 < s.back.dims.x) (hcy : cy < s.back.dims.y) (hne : cy ≠ y)
    (rng : Nat → Nat) (k : Nat)
    (hprov : ∀ s1 : FluxState, s1.wf → s1.front = s.front → s1.back.dims = s.back.dims →
      (∀ p, s.back.check_loc p = true → s1.back.cell p = EMPTY) →
      provisional s1 rng (k + 1) ⟨x, y⟩ ty = .ok (⟨x, cy⟩, k + 1)) :
    ∃ s2, update_world s rng k = .ok (s2, k + 1) ∧
      ∀ p, s.back.check_loc p = true →
        s2.front.get p = .ok (if culled s.dims
            ⟨if leftright_of (rng k) = -1 then x - 1
              else if leftright_of (rng k) = 1 then x + 1 else x, cy⟩ = false ∧
          p = ⟨if leftright_of (rng k) = -1 then x - 1
              else if leftright_of (rng k) = 1 then x + 1 else x, cy⟩ then ty else EMPTY) := by
  obtain ⟨s1, hw1, hf1, hd1, hback, hrest⟩ := single_particle_tick hs hl h0 h1 hfront rng k
  have hdrift := drift_in_empty_row hw1 x cy h1x (by rw [hd1]; exact h2x)
    (by rw [hd1]; exact hcy) (by
      intro px hpx
      rw [hd1] at hpx
      have hin : s.back.check_loc ⟨px, cy⟩ = true := by
        rw [ParticleMap.check_loc_iff]; exact ⟨hpx, hcy⟩
      refine ⟨hback _ hin, ?_⟩
      rw [hf1, hfront _ hin, if_neg]
      intro h
      simp only [Point.mk.injEq] at h
      exact hne h.2) (leftright_of (rng k))
  exact hrest _ _ (destination_of (hprov s1 hw1 hf1 hd1 hback) hdrift)

theorem cell_of_get {s : FluxState} (hs : s.wf) {f : Nat → Nat → CellType}
    (hfront : ∀ px < s.dims.x, ∀ py < s.dims.y, s.get_particle ⟨px, py⟩ = .ok (f px py))
    (p : Point) (hp : s.back.check_loc p = true) : s.front.cell p = f p.x p.y := by
  have hxy := (ParticleMap.check_loc_iff _ _).mp hp
  have h := hfront p.x hxy.1 p.y hxy.2
  rw [FluxState.get_particle_eq hs, if_pos hp] at h
  exact Except.ok.inj h

/-! ## Pass 2: the effect of one iteration on the cells -/

/-- What one iteration of pass 2 does to the cells of the back grid. -/
theorem move_cell_cells {s s2 : FluxState} {k k2 : Nat} {dims : Point} {rng : Nat → Nat}
    {a : Point} (hs : s.wf) (h : move_cell dims rng a (s, k) = .ok (s2, k2)) :
    s2.wf ∧ s2.front = s.front ∧ s2.back.dims = s.back.dims ∧ s.back.check_loc a = true ∧
    (((s.front.cell a = EMPTY ∨ s.front.cell a = OBSTACLE) ∧ s2 = s ∧ k2 = k) ∨
     (s.front.cell a ≠ EMPTY ∧ s.front.cell a ≠ OBSTACLE ∧
      ∃ d, destination s rng k a (s.front.cell a) = .ok (d, k2) ∧
        s.back.check_loc d = true ∧
        (d = a ∨ (s.back.cell d = EMPTY ∧ s.front.cell d = EMPTY)) ∧
        ((culled dims d = true ∧ s2.back.cell a = EMPTY ∧
            ∀ p, s.back.check_loc p = true → p ≠ a → s2.back.cell p = s.back.cell p) ∨
         (culled dims d = false ∧ s2.back.cell d = s.front.cell a ∧
            ∀ p, s.back.check_loc p = true → p ≠ d → s2.back.cell p = s.back.cell p)))) := by
  obtain ⟨hl, hcase⟩ := move_cell_spec hs h
  rcases hcase with ⟨hty, h2, hk⟩ | ⟨h0, h1, d, hd, hwr⟩
  · subst h2
    exact ⟨hs, rfl, rfl, hl, Or.inl ⟨hty, rfl, hk⟩⟩
  · have hdest : d = a ∨ (s.back.check_loc d = true ∧ s.back.cell d = EMPTY ∧
        s.front.cell d = EMPTY) := by
      rcases destination_dest hd with h | h
      · exact Or.inl h
      · exact Or.inr (FluxState.fully_empty_true hs h)
    have hdin : s.back.check_loc d = true := by
      rcases hdest with h | h
      · rw [h]; exact hl
      · exact h.1
    have hdest2 : d = a ∨ (s.back.cell d = EMPTY ∧ s.front.cell d = EMPTY) := by
      rcases hdest with h | h
      · exact Or.inl h
      · exact Or.inr h.2
    rcases hwr with ⟨hc, hb⟩ | ⟨hc, hb⟩
    · obtain ⟨a1, a2, a3, _, a5, a6⟩ := FluxState.back_set_spec hs (by decide) hb
      exact ⟨a1, a2, a3, hl, Or.inr ⟨h0, h1, d, hd, hdin, hdest2, Or.inl ⟨hc, a5, a6⟩⟩⟩
    · obtain ⟨a1, a2, a3, _, a5, a6⟩ :=
        FluxState.back_set_spec hs (ParticleMap.cell_lt _ _) hb
      exact ⟨a1, a2, a3, hl, Or.inr ⟨h0, h1, d, hd, hdin, hdest2, Or.inr ⟨hc, a5, a6⟩⟩⟩

/-- An iteration of pass 2 for another cell leaves the back cell of a cell
that is not EMPTY in the front grid as it is. -/
theorem move_cell_frame {s s2 : FluxState} {k k2 : Nat} {dims : Point} {rng : Nat → Nat}
    {a : Point} (hs : s.wf) (h : move_cell dims rng a (s, k) = .ok (s2, k2))
    {q : Point} (hq : s.back.check_loc q = true) (hqa : q ≠ a) (hf : s.front.cell q ≠ EMPTY) :
    s2.back.cell q = s.back.cell q := by
  obtain ⟨_, _, _, _, hcase⟩ := move_cell_cells hs h
  rcases hcase with ⟨_, h2, _⟩ | ⟨_, _, d, _, _, hdest, hwr⟩
  · rw [h2]
  · rcases hwr with ⟨_, _, hrest⟩ | ⟨_, _, hrest⟩
    · exact hrest q hq hqa
    · apply hrest q hq
      intro hqd
      rcases hdest with h | h
      · exact hqa (hqd.trans h)
      · rw [hqd] at hf; exact hf h.2

theorem takeWhile_split {l pre post : List Point} {a : Point} (hn : l.Nodup)
    (hl : l = pre ++ a :: post) : l.takeWhile (fun q => decide (q ≠ a)) = pre := by
  subst hl
  have hmem : a ∉ pre := by
    intro h
    exact (List.nodup_append.mp hn).2.2 h (by simp)
  clear hn
  induction pre with
  | nil => simp
  | cons b pre ih =>
    have hb : b ≠ a := by
      intro h; apply hmem; simp [h]
    simp only [List.cons_append, List.takeWhile_cons, hb, ne_eq, not_false_eq_true,
      decide_True, if_true, List.cons.injEq, true_and]
    exact ih (fun h => hmem (by simp [h]))

/-! ## Pass 2: the invariant -/

theorem seed_of_obstacle_iff (t : CellType) : seed_of t = OBSTACLE ↔ t = OBSTACLE := by
  unfold seed_of
  by_cases h : t = OBSTACLE
  · simp [h]
  · have h2 : (t != OBSTACLE) = true := by simp [h]
    rw [if_pos h2]
    constructor
    · intro h3; exact absurd h3 (by decide)
    · intro h3; exact absurd h3 h

theorem seed_of_particle {t : CellType} (h : t ≠ OBSTACLE) : seed_of t = EMPTY := by
  simp [seed_of, h]

theorem check_of_dims {m1 m2 : ParticleMap} (h : m1.dims = m2.dims) (p : Point) :
    m1.check_loc p = m2.check_loc p := by
  simp [ParticleMap.check_loc, h]

/-- The invariant holds after pass 1. -/
theorem pass2_inv_start {s s1 : FluxState} (hs : s.wf)
    (h1 : for_each_cell s.dims seed_cell s = .ok s1) (rng : Nat → Nat) (k : Nat) :
    Pass2Inv s s1 rng k [] (s1, k) := by
  obtain ⟨s1b, hp1, hw1, hf1, hd1, hc1⟩ := pass1_spec hs
  rw [h1] at hp1
  cases hp1
  refine ⟨rfl, hw1, hf1, hd1, ?_, ?_, ?_⟩
  · intro p hp
    show s1.back.cell p = OBSTACLE ↔ _
    rw [hc1 p hp]; exact seed_of_obstacle_iff _
  · intro p hp _ hne
    show s1.back.cell p = EMPTY
    have h2 : s1.back.cell p ≠ OBSTACLE := hne
    rw [hc1 p hp] at h2 ⊢
    exact seed_of_particle (fun h => h2 ((seed_of_obstacle_iff _).mpr h))
  · intro p hp _ _
    exact hc1 p hp

/-- The invariant is kept by every iteration of pass 2 that returns. -/
theorem pass2_inv_step {s s1 : FluxState} {rng : Nat → Nat} {k : Nat} {pre : List Point}
    {a : Point} {w w2 : FluxState × Nat} (hJ : Pass2Inv s s1 rng k pre w)
    (hb : move_cell s.dims rng a w = .ok w2) : Pass2Inv s s1 rng k (pre ++ [a]) w2 := by
  obtain ⟨hfold, hw, hf, hd, hobs, hcull, hun⟩ := hJ
  obtain ⟨ws, wk⟩ := w
  obtain ⟨w2s, w2k⟩ := w2
  simp only at hw hf hd hobs hcull hun
  have hchk : ∀ p, s.back.check_loc p = true → ws.back.check_loc p = true := by
    intro p hp; rw [check_of_dims hd]; exact hp
  obtain ⟨hw2, hf2, hd2, hla, hcase⟩ := move_cell_cells hw hb
  rw [hf] at hcase
  refine ⟨?_, hw2, hf2.trans hf, hd2.trans hd, ?_, ?_, ?_⟩
  · rw [List.foldlM_append, hfold]
    simp only [bind, Except.bind, List.foldlM_cons, List.foldlM_nil]
    rw [hb]; rfl
  · intro p hp
    show w2s.back.cell p = OBSTACLE ↔ _
    rcases hcase with ⟨_, h2, _⟩ | ⟨h0, h1, d, _, hdin, hdest, hwr⟩
    · rw [h2]; exact hobs p hp
    · rcases hwr with ⟨_, hval, hrest⟩ | ⟨_, hval, hrest⟩
      · by_cases hpa : p = a
        · rw [hpa, hval]
          constructor
          · intro h; exact absurd h (by decide)
          · intro h; exact absurd h h1
        · rw [hrest p (hchk p hp) hpa]; exact hobs p hp
      · by_cases hpd : p = d
        · rw [hpd, hval]
          constructor
          · intro h; exact absurd h h1
          · intro h
            rcases hdest with hda | hde
            · rw [hda] at h; exact absurd h h1
            · rw [hde.2] at h; exact absurd h (by decide)
        · rw [hrest p (hchk p hp) hpd]; exact hobs p hp
  · intro p hp hc
    show w2s.back.cell p ≠ OBSTACLE → w2s.back.cell p = EMPTY
    rcases hcase with ⟨_, h2, _⟩ | ⟨h0, h1, d, _, hdin, hdest, hwr⟩
    · rw [h2]; exact hcull p hp hc
    · rcases hwr with ⟨_, hval, hrest⟩ | ⟨hcf, hval, hrest⟩
      · by_cases hpa : p = a
        · intro _; rw [hpa, hval]
        · rw [hrest p (hchk p hp) hpa]; exact hcull p hp hc
      · by_cases hpd : p = d
        · rw [hpd] at hc
          rw [show s.back.dims = s.dims from rfl] at *
          rw [hcf] at hc
          exact absurd hc (by simp)
        · rw [hrest p (hchk p hp) hpd]; exact hcull p hp hc
  · intro p hp hnot hne
    show w2s.back.cell p = _
    have hpa : p ≠ a := by
      intro h; apply hnot; simp [h]
    have hpp : p ∉ pre := by
      intro h; apply hnot; simp [h]
    rw [move_cell_frame hw hb (hchk p hp) hpa (by rw [hf]; exact hne)]
    exact hun p hp hpp hne

/-- The invariant holds for every segment of pass 2 that returns. -/
theorem pass2_inv_fold {s s1 : FluxState} {rng : Nat → Nat} {k : Nat} :
    ∀ (mid pre : List Point) (w w2 : FluxState × Nat), Pass2Inv s s1 rng k pre w →
      mid.foldlM (fun w q => move_cell s.dims rng q w) w = .ok w2 →
      Pass2Inv s s1 rng k (pre ++ mid) w2 := by
  intro mid pre w w2 hJ hf
  exact foldlM_inv (fun w q => move_cell s.dims rng q w) (Pass2Inv s s1 rng k) (pre ++ mid)
    (fun _ _ _ _ _ _ hJ hb => pass2_inv_step hJ hb) mid pre [] w w2 (by simp) hJ hf

/-- Iterations of pass 2 for other cells leave the back cell of a cell that is
not EMPTY in the front grid as it is. -/
theorem foldlM_frame {dims : Point} {rng : Nat → Nat} {q : Point} :
    ∀ (l : List Point) (w w2 : FluxState × Nat), w.1.wf → q ∉ l →
      w.1.back.check_loc q = true → w.1.front.cell q ≠ EMPTY →
      l.foldlM (fun w a => move_cell dims rng a w) w = .ok w2 →
      w2.1.back.cell q = w.1.back.cell q := by
  intro l
  induction l with
  | nil =>
    intro w w2 _ _ _ _ hf
    simp only [List.foldlM_nil, pure, Except.pure, Except.ok.injEq] at hf
    rw [hf]
  | cons a l ih =>
    intro w w2 hw hq hin hne hf
    rw [List.foldlM_cons] at hf
    cases hb : move_cell dims rng a w with
    | error e => rw [hb] at hf; exact absurd hf (by simp [bind, Except.bind])
    | ok w1 =>
      rw [hb] at hf
      obtain ⟨ws, wk⟩ := w
      obtain ⟨w1s, w1k⟩ := w1
      obtain ⟨hw1, hf1, hd1, _, _⟩ := move_cell_cells hw hb
      have hqa : q ≠ a := by
        intro h; apply hq; simp [h]
      have hstep := move_cell_frame hw hb hin hqa hne
      have := ih (w1s, w1k) w2 hw1 (fun h => hq (by simp [h]))
        (by show w1s.back.check_loc q = true; rw [check_of_dims hd1]; exact hin)
        (by show w1s.front.cell q ≠ EMPTY; rw [hf1]; exact hne) hf
      rw [this]
      exact hstep

theorem final_destination_some {s : FluxState} {rng : Nat → Nat} {k : Nat} {loc d : Point}
    {ty : CellType} (h : final_destination s rng k loc = some (ty, d)) :
    ∃ w k3, pass2_before s rng k loc = .ok w ∧ w.1.get_particle loc = .ok ty ∧
      ty ≠ EMPTY ∧ ty ≠ OBSTACLE ∧ destination w.1 rng w.2 loc ty = .ok (d, k3) := by
  unfold final_destination at h
  cases hw : pass2_before s rng k loc with
  | error e => rw [hw] at h; exact absurd h (by simp)
  | ok w =>
    rw [hw] at h
    simp only at h
    cases hg : w.1.get_particle loc with
    | error e => rw [hg] at h; exact absurd h (by simp)
    | ok t =>
      rw [hg] at h
      simp only at h
      split at h
      · exact absurd h (by simp)
      · rename_i hty
        simp only [Bool.or_eq_true, beq_iff_eq, not_or] at hty
        cases hd : destination w.1 rng w.2 loc t with
        | error e => rw [hd] at h; exact absurd h (by simp)
        | ok r =>
          rw [hd] at h
          simp only [Option.some.injEq, Prod.mk.injEq] at h
          obtain ⟨ht, hr⟩ := h
          subst ht
          subst hr
          exact ⟨w, r.2, rfl, hg, hty.1, hty.2, hd⟩

/-- The tick split at a source cell: the state in which pass 2 reaches `loc`
satisfies the invariant, the iteration for `loc` returns, and the remaining
iterations lead to the state that `flip` commits. -/
theorem tick_split {s s2 : FluxState} {rng : Nat → Nat} {k k2 : Nat} (hs : s.wf)
    (h : update_world s rng k = .ok (s2, k2)) {loc : Point}
    (hl : s.back.check_loc loc = true) :
    ∃ s1 pre post w w2 wfin, scan_order s.dims = pre ++ loc :: post ∧ loc ∉ pre ∧ loc ∉ post ∧
      pass2_before s rng k loc = .ok w ∧ Pass2Inv s s1 rng k pre w ∧
      move_cell s.dims rng loc w = .ok w2 ∧ Pass2Inv s s1 rng k (pre ++ [loc]) w2 ∧
      post.foldlM (fun w q => move_cell s.dims rng q w) w2 = .ok wfin ∧
      Pass2Inv s s1 rng k (scan_order s.dims) wfin ∧
      (∀ p, s2.front.get p = wfin.1.back.get p) := by
  obtain ⟨s1, wfin, h1, h2, h3, _⟩ := update_world_ok h
  have hmem : loc ∈ scan_order s.dims := by
    rw [mem_scan_order]; exact (ParticleMap.check_loc_iff _ _).mp hl
  obtain ⟨pre, post, hsplit⟩ := List.append_of_mem hmem
  have hnd := nodup_scan_order s.dims
  have htw := takeWhile_split hnd hsplit
  rw [hsplit] at hnd
  have hpre : loc ∉ pre := fun hq => (List.nodup_append.mp hnd).2.2 hq (by simp)
  have hpost : loc ∉ post := by
    have := (List.nodup_append.mp hnd).2.1
    rw [List.nodup_cons] at this
    exact this.1
  rw [hsplit] at h2
  obtain ⟨w, hfpre, hrest⟩ := foldlM_append_ok _ pre (loc :: post) h2
  rw [List.foldlM_cons] at hrest
  cases hb : move_cell s.dims rng loc w with
  | error e => rw [hb] at hrest; exact absurd hrest (by simp [bind, Except.bind])
  | ok w2 =>
    rw [hb] at hrest
    have hrest2 : post.foldlM (fun w q => move_cell s.dims rng q w) w2 = .ok wfin := hrest
    have hJ0 := pass2_inv_start hs h1 rng k
    have hJ1 := pass2_inv_fold pre [] (s1, k) w hJ0 hfpre
    rw [List.nil_append] at hJ1
    have hJ2 := pass2_inv_step hJ1 hb
    have hJ3 := pass2_inv_fold post (pre ++ [loc]) w2 wfin hJ2 hrest2
    have hl3 : pre ++ [loc] ++ post = scan_order s.dims := by rw [hsplit]; simp
    rw [hl3] at hJ3
    obtain ⟨s2b, hflip, _, _, hg⟩ := FluxState.flip_spec hJ3.2.1
    rw [h3] at hflip
    cases hflip
    refine ⟨s1, pre, post, w, w2, wfin, hsplit, hpre, hpost, ?_, hJ1, hb, hJ2, hrest2, hJ3,
      fun p => (hg p).1⟩
    unfold pass2_before
    simp only [h1, bind, Except.bind, htw]
    exact hfpre

/-- After a tick, a source cell whose particle had a culled final destination
reads EMPTY, and so does that destination. -/
theorem culled_particle_removed {s s2 : FluxState} {rng : Nat → Nat} {k k2 : Nat} (hs : s.wf)
    (h : update_world s rng k = .ok (s2, k2)) {loc d : Point} {ty : CellType}
    (hfd : final_destination s rng k loc = some (ty, d)) (hc : culled s.dims d = true) :
    s2.front.get loc = .ok EMPTY ∧ s2.front.get d = .ok EMPTY := by
  obtain ⟨w0, k3, hw0, hg0, hp0, hp1, hd0⟩ := final_destination_some hfd
  -- the source cell is in range
  obtain ⟨s1, _, h1, _, _, _⟩ := update_world_ok h
  have hl : s.back.check_loc loc = true := by
    have hJ0 := pass2_inv_start hs h1 rng k
    have hfold : ((scan_order s.dims).takeWhile (fun q => decide (q ≠ loc))).foldlM
        (fun w q => move_cell s.dims rng q w) (s1, k) = .ok w0 := by
      unfold pass2_before at hw0
      simpa only [h1, bind, Except.bind] using hw0
    have hJ := pass2_inv_fold _ [] (s1, k) w0 hJ0 hfold
    obtain ⟨_, hw, _, hd, _⟩ := hJ
    rw [FluxState.get_particle_eq hw] at hg0
    by_contra hn
    rw [check_of_dims hd, if_neg hn] at hg0
    exact absurd hg0 (by simp)
  obtain ⟨s1, pre, post, w, w2, wfin, hsplit, hpre, hpost, hw, hJ1, hb, hJ2, hrest, hJ3, hg⟩ :=
    tick_split hs h hl
  have hww : w = w0 := by
    rw [hw] at hw0; exact Except.ok.inj hw0
  subst hww
  obtain ⟨_, hwf, hf, hd, _, _, _⟩ := hJ1
  obtain ⟨_, hwf2, hf2, hd2, _, _, _⟩ := hJ2
  obtain ⟨_, hwf3, hf3, hd3, hobs3, hcull3, _⟩ := hJ3
  have hlw : w.1.back.check_loc loc = true := by rw [check_of_dims hd]; exact hl
  have hty : s.front.cell loc = ty := by
    rw [FluxState.get_particle_eq hwf, if_pos hlw, hf] at hg0
    exact Except.ok.inj hg0
  obtain ⟨ws, wk⟩ := w
  obtain ⟨w2s, w2k⟩ := w2
  obtain ⟨_, _, _, _, hcase⟩ := move_cell_cells hwf hb
  simp only at hf hd hd0 hlw hf2 hd2 hwf2
  rw [hf, hty] at hcase
  rcases hcase with ⟨hskip, _, _⟩ | ⟨_, _, d2, hd2eq, hdin, hdest, hwr⟩
  · rcases hskip with h | h
    · exact absurd h hp0
    · exact absurd h hp1
  · rw [hd0] at hd2eq
    simp only [Except.ok.injEq, Prod.mk.injEq] at hd2eq
    obtain ⟨hdd, _⟩ := hd2eq
    subst hdd
    rcases hwr with ⟨_, hval, _⟩ | ⟨hcf, _, _⟩
    · have hfinal : wfin.1.back.cell loc = EMPTY := by
        rw [foldlM_frame post (w2s, w2k) wfin hwf2 hpost
          (by show w2s.back.check_loc loc = true; rw [check_of_dims hd2]; exact hl)
          (by show w2s.front.cell loc ≠ EMPTY; rw [hf2, hty]; exact hp0) hrest]
        exact hval
      have hdr : s.back.check_loc d = true := by rw [← check_of_dims hd]; exact hdin
      have hdf : s.front.cell d ≠ OBSTACLE := by
        rcases hdest with h | h
        · rw [h, hty]; exact hp1
        · rw [h.2]; decide
      have hdfinal : wfin.1.back.cell d = EMPTY :=
        hcull3 d hdr hc (fun h => hdf ((hobs3 d hdr).mp h))
      constructor
      · rw [hg loc, ParticleMap.get_in hwf3.1 (by rw [check_of_dims hd3]; exact hl), hfinal]
      · rw [hg d, ParticleMap.get_in hwf3.1 (by rw [check_of_dims hd3]; exact hdr), hdfinal]
    · rw [hcf] at hc
      exact absurd hc (by simp)

theorem and_then_ok_false (a : Bool) : and_then a (.ok false) = .ok false := by
  cases a <;> rfl

/-- A particle none of whose eight neighbours is accepted by `is_fully_empty`
has its own cell as final destination. -/
theorem destination_boxed {s : FluxState} {loc : Point}
    (hl : s.is_fully_empty (left loc) = .ok false)
    (hr : s.is_fully_empty (right loc) = .ok false)
    (ha : s.is_fully_empty (above loc) = .ok false)
    (hb : s.is_fully_empty (below loc) = .ok false)
    (hla : s.is_fully_empty (left (above loc)) = .ok false)
    (hra : s.is_fully_empty (right (above loc)) = .ok false)
    (hlb : s.is_fully_empty (left (below loc)) = .ok false)
    (hrb : s.is_fully_empty (right (below loc)) = .ok false)
    (rng : Nat → Nat) (k : Nat) (ty : CellType) :
    ∃ k2, destination s rng k loc ty = .ok (loc, k2) := by
  have hprov : ∃ k2, provisional s rng (k + 1) loc ty = .ok (loc, k2) := by
    unfold provisional
    split
    · exact ⟨k + 1 + 1, by
        simp [heavy_rule, hb, hlb, hrb, and_then_ok_false, bind, Except.bind, pure, Except.pure]⟩
    · split
      · exact ⟨k + 1 + 1, by
          simp [light_rule, ha, hla, hra, and_then_ok_false, bind, Except.bind, pure,
            Except.pure]⟩
      · split
        · exact ⟨k + 1, by
            simp [water_rule, hb, hlb, hrb, hl, hr, bind, Except.bind, pure, Except.pure]⟩
        · exact ⟨k + 1, rfl⟩
  obtain ⟨k2, hp⟩ := hprov
  refine ⟨k2, destination_of hp ?_⟩
  unfold apply_drift
  split
  · simp [hl, bind, Except.bind, pure, Except.pure]
  · split
    · simp [hr, bind, Except.bind, pure, Except.pure]
    · rfl

theorem not_fully_empty_of_obstacle {s : FluxState} (hs : s.wf) {n : Point}
    (hn : s.back.check_loc n = true) (hb : s.back.cell n = OBSTACLE) :
    s.is_fully_empty n = .ok false := by
  rw [FluxState.is_fully_empty_eq hs, if_pos hn, hb]
  rfl

/-- After a tick that returns, a particle outside the culling margin whose
eight neighbours are obstacles is still in its cell. -/
theorem boxed_particle_stays {s s2 : FluxState} {rng : Nat → Nat} {k k2 : Nat} (hs : s.wf)
    (h : update_world s rng k = .ok (s2, k2)) {loc : Point} {ty : CellType}
    (hty : s.get_particle loc = .ok ty) (hp0 : ty ≠ EMPTY) (hp1 : ty ≠ OBSTACLE)
    (hbox : ∀ n ∈ [left loc, right loc, above loc, below loc, left (above loc),
      right (above loc), left (below loc), right (below loc)], s.get_particle n = .ok OBSTACLE)
    (hint : culled s.dims loc = false) : s2.front.get loc = .ok ty := by
  have hinr : ∀ {p : Point} {t : CellType}, s.get_particle p = .ok t →
      s.back.check_loc p = true ∧ s.front.cell p = t := by
    intro p t hg
    rw [FluxState.get_particle_eq hs] at hg
    by_cases hc : s.back.check_loc p = true
    · rw [if_pos hc] at hg; exact ⟨hc, Except.ok.inj hg⟩
    · rw [if_neg hc] at hg; exact absurd hg (by simp)
  obtain ⟨hl, hcell⟩ := hinr hty
  obtain ⟨s1, pre, post, w, w2, wfin, hsplit, hpre, hpost, hw, hJ1, hb, hJ2, hrest, hJ3, hg⟩ :=
    tick_split hs h hl
  obtain ⟨_, hwf, hf, hd, hobs, _, _⟩ := hJ1
  obtain ⟨_, hwf2, hf2, hd2, _, _, _⟩ := hJ2
  obtain ⟨_, hwf3, hf3, hd3, _, _, _⟩ := hJ3
  have hnfe : ∀ n ∈ [left loc, right loc, above loc, below loc, left (above loc),
      right (above loc), left (below loc), right (below loc)],
      w.1.is_fully_empty n = .ok false := by
    intro n hn
    obtain ⟨hnin, hncell⟩ := hinr (hbox n hn)
    exact not_fully_empty_of_obstacle hwf (by rw [check_of_dims hd]; exact hnin)
      ((hobs n hnin).mpr hncell)
  obtain ⟨k3, hdest⟩ := destination_boxed (hnfe (left loc) (by simp))
    (hnfe (right loc) (by simp)) (hnfe (above loc) (by simp)) (hnfe (below loc) (by simp))
    (hnfe (left (above loc)) (by simp)) (hnfe (right (above loc)) (by simp))
    (hnfe (left (below loc)) (by simp)) (hnfe (right (below loc)) (by simp)) rng w.2 ty
  obtain ⟨ws, wk⟩ := w
  obtain ⟨w2s, w2k⟩ := w2
  obtain ⟨_, _, _, _, hcase⟩ := move_cell_cells hwf hb
  simp only at hf hd hdest hf2 hd2 hwf2
  rw [hf, hcell] at hcase
  rcases hcase with ⟨hskip, _, _⟩ | ⟨_, _, d2, hd2eq, _, _, hwr⟩
  · rcases hskip with h | h
    · exact absurd h hp0
    · exact absurd h hp1
  · rw [hdest] at hd2eq
    simp only [Except.ok.injEq, Prod.mk.injEq] at hd2eq
    obtain ⟨hdd, _⟩ := hd2eq
    subst hdd
    rcases hwr with ⟨hc, _, _⟩ | ⟨_, hval, _⟩
    · rw [hint] at hc
      exact absurd hc (by simp)
    · have hfinal : wfin.1.back.cell loc = ty := by
        rw [foldlM_frame post (w2s, w2k) wfin hwf2 hpost
          (by show w2s.back.check_loc loc = true; rw [check_of_dims hd2]; exact hl)
          (by show w2s.front.cell loc ≠ EMPTY; rw [hf2, hcell]; exact hp0) hrest]
        exact hval
      rw [hg loc, ParticleMap.get_in hwf3.1 (by rw [check_of_dims hd3]; exact hl), hfinal]

/-! ## Pass 2: sources and destinations -/

/-- The final destination of the cell that pass 2 processes next. -/
theorem final_destination_at {s s1 : FluxState} {rng : Nat → Nat} {k : Nat}
    {pre post : List Point} {a : Point} {w : FluxState × Nat}
    (h1 : for_each_cell s.dims seed_cell s = .ok s1)
    (hsplit : scan_order s.dims = pre ++ a :: post) (hJ : Pass2Inv s s1 rng k pre w) :
    final_destination s rng k a =
      if s.front.cell a = EMPTY ∨ s.front.cell a = OBSTACLE then none
      else match destination w.1 rng w.2 a (s.front.cell a) with
        | .error _ => none
        | .ok r => some (s.front.cell a, r.1) := by
  obtain ⟨hfold, hw, hf, hd, _, _, _⟩ := hJ
  have htw := takeWhile_split (nodup_scan_order s.dims) hsplit
  have ha : a ∈ scan_order s.dims := by rw [hsplit]; simp
  rw [mem_scan_order] at ha
  have hin : w.1.back.check_loc a = true := by
    rw [ParticleMap.check_loc_iff, hd]; exact ha
  have hpb : pass2_before s rng k a = .ok w := by
    unfold pass2_before
    simp only [h1, bind, Except.bind, htw]
    exact hfold
  unfold final_destination
  rw [hpb]
  simp only
  rw [FluxState.get_particle_eq hw, if_pos hin, hf]
  simp only [Bool.or_eq_true, beq_iff_eq]

theorem writes_particle {s : FluxState} {rng : Nat → Nat} {k : Nat} {loc p : Point}
    {t : CellType} (h : WritesTo s rng k loc t p) : t ≠ EMPTY ∧ t ≠ OBSTACLE := by
  obtain ⟨_, _, _, _, h0, h1, _⟩ := final_destination_some h.1
  exact ⟨h0, h1⟩

/-- A source cell with a final destination is in range and holds the particle,
and its destination is in range. -/
theorem final_destination_range {s : FluxState} (hs : s.wf) {rng : Nat → Nat} {k : Nat}
    {loc d : Point} {ty : CellType} (h : final_destination s rng k loc = some (ty, d)) :
    s.back.check_loc loc = true ∧ s.back.check_loc d = true ∧ s.front.cell loc = ty := by
  obtain ⟨w0, k3, hw0, hg0, _, _, hd0⟩ := final_destination_some h
  obtain ⟨s1, h1, _⟩ := pass1_spec hs
  have hJ0 := pass2_inv_start hs h1 rng k
  have hfold : ((scan_order s.dims).takeWhile (fun q => decide (q ≠ loc))).foldlM
      (fun w q => move_cell s.dims rng q w) (s1, k) = .ok w0 := by
    unfold pass2_before at hw0
    simpa only [h1, bind, Except.bind] using hw0
  obtain ⟨_, hw, hf, hd, _⟩ := pass2_inv_fold _ [] (s1, k) w0 hJ0 hfold
  rw [FluxState.get_particle_eq hw] at hg0
  have hlin : w0.1.back.check_loc loc = true := by
    by_contra hx
    rw [if_neg hx] at hg0
    exact absurd hg0 (by simp)
  rw [if_pos hlin, hf] at hg0
  refine ⟨by rw [← check_of_dims hd]; exact hlin, ?_, Except.ok.inj hg0⟩
  rcases destination_dest hd0 with h | h
  · simp only at h
    rw [h, ← check_of_dims hd]; exact hlin
  · have := (FluxState.fully_empty_true hw h).1
    rw [← check_of_dims hd]; exact this

/-- The record of writes is kept by every iteration of pass 2 that returns. -/
theorem pass2_writes_step {s s1 : FluxState} (hs : s.wf) {rng : Nat → Nat} {k : Nat}
    {pre post : List Point} {a : Point} {w w2 : FluxState × Nat}
    (h1 : for_each_cell s.dims seed_cell s = .ok s1)
    (hsplit : scan_order s.dims = pre ++ a :: post) (hJ : Pass2Inv s s1 rng k pre w)
    (hW : Pass2Writes s rng k pre w) (hb : move_cell s.dims rng a w = .ok w2) :
    Pass2Writes s rng k (pre ++ [a]) w2 := by
  have hfd := final_destination_at h1 hsplit hJ
  obtain ⟨_, hw, hf, hd, _, _, hun⟩ := hJ
  obtain ⟨hB1, hB2, hB3⟩ := hW
  obtain ⟨ws, wk⟩ := w
  obtain ⟨w2s, w2k⟩ := w2
  simp only at hw hf hd hun hB1 hB2 hB3 hfd
  have hnd := nodup_scan_order s.dims
  rw [hsplit] at hnd
  have hapre : a ∉ pre := fun hq => (List.nodup_append.mp hnd).2.2 hq (by simp)
  have hchk : ∀ p, s.back.check_loc p = true → ws.back.check_loc p = true := by
    intro p hp; rw [check_of_dims hd]; exact hp
  have hchk2 : ∀ p, ws.back.check_loc p = true → s.back.check_loc p = true := by
    intro p hp; rw [← check_of_dims hd]; exact hp
  obtain ⟨hw2, hf2, hd2, hla, hcase⟩ := move_cell_cells hw hb
  rw [hf] at hcase
  -- the three parts of the record, given what the iteration for `a` writes
  have build : ∀ (wa : Option (CellType × Point)),
      final_destination s rng k a = wa →
      (∀ t p, wa = some (t, p) → culled s.dims p = false → w2s.back.cell p = t) →
      (∀ t p, wa = some (t, p) → culled s.dims p = false → ws.back.cell p = EMPTY) →
      (∀ p, s.back.check_loc p = true →
        (∀ t, wa = some (t, p) → culled s.dims p = true) →
        w2s.back.cell p = ws.back.cell p) →
      Pass2Writes s rng k (pre ++ [a]) (w2s, w2k) := by
    intro wa hwa hnew hold hsame
    have hother : ∀ loc ∈ pre, ∀ t p, WritesTo s rng k loc t p →
        ∀ t2, wa = some (t2, p) → culled s.dims p = true := by
      intro loc hloc t p hwt t2 hwa2
      by_contra hc
      have hc2 : culled s.dims p = false := Bool.eq_false_iff.mpr hc
      have h3 := hB1 loc hloc t p hwt
      rw [hold t2 p hwa2 hc2] at h3
      exact (writes_particle hwt).1 h3.symm
    refine ⟨?_, ?_, ?_⟩
    · intro loc hloc t p hwt
      show w2s.back.cell p = t
      simp only [List.mem_append, List.mem_singleton] at hloc
      rcases hloc with hl | hl
      · rw [hsame p (final_destination_range hs hwt.1).2.1 (hother loc hl t p hwt)]
        exact hB1 loc hl t p hwt
      · rw [hl] at hwt
        exact hnew t p (hwa ▸ hwt.1) hwt.2
    · intro p hp hne0 hne1
      show ∃ loc ∈ pre ++ [a], WritesTo s rng k loc (w2s.back.cell p) p
      by_cases hwp : ∃ t, wa = some (t, p) ∧ culled s.dims p = false
      · obtain ⟨t, hwt, hc⟩ := hwp
        refine ⟨a, by simp, ?_, hc⟩
        rw [hnew t p hwt hc, hwa, hwt]
      · have hs2 := hsame p hp (by
          intro t ht
          by_contra hc
          exact hwp ⟨t, ht, Bool.eq_false_iff.mpr hc⟩)
        have hne0b : ws.back.cell p ≠ EMPTY := by rw [← hs2]; exact hne0
        have hne1b : ws.back.cell p ≠ OBSTACLE := by rw [← hs2]; exact hne1
        obtain ⟨loc, hloc, hwt⟩ := hB2 p hp hne0b hne1b
        refine ⟨loc, by simp [hloc], ?_⟩
        show WritesTo s rng k loc (w2s.back.cell p) p
        rw [hs2]; exact hwt
    · intro loc1 hl1 loc2 hl2 t1 t2 p hw1 hw2
      simp only [List.mem_append, List.mem_singleton] at hl1 hl2
      rcases hl1 with hl1 | hl1
      · rcases hl2 with hl2 | hl2
        · exact hB3 loc1 hl1 loc2 hl2 t1 t2 p hw1 hw2
        · rw [hl2] at hw2
          have := hother loc1 hl1 t1 p hw1 t2 (hwa ▸ hw2.1)
          rw [hw2.2] at this
          exact absurd this (by simp)
      · rcases hl2 with hl2 | hl2
        · rw [hl1] at hw1
          have := hother loc2 hl2 t2 p hw2 t1 (hwa ▸ hw1.1)
          rw [hw1.2] at this
          exact absurd this (by simp)
        · rw [hl1, hl2]
  rcases hcase with ⟨hskip, h2, _⟩ | ⟨h0, h1p, d, hdest, hdin, hdcase, hwr⟩
  · -- the cell is skipped: it has no final destination
    refine build none (by rw [hfd, if_pos hskip]) ?_ ?_ ?_
    · intro t p h; exact absurd h (by simp)
    · intro t p h; exact absurd h (by simp)
    · intro p _ _; rw [h2]
  · have hsome : final_destination s rng k a = some (s.front.cell a, d) := by
      rw [hfd, if_neg (by simp [h0, h1p]), hdest]
    have hback_a : ws.back.cell a = EMPTY := by
      rw [hun a (hchk2 a hla) hapre h0]
      exact seed_of_particle h1p
    have hback_d : ws.back.cell d = EMPTY := by
      rcases hdcase with h | h
      · rw [h]; exact hback_a
      · exact h.1
    refine build _ hsome ?_ ?_ ?_
    · intro t p h hc
      simp only [Option.some.injEq, Prod.mk.injEq] at h
      rw [← h.1, ← h.2]
      rw [← h.2] at hc
      rcases hwr with ⟨hc2, _, _⟩ | ⟨_, hval, _⟩
      · rw [show s.back.dims = s.dims from rfl] at *
        rw [hc] at hc2; exact absurd hc2 (by simp)
      · exact hval
    · intro t p h _
      simp only [Option.some.injEq, Prod.mk.injEq] at h
      rw [← h.2]; exact hback_d
    · intro p hp hcp
      rcases hwr with ⟨_, hval, hrest⟩ | ⟨hc2, _, hrest⟩
      · by_cases hpa : p = a
        · rw [hpa, hval, hback_a]
        · exact hrest p (hchk p hp) hpa
      · by_cases hpd : p = d
        · have := hcp (s.front.cell a) (by rw [hpd])
          rw [hpd] at this
          rw [show s.back.dims = s.dims from rfl] at *
          rw [this] at hc2; exact absurd hc2 (by simp)
        · exact hrest p (hchk p hp) hpd

theorem pass2_writes_start {s s1 : FluxState} (hs : s.wf)
    (h1 : for_each_cell s.dims seed_cell s = .ok s1) (rng : Nat → Nat) (k : Nat) :
    Pass2Writes s rng k [] (s1, k) := by
  obtain ⟨s1b, hp1, _, _, _, hc1⟩ := pass1_spec hs
  rw [h1] at hp1
  cases hp1
  refine ⟨by simp, ?_, by simp⟩
  intro p hp hne0 hne1
  exfalso
  have h0 : s1.back.cell p ≠ EMPTY := hne0
  have h1b : s1.back.cell p ≠ OBSTACLE := hne1
  rw [hc1 p hp] at h0 h1b
  exact h0 (seed_of_particle (fun h => h1b ((seed_of_obstacle_iff _).mpr h)))

/-- The end of a tick that returns: the state that `flip` commits satisfies
the invariant and the record of writes for all cells. -/
theorem tick_end {s s2 : FluxState} {rng : Nat → Nat} {k k2 : Nat} (hs : s.wf)
    (h : update_world s rng k = .ok (s2, k2)) :
    ∃ s1 wfin, for_each_cell s.dims seed_cell s = .ok s1 ∧
      Pass2Inv s s1 rng k (scan_order s.dims) wfin ∧
      Pass2Writes s rng k (scan_order s.dims) wfin ∧
      s2.wf ∧ s2.back.dims = s.back.dims ∧ (∀ p, s2.front.get p = wfin.1.back.get p) := by
  obtain ⟨s1, wfin, h1, h2, h3, _⟩ := update_world_ok h
  have key := foldlM_inv (fun w q => move_cell s.dims rng q w)
    (fun pre w => Pass2Inv s s1 rng k pre w ∧ Pass2Writes s rng k pre w) (scan_order s.dims)
    (fun pre a post w w2 hl hJ hb =>
      ⟨pass2_inv_step hJ.1 hb, pass2_writes_step hs h1 hl hJ.1 hJ.2 hb⟩)
    (scan_order s.dims) [] [] (s1, k) wfin (by simp)
    ⟨pass2_inv_start hs h1 rng k, pass2_writes_start hs h1 rng k⟩ h2
  rw [List.nil_append] at key
  obtain ⟨s2b, hflip, hw2, hd2, hg⟩ := FluxState.flip_spec key.1.2.1
  rw [h3] at hflip
  cases hflip
  exact ⟨s1, wfin, h1, key.1, key.2, hw2, hd2.trans key.1.2.2.2.1, fun p => (hg p).1⟩

/-- A particle is written to a back cell that is EMPTY when it is written. -/
theorem write_lands_on_empty {s s2 : FluxState} {rng : Nat → Nat} {k k2 : Nat} (hs : s.wf)
    (h : update_world s rng k = .ok (s2, k2)) {loc d : Point} {ty : CellType}
    {w : FluxState × Nat} (hfd : final_destination s rng k loc = some (ty, d))
    (hw : pass2_before s rng k loc = .ok w) : w.1.back.get d = .ok EMPTY := by
  obtain ⟨hl, hdr, hty⟩ := final_destination_range hs hfd
  obtain ⟨w0, k3, hw0, _, hp0, hp1, hd0⟩ := final_destination_some hfd
  obtain ⟨s1, pre, post, w1, _, _, _, hpre, _, hw1, hJ1, _⟩ := tick_split hs h hl
  have e0 : w0 = w := by rw [hw] at hw0; exact (Except.ok.inj hw0).symm
  have e1 : w1 = w := by rw [hw] at hw1; exact (Except.ok.inj hw1).symm
  subst e0
  subst e1
  obtain ⟨_, hwf, hf, hd, _, _, hun⟩ := hJ1
  rw [ParticleMap.get_in hwf.1 (by rw [check_of_dims hd]; exact hdr)]
  congr 1
  rcases destination_dest hd0 with h | h
  · simp only at h
    rw [h, hun loc hl hpre (by rw [hty]; exact hp0), hty]
    exact seed_of_particle hp1
  · exact (FluxState.fully_empty_true hwf h).2.1

theorem countP_split {α : Type} (o m c : α → Bool) :
    ∀ (l : List α), (∀ x ∈ l, o x = (m x || c x) ∧ (m x && c x) = false) →
      l.countP o = l.countP m + l.countP c := by
  intro l
  induction l with
  | nil => intro _; rfl
  | cons a l ih =>
    intro h
    have ha := h a (by simp)
    have := ih (fun x hx => h x (by simp [hx]))
    rw [List.countP_cons, List.countP_cons, List.countP_cons, this, ha.1]
    cases hm : m a <;> cases hc : c a <;> simp [hm, hc] at ha ⊢ <;> omega

theorem moved_source_iff {s : FluxState} {rng : Nat → Nat} {k : Nat} {t : CellType}
    {loc : Point} :
    moved_source s rng k t loc = true ↔ WritesTo s rng k loc t (dest_of s rng k loc) := by
  unfold moved_source WritesTo dest_of
  cases hfd : final_destination s rng k loc with
  | none => simp
  | some r =>
    obtain ⟨ty, d⟩ := r
    simp only [Bool.and_eq_true, beq_iff_eq, Bool.not_eq_true', Option.some.injEq,
      Prod.mk.injEq, and_true]

/-- In a tick that returns every particle of the front grid has a final
destination. -/
theorem source_has_destination {s s2 : FluxState} {rng : Nat → Nat} {k k2 : Nat} (hs : s.wf)
    (h : update_world s rng k = .ok (s2, k2)) {loc : Point} (hl : s.back.check_loc loc = true)
    (h0 : s.front.cell loc ≠ EMPTY) (h1 : s.front.cell loc ≠ OBSTACLE) :
    ∃ d, final_destination s rng k loc = some (s.front.cell loc, d) := by
  obtain ⟨s1, pre, post, w, w2, _, _, _, _, hw, hJ1, hb, _⟩ := tick_split hs h hl
  obtain ⟨_, hwf, hf, hd, _⟩ := hJ1
  obtain ⟨ws, wk⟩ := w
  obtain ⟨w2s, w2k⟩ := w2
  obtain ⟨_, _, _, hla, hcase⟩ := move_cell_cells hwf hb
  simp only at hf hd hla
  rw [hf] at hcase
  rcases hcase with ⟨hskip, _, _⟩ | ⟨_, _, d, hdest, _⟩
  · rcases hskip with h | h
    · exact absurd h h0
    · exact absurd h h1
  · refine ⟨d, ?_⟩
    unfold final_destination
    rw [hw]
    simp only
    rw [FluxState.get_particle_eq hwf, if_pos hla, hf]
    simp only [Bool.or_eq_true, beq_iff_eq, h0, h1, or_self, if_false]
    rw [hdest]

theorem front_get_eq {s : FluxState} (hs : s.wf) {p : Point} (hp : s.back.check_loc p = true) :
    s.front.get p = .ok (s.front.cell p) :=
  ParticleMap.get_in hs.2.1 (by rw [FluxState.check_front hs]; exact hp)

/-- The particles of a type in the old front grid are the moved and the
culled ones. -/
theorem count_old_split {s s2 : FluxState} {rng : Nat → Nat} {k k2 : Nat} (hs : s.wf)
    (h : update_world s rng k = .ok (s2, k2)) {t : CellType} (ht0 : t ≠ EMPTY)
    (ht1 : t ≠ OBSTACLE) :
    count_type s.front t =
      (scan_order s.dims).countP (moved_source s rng k t) + count_culled s rng k t := by
  unfold count_type count_culled
  have hdims : s.front.dims = s.dims := hs.2.2.symm
  rw [hdims]
  apply countP_split
  intro loc hloc
  rw [mem_scan_order] at hloc
  have hl : s.back.check_loc loc = true := (ParticleMap.check_loc_iff _ _).mpr hloc
  rw [front_get_eq hs hl]
  unfold moved_source culled_source
  cases hfd : final_destination s rng k loc with
  | none =>
    simp only [Bool.or_self, Bool.and_self, and_true, decide_eq_false_iff_not,
      Except.ok.injEq]
    intro hcell
    obtain ⟨d, hd⟩ := source_has_destination hs h hl (by rw [hcell]; exact ht0)
      (by rw [hcell]; exact ht1)
    rw [hfd] at hd
    exact absurd hd (by simp)
  | some r =>
    obtain ⟨ty, d⟩ := r
    have hty := (final_destination_range hs hfd).2.2
    simp only [hty, Except.ok.injEq]
    by_cases hc : culled s.dims d = true
    · by_cases he : ty = t <;> simp [hc, he]
    · have hc2 : culled s.dims d = false := Bool.eq_false_iff.mpr hc
      by_cases he : ty = t <;> simp [hc2, he]

/-- The particles of a type in the new front grid are the moved ones. -/
theorem count_new_moved {s s2 : FluxState} {rng : Nat → Nat} {k k2 : Nat} (hs : s.wf)
    (h : update_world s rng k = .ok (s2, k2)) {t : CellType} (ht0 : t ≠ EMPTY)
    (ht1 : t ≠ OBSTACLE) :
    count_type s2.front t = (scan_order s.dims).countP (moved_source s rng k t) := by
  obtain ⟨s1, wfin, _, hJ, hW, hw2, hd2, hg⟩ := tick_end hs h
  obtain ⟨_, hwf, _, hd, _, _, _⟩ := hJ
  obtain ⟨hB1, hB2, hB3⟩ := hW
  have hdims : s2.front.dims = s.dims := by rw [← hw2.2.2, hd2]; rfl
  have hcell : ∀ p, s.back.check_loc p = true → s2.front.get p = .ok (wfin.1.back.cell p) := by
    intro p hp
    rw [hg p, ParticleMap.get_in hwf.1 (by rw [check_of_dims hd]; exact hp)]
  unfold count_type
  rw [hdims, List.countP_eq_length_filter, List.countP_eq_length_filter,
    ← List.length_map ((scan_order s.dims).filter (moved_source s rng k t)) (dest_of s rng k)]
  apply List.Perm.length_eq
  rw [List.perm_ext_iff_of_nodup ((nodup_scan_order s.dims).filter _)]
  · intro p
    simp only [List.mem_filter, List.mem_map, decide_eq_true_eq]
    constructor
    · rintro ⟨hp, hget⟩
      rw [mem_scan_order] at hp
      have hpin : s.back.check_loc p = true := (ParticleMap.check_loc_iff _ _).mpr hp
      rw [hcell p hpin] at hget
      have hbc : wfin.1.back.cell p = t := Except.ok.inj hget
      obtain ⟨loc, hloc, hwt⟩ := hB2 p hpin (by rw [hbc]; exact ht0) (by rw [hbc]; exact ht1)
      rw [hbc] at hwt
      have hdest : dest_of s rng k loc = p := by
        unfold dest_of; rw [hwt.1]
      refine ⟨loc, ⟨hloc, ?_⟩, hdest⟩
      rw [moved_source_iff, hdest]
      exact hwt
    · rintro ⟨loc, ⟨hloc, hmv⟩, hdest⟩
      rw [moved_source_iff, hdest] at hmv
      have hpin := (final_destination_range hs hmv.1).2.1
      refine ⟨by rw [mem_scan_order]; exact (ParticleMap.check_loc_iff _ _).mp hpin, ?_⟩
      rw [hcell p hpin, hB1 loc hloc t p hmv]
  · apply List.Nodup.map_on _ ((nodup_scan_order s.dims).filter _)
    intro x hx y hy hxy
    simp only [List.mem_filter] at hx hy
    have hwx := moved_source_iff.mp hx.2
    have hwy := moved_source_iff.mp hy.2
    rw [← hxy] at hwy
    exact hB3 x hx.1 y hy.1 t t _ hwx hwy

/-- The culling test of line 333 on an in-range cell, without wrap-around. -/
theorem culled_iff_margin {dims p : Point} (hx : p.x < dims.x) (hy : p.y < dims.y)
    (hdx : dims.x < SIZE_MOD) (hdy : dims.y < SIZE_MOD) :
    culled dims p = true ↔ (p.x < 3 ∨ p.x + 3 > dims.x ∨ p.y < 3 ∨ p.y + 3 ≥ dims.y) := by
  unfold culled
  have h1 : (dims.x + SIZE_MOD - 3) % SIZE_MOD =
      if 3 ≤ dims.x then dims.x - 3 else dims.x + SIZE_MOD - 3 := by
    split
    · have : dims.x + SIZE_MOD - 3 = (dims.x - 3) + SIZE_MOD := by omega
      rw [this, Nat.add_mod_right, Nat.mod_eq_of_lt (by omega)]
    · exact Nat.mod_eq_of_lt (by omega)
  have h2 : (dims.y + SIZE_MOD - 3) % SIZE_MOD =
      if 3 ≤ dims.y then dims.y - 3 else dims.y + SIZE_MOD - 3 := by
    split
    · have : dims.y + SIZE_MOD - 3 = (dims.y - 3) + SIZE_MOD := by omega
      rw [this, Nat.add_mod_right, Nat.mod_eq_of_lt (by omega)]
    · exact Nat.mod_eq_of_lt (by omega)
  rw [h1, h2]
  simp only [Bool.or_eq_true, decide_eq_true_eq]
  split <;> split <;> omega

/-! ## Further properties of the movement rules and of the tick -/

theorem size_mod_eq : SIZE_MOD = 4294967296 := by decide

theorem left_ne_self (q : Point) : left q ≠ q := by
  cases q with
  | mk x y =>
    simp only [FluxState.left, size_mod_eq, ne_eq, Point.mk.injEq, and_true]
    omega

theorem right_ne_self (q : Point) : right q ≠ q := by
  cases q with
  | mk x y =>
    simp only [FluxState.right, size_mod_eq, ne_eq, Point.mk.injEq, and_true]
    omega

theorem left_ne_right (q : Point) : left q ≠ right q := by
  cases q with
  | mk x y =>
    simp only [FluxState.left, FluxState.right, size_mod_eq, ne_eq, Point.mk.injEq, and_true]
    omega

theorem and_then_false {a : Bool} {c : Except Fault Bool} :
    and_then a c = .ok false ↔ a = false ∨ c = .ok false := by
  cases a <;> simp [and_then, pure, Except.pure]

/-- The drift step in the form of cases. -/
theorem apply_drift_iff {s : FluxState} {lr : Int} {q d : Point} :
    apply_drift s lr q = .ok d ↔
      (lr = -1 ∧ ((s.is_fully_empty (left q) = .ok true ∧ d = left q) ∨
        (s.is_fully_empty (left q) = .ok false ∧ d = q))) ∨
      (lr = 1 ∧ ((s.is_fully_empty (right q) = .ok true ∧ d = right q) ∨
        (s.is_fully_empty (right q) = .ok false ∧ d = q))) ∨
      (lr ≠ -1 ∧ lr ≠ 1 ∧ d = q) := by
  unfold apply_drift
  by_cases hm : lr = -1
  · subst hm
    simp only [beq_self_eq_true, if_true, bind_ite_ok, pure, Except.pure, Except.ok.injEq]
    constructor
    · rintro (⟨h1, h2⟩ | ⟨h1, h2⟩)
      · exact Or.inl ⟨trivial, Or.inl ⟨h1, h2.symm⟩⟩
      · exact Or.inl ⟨trivial, Or.inr ⟨h1, h2.symm⟩⟩
    · rintro (⟨_, (⟨h1, h2⟩ | ⟨h1, h2⟩)⟩ | ⟨h, _⟩ | ⟨h, _⟩)
      · exact Or.inl ⟨h1, h2.symm⟩
      · exact Or.inr ⟨h1, h2.symm⟩
      · exact absurd h (by decide)
      · exact absurd rfl h
  · by_cases hp : lr = 1
    · subst hp
      have hne : ((1 : Int) == -1) = false := by decide
      simp only [hne, beq_self_eq_true, if_true, bind_ite_ok, pure, Except.pure,
        Except.ok.injEq, Bool.false_eq_true, if_false]
      constructor
      · rintro (⟨h1, h2⟩ | ⟨h1, h2⟩)
        · exact Or.inr (Or.inl ⟨trivial, Or.inl ⟨h1, h2.symm⟩⟩)
        · exact Or.inr (Or.inl ⟨trivial, Or.inr ⟨h1, h2.symm⟩⟩)
      · rintro (⟨h, _⟩ | ⟨_, (⟨h1, h2⟩ | ⟨h1, h2⟩)⟩ | ⟨_, h, _⟩)
        · exact absurd h (by decide)
        · exact Or.inl ⟨h1, h2.symm⟩
        · exact Or.inr ⟨h1, h2.symm⟩
        · exact absurd rfl h
    · have h1 : (lr == -1) = false := by simpa using hm
      have h2 : (lr == 1) = false := by simpa using hp
      simp only [h1, h2, Bool.false_eq_true, if_false, pure, Except.pure, Except.ok.injEq]
      constructor
      · intro h; exact Or.inr (Or.inr ⟨hm, hp, h.symm⟩)
      · rintro (⟨h, _⟩ | ⟨h, _⟩ | ⟨_, _, h⟩)
        · exact absurd h hm
        · exact absurd h hp
        · exact h.symm

theorem destination_iff {s : FluxState} {rng : Nat → Nat} {k k2 : Nat} {loc d : Point}
    {ty : CellType} :
    destination s rng k loc ty = .ok (d, k2) ↔
      ∃ q, provisional s rng (k + 1) loc ty = .ok (q, k2) ∧
        apply_drift s (leftright_of (rng k)) q = .ok d := by
  constructor
  · intro h
    unfold destination at h
    cases hp : provisional s rng (k + 1) loc ty with
    | error e => rw [hp] at h; exact absurd h (by simp [bind, Except.bind])
    | ok r =>
      rw [hp] at h
      simp only [bind, Except.bind] at h
      cases hd : apply_drift s (leftright_of (rng k)) r.1 with
      | error e => rw [hd] at h; exact absurd h (by simp)
      | ok d2 =>
        rw [hd] at h
        simp only [pure, Except.pure, Except.ok.injEq, Prod.mk.injEq] at h
        exact ⟨r.1, by rw [← h.2], by rw [hd, h.1]⟩
  · rintro ⟨q, hp, hd⟩
    exact destination_of hp hd

theorem fully_empty_iff_gets (s : FluxState) (p : Point) :
    s.is_fully_empty p = .ok true ↔ s.back.get p = .ok EMPTY ∧ s.front.get p = .ok EMPTY := by
  unfold FluxState.is_fully_empty
  cases hb : s.back.get p with
  | error e => simp [bind, Except.bind]
  | ok b =>
    by_cases hbe : b = EMPTY
    · subst hbe
      cases hf : s.front.get p with
      | error e => simp [bind, Except.bind]
      | ok f => simp [bind, Except.bind, pure, Except.pure]
    · simp [bind, Except.bind, pure, Except.pure, hbe]

theorem not_fully_empty_gets {s : FluxState} {p : Point} (h : s.is_fully_empty p = .ok false) :
    ¬ (s.back.get p = .ok EMPTY ∧ s.front.get p = .ok EMPTY) := by
  rw [← fully_empty_iff_gets, h]
  simp

theorem fe_result_cases (s : FluxState) (p : Point) (cands : List Point) (dflt : Point) :
    (s.is_fully_empty p = .ok true → first_fully_empty s (p :: cands) dflt = p) ∧
    (s.is_fully_empty p = .ok false →
      first_fully_empty s (p :: cands) dflt = first_fully_empty s cands dflt) := by
  constructor
  · intro h
    have := (fully_empty_iff_gets s p).mp h
    simp [first_fully_empty, List.find?_cons, this]
  · intro h
    have := not_fully_empty_gets h
    simp [first_fully_empty, List.find?_cons, this]

theorem fe_total {s : FluxState} (hs : s.wf) {p : Point} (hp : s.back.check_loc p = true) :
    ∃ b, s.is_fully_empty p = .ok b := by
  rw [FluxState.is_fully_empty_eq hs, if_pos hp]
  exact ⟨_, rfl⟩

/-- The water rule returns the first fully empty cell of its list. -/
theorem water_rule_first {s : FluxState} {loc d : Point} (h : water_rule s loc = .ok d) :
    d = first_fully_empty s
      [below loc, left (below loc), right (below loc), left loc, right loc] loc := by
  unfold water_rule at h
  simp only [bind_ite_ok, pure, Except.pure, Except.ok.injEq] at h
  have c := fun (p : Point) (l : List Point) => fe_result_cases s p l loc
  rcases h with ⟨h1, rfl⟩ | ⟨n1, ⟨h1, rfl⟩ | ⟨n2, ⟨h1, rfl⟩ | ⟨n3, ⟨h1, rfl⟩ | ⟨n4, ⟨h1, rfl⟩ |
    ⟨n5, rfl⟩⟩⟩⟩⟩
  · rw [(c _ _).1 h1]
  · rw [(c _ _).2 n1, (c _ _).1 h1]
  · rw [(c _ _).2 n1, (c _ _).2 n2, (c _ _).1 h1]
  · rw [(c _ _).2 n1, (c _ _).2 n2, (c _ _).2 n3, (c _ _).1 h1]
  · rw [(c _ _).2 n1, (c _ _).2 n2, (c _ _).2 n3, (c _ _).2 n4, (c _ _).1 h1]
  · rw [(c _ _).2 n1, (c _ _).2 n2, (c _ _).2 n3, (c _ _).2 n4, (c _ _).2 n5]
    rfl

theorem water_rule_total {s : FluxState} {loc : Point}
    (h : ∀ p ∈ [below loc, left (below loc), right (below loc), left loc, right loc],
      ∃ b, s.is_fully_empty p = .ok b) : ∃ d, water_rule s loc = .ok d := by
  obtain ⟨b1, h1⟩ := h (below loc) (by simp)
  obtain ⟨b2, h2⟩ := h (left (below loc)) (by simp)
  obtain ⟨b3, h3⟩ := h (right (below loc)) (by simp)
  obtain ⟨b4, h4⟩ := h (left loc) (by simp)
  obtain ⟨b5, h5⟩ := h (right loc) (by simp)
  unfold water_rule
  simp only [h1, h2, h3, h4, h5, bind, Except.bind, pure, Except.pure]
  cases b1 <;> cases b2 <;> cases b3 <;> cases b4 <;> cases b5 <;> simp

theorem provisional_water (s : FluxState) (rng : Nat → Nat) (k : Nat) (loc : Point) :
    provisional s rng k loc PARTICLE_WATER =
      (water_rule s loc >>= fun d => pure (d, k)) := by
  simp [provisional, PARTICLE_WATER, PARTICLE_HEAVY, PARTICLE_LIGHT]

/-- After a tick that returns, the new front reads at every in-range cell what
the back grid held at the end of pass 2, the dimensions are unchanged, and
the pass-2 invariant holds for that back grid. -/
theorem tick_cells {s s2 : FluxState} {rng : Nat → Nat} {k k2 : Nat} (hs : s.wf)
    (h : update_world s rng k = .ok (s2, k2)) :
    ∃ s1 wfin, Pass2Inv s s1 rng k (scan_order s.dims) wfin ∧ s2.wf ∧
      s2.back.dims = s.back.dims ∧
      ∀ p, s.back.check_loc p = true → s2.front.get p = .ok (wfin.1.back.cell p) := by
  obtain ⟨s1, wfin, _, hJ, _, hw2, hd2, hg⟩ := tick_end hs h
  refine ⟨s1, wfin, hJ, hw2, hd2, ?_⟩
  intro p hp
  rw [hg p, ParticleMap.get_in hJ.2.1.1 (by rw [check_of_dims hJ.2.2.2.1]; exact hp)]

/-- After a tick that returns every particle of the new front lies outside
the culling margin. -/
theorem particles_in_interior {s s2 : FluxState} {rng : Nat → Nat} {k k2 : Nat} (hs : s.wf)
    (h : update_world s rng k = .ok (s2, k2)) {p : Point} (hp : s.back.check_loc p = true)
    (h0 : s2.front.cell p ≠ EMPTY) (h1 : s2.front.cell p ≠ OBSTACLE) :
    3 ≤ p.x ∧ p.x + 3 ≤ s.back.dims.x ∧ 3 ≤ p.y ∧ p.y + 4 ≤ s.back.dims.y := by
  obtain ⟨s1, wfin, hJ, hw2, hd2, hg⟩ := tick_cells hs h
  have hp2 : s2.back.check_loc p = true := by rw [check_of_dims hd2]; exact hp
  have hc : s2.front.cell p = wfin.1.back.cell p := by
    have := hg p hp
    rw [front_get_eq hw2 hp2] at this
    exact Except.ok.inj this
  rw [hc] at h0 h1
  have hnc : ¬ culled s.dims p = true := by
    intro hcu
    exact h0 (hJ.2.2.2.2.2.1 p hp hcu h1)
  have hxy := (ParticleMap.check_loc_iff _ _).mp hp
  have hdl := dims_lt hs.1 hp
  rw [show s.dims = s.back.dims from rfl, culled_iff_margin hxy.1 hxy.2 hdl.1 hdl.2] at hnc
  omega

theorem heavy_rule_total {s : FluxState} {loc : Point}
    (h : ∀ p ∈ [below loc, left (below loc), right (below loc)],
      ∃ b, s.is_fully_empty p = .ok b) (rng : Nat → Nat) (k : Nat) :
    ∃ r, heavy_rule s rng k loc = .ok r := by
  obtain ⟨b1, h1⟩ := h (below loc) (by simp)
  obtain ⟨b2, h2⟩ := h (left (below loc)) (by simp)
  obtain ⟨b3, h3⟩ := h (right (below loc)) (by simp)
  unfold heavy_rule
  simp only [h1, h2, h3, bind, Except.bind, pure, Except.pure, and_then]
  cases b1 <;> cases b2 <;> cases b3 <;>
    cases (direction_of (rng k) == -1) <;> cases (direction_of (rng k) == 1) <;> simp

theorem light_rule_total {s : FluxState} {loc : Point}
    (h : ∀ p ∈ [above loc, left (above loc), right (above loc)],
      ∃ b, s.is_fully_empty p = .ok b) (rng : Nat → Nat) (k : Nat) :
    ∃ r, light_rule s rng k loc = .ok r := by
  obtain ⟨b1, h1⟩ := h (above loc) (by simp)
  obtain ⟨b2, h2⟩ := h (left (above loc)) (by simp)
  obtain ⟨b3, h3⟩ := h (right (above loc)) (by simp)
  unfold light_rule
  simp only [h1, h2, h3, bind, Except.bind, pure, Except.pure, and_then]
  cases b1 <;> cases b2 <;> cases b3 <;>
    cases (direction_of (rng k) == -1) <;> cases (direction_of (rng k) == 1) <;> simp

theorem provisional_total {s : FluxState} {loc : Point}
    (h : ∀ p ∈ near_cells loc, ∃ b, s.is_fully_empty p = .ok b) (rng : Nat → Nat) (k : Nat)
    (ty : CellType) : ∃ r, provisional s rng k loc ty = .ok r := by
  have hmem : ∀ p, p ∈ near_cells loc ↔ (p = loc ∨ p = below loc ∨ p = left (below loc) ∨
      p = right (below loc) ∨ p = above loc ∨ p = left (above loc) ∨ p = right (above loc) ∨
      p = left loc ∨ p = right loc) := by
    intro p
    simp only [near_cells, List.mem_cons, List.mem_singleton, List.not_mem_nil, or_false]
  unfold provisional
  split
  · refine heavy_rule_total (fun p hp => h p ?_) rng k
    rw [hmem]
    simp only [List.mem_cons, List.mem_singleton, List.not_mem_nil, or_false] at hp
    rcases hp with e | e | e <;> simp [e]
  · split
    · refine light_rule_total (fun p hp => h p ?_) rng k
      rw [hmem]
      simp only [List.mem_cons, List.mem_singleton, List.not_mem_nil, or_false] at hp
      rcases hp with e | e | e <;> simp [e]
    · split
      · have hw : ∃ d, water_rule s loc = .ok d := by
          refine water_rule_total (fun p hp => h p ?_)
          rw [hmem]
          simp only [List.mem_cons, List.mem_singleton, List.not_mem_nil, or_false] at hp
          rcases hp with e | e | e | e | e <;> simp [e]
        obtain ⟨d, hd⟩ := hw
        exact ⟨(d, k), by rw [hd]; rfl⟩
      · exact ⟨(loc, k), rfl⟩

theorem provisional_near {s : FluxState} {rng : Nat → Nat} {k : Nat} {loc : Point}
    {ty : CellType} {r : Point × Nat} (h : provisional s rng k loc ty = .ok r) :
    r.1 ∈ near_cells loc := by
  unfold provisional at h
  simp only [near_cells, List.mem_cons, List.mem_singleton, List.not_mem_nil, or_false]
  split at h
  · unfold heavy_rule at h
    simp only [bind_ite_ok, and_then_true, pure, Except.pure, Except.ok.injEq] at h
    rcases h with ⟨_, rfl⟩ | ⟨_, ⟨_, rfl⟩ | ⟨_, ⟨_, rfl⟩ | ⟨_, rfl⟩⟩⟩ <;> simp
  · split at h
    · unfold light_rule at h
      simp only [bind_ite_ok, and_then_true, pure, Except.pure, Except.ok.injEq] at h
      rcases h with ⟨_, rfl⟩ | ⟨_, ⟨_, rfl⟩ | ⟨_, ⟨_, rfl⟩ | ⟨_, rfl⟩⟩⟩ <;> simp
    · split at h
      · cases hw : water_rule s loc with
        | error e => rw [hw] at h; exact absurd h (by simp [bind, Except.bind])
        | ok d =>
          rw [hw] at h
          simp only [bind, Except.bind, pure, Except.pure, Except.ok.injEq] at h
          rw [← h]
          unfold water_rule at hw
          simp only [bind_ite_ok, pure, Except.pure, Except.ok.injEq] at hw
          rcases hw with ⟨_, rfl⟩ | ⟨_, ⟨_, rfl⟩ | ⟨_, ⟨_, rfl⟩ | ⟨_, ⟨_, rfl⟩ | ⟨_, ⟨_, rfl⟩ |
            ⟨_, rfl⟩⟩⟩⟩⟩ <;> simp
      · simp only [pure, Except.pure, Except.ok.injEq] at h
        rw [← h]; simp

theorem apply_drift_total {s : FluxState} {p : Point}
    (hl : ∃ b, s.is_fully_empty (left p) = .ok b) (hr : ∃ b, s.is_fully_empty (right p) = .ok b)
    (lr : Int) : ∃ d, apply_drift s lr p = .ok d := by
  obtain ⟨b1, h1⟩ := hl
  obtain ⟨b2, h2⟩ := hr
  unfold apply_drift
  simp only [h1, h2, bind, Except.bind, pure, Except.pure]
  cases b1 <;> cases b2 <;> cases (lr == -1) <;> cases (lr == 1) <;> simp

/-- Around a cell at least 3 columns from the left and right edges, at least
one row below the top and at least 4 rows above the bottom edge, every cell
the movement rules and the drift can examine is in range. -/
theorem near_in_range {dims loc : Point} (hx : 3 ≤ loc.x) (hx2 : loc.x + 3 ≤ dims.x)
    (hy : 1 ≤ loc.y) (hy2 : loc.y + 2 ≤ dims.y) (hdx : dims.x < SIZE_MOD)
    (hdy : dims.y < SIZE_MOD) :
    ∀ p ∈ near_cells loc, (p.x < dims.x ∧ p.y < dims.y) ∧
      ((left p).x < dims.x ∧ (left p).y < dims.y) ∧
      ((right p).x < dims.x ∧ (right p).y < dims.y) := by
  intro p hp
  simp only [near_cells, List.mem_cons, List.mem_singleton, List.not_mem_nil, or_false] at hp
  rw [size_mod_eq] at hdx hdy
  rcases hp with h | h | h | h | h | h | h | h | h <;>
    · subst h
      simp only [FluxState.left, FluxState.right, FluxState.above, FluxState.below, size_mod_eq]
      omega

theorem destination_total {s : FluxState} (hs : s.wf) {loc : Point}
    (hnear : ∀ p ∈ near_cells loc, s.back.check_loc p = true ∧
      s.back.check_loc (left p) = true ∧ s.back.check_loc (right p) = true)
    (rng : Nat → Nat) (k : Nat) (ty : CellType) :
    ∃ r, destination s rng k loc ty = .ok r := by
  obtain ⟨r1, h1⟩ := provisional_total (fun p hp => fe_total hs (hnear p hp).1) rng (k + 1) ty
  have hmem := provisional_near h1
  obtain ⟨d, hd⟩ := apply_drift_total (fe_total hs (hnear _ hmem).2.1)
    (fe_total hs (hnear _ hmem).2.2) (leftright_of (rng k))
  exact ⟨(d, r1.2), destination_of h1 hd⟩

/-- One iteration of pass 2 returns when the cell is in range and, if it holds
a particle, all cells around it that can be examined are in range. -/
theorem move_cell_total {s : FluxState} (hs : s.wf) {a : Point}
    (ha : s.back.check_loc a = true)
    (hnear : s.front.cell a ≠ EMPTY → s.front.cell a ≠ OBSTACLE →
      ∀ p ∈ near_cells a, s.back.check_loc p = true ∧
        s.back.check_loc (left p) = true ∧ s.back.check_loc (right p) = true)
    (dims : Point) (rng : Nat → Nat) (k : Nat) :
    ∃ w2, move_cell dims rng a (s, k) = .ok w2 := by
  by_cases hskip : s.front.cell a = EMPTY ∨ s.front.cell a = OBSTACLE
  · exact ⟨(s, k), move_cell_skip hs ha hskip dims rng k⟩
  · simp only [not_or] at hskip
    obtain ⟨r, hr⟩ := destination_total hs (hnear hskip.1 hskip.2) rng k (s.front.cell a)
    have hdin : s.back.check_loc r.1 = true := by
      rcases destination_dest hr with h | h
      · rw [h]; exact ha
      · exact (FluxState.fully_empty_true hs h).1
    have hwrite : ∃ s3, (if culled dims r.1 = true then s.back_set_particle a EMPTY
        else s.back_set_particle r.1 (s.front.cell a)) = .ok s3 := by
      by_cases hc : culled dims r.1 = true
      · rw [if_pos hc]; exact FluxState.back_set_ok hs ha _
      · rw [if_neg hc]; exact FluxState.back_set_ok hs hdin _
    obtain ⟨s3, hs3⟩ := hwrite
    exact ⟨(s3, r.2), move_cell_eval hs ha rfl hskip.1 hskip.2 hr hs3⟩

/-- A tick returns when every particle of the front grid is at least 3 columns
from the left and right edges, not in the top row and not in the bottom
row. -/
theorem interior_tick_total {s : FluxState} (hs : s.wf)
    (hint : ∀ p, s.back.check_loc p = true → s.front.cell p ≠ EMPTY →
      s.front.cell p ≠ OBSTACLE →
      3 ≤ p.x ∧ p.x + 3 ≤ s.back.dims.x ∧ 1 ≤ p.y ∧ p.y + 2 ≤ s.back.dims.y)
    (rng : Nat → Nat) (k : Nat) : ∃ s2 k2, update_world s rng k = .ok (s2, k2) := by
  obtain ⟨s1, h1, hw1, hf1, hd1, _⟩ := pass1_spec hs
  have key := foldlM_total (fun w q => move_cell s.dims rng q w)
    (fun _ w => w.1.wf ∧ w.1.front = s.front ∧ w.1.back.dims = s.back.dims)
    (scan_order s.dims) ?_ (scan_order s.dims) [] (s1, k) rfl ⟨hw1, hf1, hd1⟩
  · obtain ⟨w, h2, hw, _, _⟩ := key
    obtain ⟨s2, h3, _⟩ := FluxState.flip_spec hw
    exact ⟨s2, w.2, update_world_of h1 h2 h3⟩
  · intro pre a post w hl ⟨hw, hf, hd⟩
    have ha : a ∈ scan_order s.dims := by rw [hl]; simp
    rw [mem_scan_order] at ha
    have hain : s.back.check_loc a = true := (ParticleMap.check_loc_iff _ _).mpr ha
    obtain ⟨ws, wk⟩ := w
    simp only at hw hf hd
    have htot := move_cell_total hw (by rw [check_of_dims hd]; exact hain) (by
      intro h0 h1p p hp
      rw [hf] at h0 h1p
      obtain ⟨b1, b2, b3, b4⟩ := hint a hain h0 h1p
      have hdl := dims_lt hs.1 hain
      have := near_in_range b1 b2 b3 b4 hdl.1 hdl.2 p hp
      simp only [check_of_dims hd, ParticleMap.check_loc_iff]
      exact this) s.dims rng wk
    obtain ⟨w2, hw2⟩ := htot
    obtain ⟨w2s, w2k⟩ := w2
    obtain ⟨a1, a2, a3, _⟩ := move_cell_cells hw hw2
    exact ⟨(w2s, w2k), hw2, a1, a2.trans hf, a3.trans hd⟩

set_option maxRecDepth 100000 in
theorem put_same_table : ∀ b < 256,
    put_nibble b 0 (take_nibble b 0) = b ∧ put_nibble b 4 (take_nibble b 4) = b := by
  decide

theorem list_set_getD_self (d : Nat) : ∀ (l : List Nat) (i : Nat), l.set i (l.getD i d) = l := by
  intro l
  induction l with
  | nil => intro i; rfl
  | cons x xs ih =>
    intro i
    cases i with
    | zero => rfl
    | succ n =>
      simp only [List.set_cons_succ, List.getD_cons_succ, ih]

/-- Writing to a cell the code it already holds leaves the grid as it is. -/
theorem set_same {m : ParticleMap} (hm : m.wf) {loc : Point} (hl : m.check_loc loc = true) :
    m.set loc (m.cell loc) = .ok m := by
  rw [ParticleMap.set_in hm hl]
  have hb := ParticleMap.byte_lt hm (m.elem_idx loc >>> 1)
  have hput : put_nibble (m.buf.getD (m.elem_idx loc >>> 1) 0) ((m.elem_idx loc &&& 1) <<< 2)
      (m.cell loc) = m.buf.getD (m.elem_idx loc >>> 1) 0 := by
    unfold ParticleMap.cell
    rcases offset_cases (m.elem_idx loc) with ⟨h, _⟩ | ⟨h, _⟩
    · rw [h]; exact (put_same_table _ hb).1
    · rw [h]; exact (put_same_table _ hb).2
  rw [hput, list_set_getD_self]

/-- Before the iteration of pass 2 for a particle, its own back cell is EMPTY. -/
theorem back_empty_before {s s1 : FluxState} {rng : Nat → Nat} {k : Nat} {pre : List Point}
    {w : FluxState × Nat} (hJ : Pass2Inv s s1 rng k pre w) {a : Point} (ha : a ∉ pre)
    {ty : CellType} (hg : w.1.get_particle a = .ok ty) (h0 : ty ≠ EMPTY) (h1 : ty ≠ OBSTACLE) :
    w.1.back.check_loc a = true ∧ w.1.back.cell a = EMPTY := by
  obtain ⟨_, hw, hf, hd, _, _, hun⟩ := hJ
  rw [FluxState.get_particle_eq hw] at hg
  by_cases hin : w.1.back.check_loc a = true
  · rw [if_pos hin, hf] at hg
    have hty : s.front.cell a = ty := Except.ok.inj hg
    refine ⟨hin, ?_⟩
    rw [hun a (by rw [← check_of_dims hd]; exact hin) ha (by rw [hty]; exact h0), hty]
    exact seed_of_particle h1
  · rw [if_neg hin] at hg
    exact absurd hg (by simp)

/-- An iteration of pass 2 without the write of line 334 does what the
iteration with it does. -/
theorem move_cell_same {s s1 : FluxState} {rng : Nat → Nat} {k : Nat} {pre : List Point}
    {w : FluxState × Nat} (hJ : Pass2Inv s s1 rng k pre w) {a : Point} (ha : a ∉ pre)
    (dims : Point) :
    move_cell_without_cull_write dims rng a w = move_cell dims rng a w := by
  unfold move_cell_without_cull_write move_cell
  cases hg : w.1.get_particle a with
  | error e => rfl
  | ok ty =>
    simp only [bind, Except.bind]
    split
    · rfl
    · rename_i hty
      simp only [Bool.or_eq_true, beq_iff_eq, not_or] at hty
      cases hd : destination w.1 rng w.2 a ty with
      | error e => rfl
      | ok r =>
        simp only
        split
        · obtain ⟨hin, hcell⟩ := back_empty_before hJ ha hg hty.1 hty.2
          have hset := set_same hJ.2.1.1 hin
          rw [hcell] at hset
          simp only [FluxState.back_set_particle, hset, bind, Except.bind, pure, Except.pure]
        · rfl

theorem fold_without_cull_write {s s1 : FluxState} {rng : Nat → Nat} {k : Nat} :
    ∀ (mid pre post : List Point) (w : FluxState × Nat),
      scan_order s.dims = pre ++ mid ++ post → Pass2Inv s s1 rng k pre w →
      mid.foldlM (fun w q => move_cell_without_cull_write s.dims rng q w) w =
        mid.foldlM (fun w q => move_cell s.dims rng q w) w := by
  intro mid
  induction mid with
  | nil => intro pre post w _ _; rfl
  | cons a mid ih =>
    intro pre post w hl hJ
    have hnd := nodup_scan_order s.dims
    rw [hl] at hnd
    have ha : a ∉ pre := by
      intro hq
      have h1 := (List.nodup_append.mp hnd).1
      exact (List.nodup_append.mp h1).2.2 hq (by simp)
    rw [List.foldlM_cons, List.foldlM_cons, move_cell_same hJ ha]
    cases hb : move_cell s.dims rng a w with
    | error e => rfl
    | ok w2 =>
      simp only [bind, Except.bind]
      exact ih (pre ++ [a]) post w2 (by simp [hl]) (pass2_inv_step hJ hb)

/-- The tick without the write of line 334 is the tick. -/
theorem update_world_without_cull_write_eq {s : FluxState} (hs : s.wf) (rng : Nat → Nat)
    (k : Nat) : update_world_without_cull_write s rng k = update_world s rng k := by
  unfold update_world_without_cull_write
  rw [update_world_eq]
  simp only [for_each_cell_eq]
  cases h1 : (scan_order s.dims).foldlM (fun s loc => seed_cell loc s) s with
  | error e => rfl
  | ok s1 =>
    simp only [bind, Except.bind]
    have h1b : for_each_cell s.dims seed_cell s = .ok s1 := by rw [for_each_cell_eq]; exact h1
    rw [fold_without_cull_write (scan_order s.dims) [] [] (s1, k) (by simp)
      (pass2_inv_start hs h1b rng k)]

/-- The state in which pass 2 reaches a cell satisfies the invariant for the
cells before it. -/
theorem pass2_before_inv {s : FluxState} (hs : s.wf) {rng : Nat → Nat} {k : Nat} {loc : Point}
    {w : FluxState × Nat} (hw : pass2_before s rng k loc = .ok w) :
    ∃ s1 pre, loc ∉ pre ∧ Pass2Inv s s1 rng k pre w := by
  obtain ⟨s1, h1, _⟩ := pass1_spec hs
  have hJ0 := pass2_inv_start hs h1 rng k
  have hfold : ((scan_order s.dims).takeWhile (fun q => decide (q ≠ loc))).foldlM
      (fun w q => move_cell s.dims rng q w) (s1, k) = .ok w := by
    unfold pass2_before at hw
    simpa only [h1, bind, Except.bind] using hw
  refine ⟨s1, _, ?_, pass2_inv_fold _ [] (s1, k) w hJ0 hfold⟩
  intro hmem
  rw [List.nil_append] at hmem
  have := List.mem_takeWhile_imp hmem
  simp at this

theorem fully_empty_congr {s t : FluxState} (h : SameCells s t) :
    s.is_fully_empty = t.is_fully_empty := by
  funext p
  unfold FluxState.is_fully_empty
  rw [h.2.2.2.1 p, h.2.2.2.2 p]

theorem destination_congr {s t : FluxState} (h : SameCells s t) (rng : Nat → Nat) (k : Nat)
    (loc : Point) (ty : CellType) : destination s rng k loc ty = destination t rng k loc ty := by
  have hfe := fully_empty_congr h
  unfold destination provisional heavy_rule light_rule water_rule apply_drift
  rw [hfe]

theorem back_set_congr {s t : FluxState} (h : SameCells s t) (loc : Point) {ty : CellType}
    (hty : ty < 16) (k : Nat) :
    SameOutcome ((s.back_set_particle loc ty).map (fun s2 => (s2, k)))
      ((t.back_set_particle loc ty).map (fun t2 => (t2, k))) := by
  obtain ⟨hs, ht, hd, hf, hb⟩ := h
  by_cases hl : s.back.check_loc loc = true
  · have hl2 : t.back.check_loc loc = true := by rw [← check_of_dims hd]; exact hl
    obtain ⟨s2, hs2⟩ := FluxState.back_set_ok hs hl ty
    obtain ⟨t2, ht2⟩ := FluxState.back_set_ok ht hl2 ty
    obtain ⟨a1, a2, a3, _⟩ := FluxState.back_set_spec hs hty hs2
    obtain ⟨b1, b2, b3, _⟩ := FluxState.back_set_spec ht hty ht2
    rw [hs2, ht2]
    refine ⟨⟨a1, b1, by rw [a3, b3, hd], ?_, ?_⟩, rfl⟩
    · intro p; show s2.front.get p = t2.front.get p; rw [a2, b2]; exact hf p
    · intro p
      show s2.back.get p = t2.back.get p
      have e1 : s.back.set loc ty = .ok s2.back := by
        unfold FluxState.back_set_particle at hs2
        cases hm : s.back.set loc ty with
        | error e => rw [hm] at hs2; exact absurd hs2 (by simp [bind, Except.bind])
        | ok m =>
          rw [hm] at hs2
          simp only [bind, Except.bind, pure, Except.pure, Except.ok.injEq] at hs2
          rw [← hs2]
      have e2 : t.back.set loc ty = .ok t2.back := by
        unfold FluxState.back_set_particle at ht2
        cases hm : t.back.set loc ty with
        | error e => rw [hm] at ht2; exact absurd ht2 (by simp [bind, Except.bind])
        | ok m =>
          rw [hm] at ht2
          simp only [bind, Except.bind, pure, Except.pure, Except.ok.injEq] at ht2
          rw [← ht2]
      rw [ParticleMap.get_set hs.1 hty e1, ParticleMap.get_set ht.1 hty e2, hb p]
  · have hlf := Bool.eq_false_iff.mpr hl
    have hl2 : t.back.check_loc loc = false := by rw [← check_of_dims hd]; exact hlf
    simp only [FluxState.back_set_particle, ParticleMap.set_out hlf, ParticleMap.set_out hl2,
      bind, Except.bind, Except.map]
    rfl

theorem same_outcome_refl_of {s t : FluxState} (h : SameCells s t) (k : Nat) :
    SameOutcome (.ok (s, k)) (.ok (t, k)) := ⟨h, rfl⟩

/-- One iteration of pass 2 on two states that read the same. -/
theorem move_cell_congr {s t : FluxState} (h : SameCells s t) (dims : Point)
    (rng : Nat → Nat) (a : Point) (k : Nat) :
    SameOutcome (move_cell dims rng a (s, k)) (move_cell dims rng a (t, k)) := by
  unfold move_cell
  simp only [FluxState.get_particle]
  have hdest : destination s = destination t := by
    funext r k2 loc ty
    exact destination_congr h r k2 loc ty
  rw [h.2.2.2.1 a, hdest]
  cases hg : t.front.get a with
  | error e => exact rfl
  | ok ty =>
    have hty : ty < 16 := by
      by_cases hl : t.front.check_loc a = true
      · rw [ParticleMap.get_in h.2.1.2.1 hl] at hg
        rw [← Except.ok.inj hg]; exact ParticleMap.cell_lt _ _
      · rw [ParticleMap.get_out (Bool.eq_false_iff.mpr hl)] at hg
        exact absurd hg (by simp)
    simp only [bind, Except.bind]
    split
    · exact same_outcome_refl_of h k
    · cases hd : destination t rng k a ty with
      | error e => exact rfl
      | ok r =>
        simp only
        split
        · have := back_set_congr h a (by decide : EMPTY < 16) r.2
          cases h1 : s.back_set_particle a EMPTY <;> cases h2 : t.back_set_particle a EMPTY <;>
            simp only [h1, h2, Except.map] at this ⊢ <;> exact this
        · have := back_set_congr h r.1 hty r.2
          cases h1 : s.back_set_particle r.1 ty <;> cases h2 : t.back_set_particle r.1 ty <;>
            simp only [h1, h2, Except.map] at this ⊢ <;> exact this

theorem fold_congr (dims : Point) (rng : Nat → Nat) :
    ∀ (l : List Point) (w w2 : FluxState × Nat), SameCells w.1 w2.1 → w.2 = w2.2 →
      SameOutcome (l.foldlM (fun w q => move_cell dims rng q w) w)
        (l.foldlM (fun w q => move_cell dims rng q w) w2) := by
  intro l
  induction l with
  | nil => intro w w2 h hk; exact ⟨h, hk⟩
  | cons a l ih =>
    intro w w2 h hk
    obtain ⟨ws, wk⟩ := w
    obtain ⟨w2s, w2k⟩ := w2
    simp only at h hk
    subst hk
    have hstep := move_cell_congr h dims rng a wk
    rw [List.foldlM_cons, List.foldlM_cons]
    cases h1 : move_cell dims rng a (ws, wk) with
    | error e =>
      cases h2 : move_cell dims rng a (w2s, wk) with
      | error e2 =>
        rw [h1, h2] at hstep
        exact hstep
      | ok v2 => rw [h1, h2] at hstep; exact absurd hstep (by simp [SameOutcome])
    | ok v =>
      cases h2 : move_cell dims rng a (w2s, wk) with
      | error e2 => rw [h1, h2] at hstep; exact absurd hstep (by simp [SameOutcome])
      | ok v2 =>
        rw [h1, h2] at hstep
        exact ih v v2 hstep.1 hstep.2

/-- Pass 1 on two well-formed states of the same dimensions whose front grids
read the same returns states whose grids read the same, whatever the back
grids held. -/
theorem pass1_same {s t : FluxState} (hs : s.wf) (ht : t.wf) (hd : s.back.dims = t.back.dims)
    (hf : ∀ p, s.front.get p = t.front.get p) :
    ∃ s1 t1, for_each_cell s.dims seed_cell s = .ok s1 ∧
      for_each_cell t.dims seed_cell t = .ok t1 ∧ SameCells s1 t1 := by
  obtain ⟨s1, h1, hw1, hf1, hd1, hc1⟩ := pass1_spec hs
  obtain ⟨t1, h2, hw2, hf2, hd2, hc2⟩ := pass1_spec ht
  refine ⟨s1, t1, h1, h2, hw1, hw2, by rw [hd1, hd2, hd], ?_, ?_⟩
  · intro p; rw [hf1, hf2]; exact hf p
  · intro p
    by_cases hp : s.back.check_loc p = true
    · have hp2 : t.back.check_loc p = true := by rw [← check_of_dims hd]; exact hp
      have hcell : s.front.cell p = t.front.cell p := by
        have := hf p
        rw [front_get_eq hs hp, front_get_eq ht hp2] at this
        exact Except.ok.inj this
      rw [ParticleMap.get_in hw1.1 (by rw [check_of_dims hd1]; exact hp),
        ParticleMap.get_in hw2.1 (by rw [check_of_dims hd2]; exact hp2), hc1 p hp, hc2 p hp2,
        hcell]
    · have hpf := Bool.eq_false_iff.mpr hp
      have hp2 : t.back.check_loc p = false := by rw [← check_of_dims hd]; exact hpf
      rw [ParticleMap.get_out (by rw [check_of_dims hd1]; exact hpf),
        ParticleMap.get_out (by rw [check_of_dims hd2]; exact hp2)]

/-- The ticks on two well-formed states of the same dimensions whose front
grids read the same fail in the same way, or return the same draw count and
new front grids that read the same. -/
theorem tick_same {s t : FluxState} (hs : s.wf) (ht : t.wf) (hd : s.back.dims = t.back.dims)
    (hf : ∀ p, s.front.get p = t.front.get p) (rng : Nat → Nat) (k : Nat) :
    match update_world s rng k, update_world t rng k with
    | .ok w, .ok w2 => w.2 = w2.2 ∧ ∀ p, w.1.front.get p = w2.1.front.get p
    | .error e, .error e2 => e = e2
    | _, _ => False := by
  obtain ⟨s1, t1, h1, h2, hsame⟩ := pass1_same hs ht hd hf
  have hdims : t.dims = s.dims := hd.symm
  have hfold := fold_congr s.dims rng (scan_order s.dims) (s1, k) (t1, k) hsame rfl
  rw [update_world_eq, update_world_eq, h1, h2, hdims]
  simp only [bind, Except.bind]
  cases e1 : (scan_order s.dims).foldlM (fun w q => move_cell s.dims rng q w) (s1, k) with
  | error e =>
    cases e2 : (scan_order s.dims).foldlM (fun w q => move_cell s.dims rng q w) (t1, k) with
    | error e3 => rw [e1, e2] at hfold; exact hfold
    | ok v2 => rw [e1, e2] at hfold; exact absurd hfold (by simp [SameOutcome])
  | ok v =>
    cases e2 : (scan_order s.dims).foldlM (fun w q => move_cell s.dims rng q w) (t1, k) with
    | error e3 => rw [e1, e2] at hfold; exact absurd hfold (by simp [SameOutcome])
    | ok v2 =>
      rw [e1, e2] at hfold
      obtain ⟨⟨hv, hv2, _, _, hb⟩, hk⟩ := hfold
      obtain ⟨a, ha, _, _, hga⟩ := FluxState.flip_spec hv
      obtain ⟨b, hb2, _, _, hgb⟩ := FluxState.flip_spec hv2
      simp only [ha, hb2, pure, Except.pure]
      refine ⟨hk, ?_⟩
      intro p
      rw [(hga p).1, (hgb p).1]
      exact hb p

/-! ## Grids whose cell count wraps in `size_t` -/

namespace ParticleMap

/-- What `get` returns at an in-range coordinate whose byte lies in the block
(no assumption on the dimensions). -/
theorem get_at {m : ParticleMap} {loc : Point} {e b : Nat} (hc : m.check_loc loc = true)
    (he : m.elem_idx loc = e) (hb : m.buf[e >>> 1]? = some b) :
    m.get loc = .ok ((b >>> ((e &&& 1) <<< 2)) &&& 15) := by
  unfold ParticleMap.get ParticleMap.assert_loc
  rw [hc, he]
  simp only [if_true]
  show (match m.buf[e >>> 1]? with
    | none => throw Fault.out_of_bounds
    | some b => pure ((b >>> ((e &&& 1) <<< 2)) &&& 15)) = _
  rw [hb]
  rfl

/-- At an in-range coordinate whose byte lies outside the block `get` reads out
of bounds. -/
theorem get_beyond {m : ParticleMap} {loc : Point} {e : Nat} (hc : m.check_loc loc = true)
    (he : m.elem_idx loc = e) (hb : m.buf[e >>> 1]? = none) :
    m.get loc = .error Fault.out_of_bounds := by
  unfold ParticleMap.get ParticleMap.assert_loc
  rw [hc, he]
  simp only [if_true]
  show (match m.buf[e >>> 1]? with
    | none => throw Fault.out_of_bounds
    | some b => pure ((b >>> ((e &&& 1) <<< 2)) &&& 15)) = _
  rw [hb]
  rfl

/-- What `set` returns at an in-range coordinate whose byte lies in the block
(no assumption on the dimensions). -/
theorem set_at {m : ParticleMap} {loc : Point} {e b : Nat} (t : CellType)
    (hc : m.check_loc loc = true) (he : m.elem_idx loc = e) (hb : m.buf[e >>> 1]? = some b) :
    m.set loc t = .ok { m with
      buf := m.buf.set (e >>> 1)
        (((b &&& bit_not (15 <<< ((e &&& 1) <<< 2))) ||| (t <<< ((e &&& 1) <<< 2))) % 256) } := by
  unfold ParticleMap.set ParticleMap.assert_loc
  rw [hc, he]
  simp only [if_true]
  show (match m.buf[e >>> 1]? with
    | none => throw Fault.out_of_bounds
    | some b => pure { m with
      buf := m.buf.set (e >>> 1)
        (((b &&& bit_not (15 <<< ((e &&& 1) <<< 2))) ||| (t <<< ((e &&& 1) <<< 2))) % 256) }) = _
  rw [hb]
  rfl

/-- The grid the constructor builds for 65536 x 65537 cells of code `ty`: the
cell count 2^32 + 65536 wraps to 65536 (line 88), so the block has 32768
bytes. -/
theorem init_wrapped (ty : CellType) : ParticleMap.init ⟨65536, 65537⟩ ty =
    { dims := ⟨65536, 65537⟩, buf_size := 32768, buf := List.replicate 32768 (fill_elem ty) } :=
  rfl

end ParticleMap

/-! ## Claims -/

/-- C2: on a well-formed state whose front grid holds only OBSTACLE and EMPTY
cells (the back grid is arbitrary), for every stream of random draws,
`update_world` returns (no abort), consumes no draw, and the new front grid
reads the same as the old front grid at every coordinate. -/
theorem C2_obstacle_grid_fixed_point (s : FluxState) (hs : s.wf)
    (hfront : ∀ x < s.front.dims.x, ∀ y < s.front.dims.y,
      s.front.get ⟨x, y⟩ = .ok EMPTY ∨ s.front.get ⟨x, y⟩ = .ok OBSTACLE)
    (rng : Nat → Nat) (k : Nat) :
    ∃ s2, update_world s rng k = .ok (s2, k) ∧ ∀ p, s2.front.get p = s.front.get p := by
  obtain ⟨s2, h, _, _, hg⟩ := obstacle_tick hs (by
    intro p hp
    have hpf : s.front.check_loc p = true := by rw [FluxState.check_front hs]; exact hp
    have hxy := (ParticleMap.check_loc_iff _ _).mp hpf
    rcases hfront p.x hxy.1 p.y hxy.2 with h | h
    · exact Or.inl (get_of_cell hs.2.1 hpf h)
    · exact Or.inr (get_of_cell hs.2.1 hpf h)) rng k
  exact ⟨s2, h, hg⟩

/-- Instance of C2 on a 10x10 grid with three obstacles and a back grid full of water codes. -/
theorem C2_witness :
    ∃ s2, update_world ⟨ParticleMap.init ⟨10, 10⟩ PARTICLE_WATER,
        grid_of ⟨10, 10⟩ [(⟨4, 6⟩, OBSTACLE), (⟨5, 6⟩, OBSTACLE), (⟨0, 0⟩, OBSTACLE)]⟩
        (fun n => n) 0 = .ok (s2, 0) ∧
      ∀ p, s2.front.get p =
        (grid_of ⟨10, 10⟩ [(⟨4, 6⟩, OBSTACLE), (⟨5, 6⟩, OBSTACLE), (⟨0, 0⟩, OBSTACLE)]).get p :=
  C2_obstacle_grid_fixed_point
    ⟨ParticleMap.init ⟨10, 10⟩ PARTICLE_WATER,
      grid_of ⟨10, 10⟩ [(⟨4, 6⟩, OBSTACLE), (⟨5, 6⟩, OBSTACLE), (⟨0, 0⟩, OBSTACLE)]⟩
    (by decide) (by decide) (fun n => n) 0

/-- C4, as stated (for every ParticleMap), fails: the constructor computes the
cell count in `size_t` without an overflow check (line 88), so for width 65536
and height 65537 the count 2^32 + 65536 wraps to 65536 and the block has
32768 bytes. The coordinates (0,0) and (0,65536) are both in range and
distinct, and `elem_idx` (lines 117 and 125) wraps to 0 for both. On the
freshly constructed EMPTY grid `get((0,65536))` returns EMPTY; after
`set((0,0), PARTICLE_HEAVY)` it returns PARTICLE_HEAVY: the other in-range
coordinate does not keep its previous value. -/
theorem C4_counterexample :
    (ParticleMap.init ⟨65536, 65537⟩ EMPTY).check_loc ⟨0, 0⟩ = true ∧
    (ParticleMap.init ⟨65536, 65537⟩ EMPTY).check_loc ⟨0, 65536⟩ = true ∧
    (⟨0, 65536⟩ : Point) ≠ ⟨0, 0⟩ ∧
    (ParticleMap.init ⟨65536, 65537⟩ EMPTY).buf_size = 32768 ∧
    (ParticleMap.init ⟨65536, 65537⟩ EMPTY).elem_idx ⟨0, 65536⟩ =
      (ParticleMap.init ⟨65536, 65537⟩ EMPTY).elem_idx ⟨0, 0⟩ ∧
    (ParticleMap.init ⟨65536, 65537⟩ EMPTY).get ⟨0, 65536⟩ = .ok EMPTY ∧
    ∃ m2, (ParticleMap.init ⟨65536, 65537⟩ EMPTY).set ⟨0, 0⟩ PARTICLE_HEAVY = .ok m2 ∧
      m2.get ⟨0, 0⟩ = .ok PARTICLE_HEAVY ∧
      m2.get ⟨0, 65536⟩ = .ok PARTICLE_HEAVY := by
  have hb : (ParticleMap.init ⟨65536, 65537⟩ EMPTY).buf[0 >>> 1]? = some 0 := by
    rw [ParticleMap.init_wrapped]
    show (List.replicate 32768 (ParticleMap.fill_elem EMPTY))[0 >>> 1]? = some 0
    rw [List.getElem?_replicate]; decide
  have hs := ParticleMap.set_at PARTICLE_HEAVY
    (show (ParticleMap.init ⟨65536, 65537⟩ EMPTY).check_loc ⟨0, 0⟩ = true by decide)
    (show (ParticleMap.init ⟨65536, 65537⟩ EMPTY).elem_idx ⟨0, 0⟩ = 0 by decide) hb
  refine ⟨by decide, by decide, by decide, by decide, by decide,
    ParticleMap.get_at (by decide) (by decide) hb, _, hs, ?_, ?_⟩
  · refine (ParticleMap.get_at (e := 0) (b := 2) (by decide) (by decide) ?_).trans (by decide)
    rw [ParticleMap.init_wrapped]
    show ((List.replicate 32768 (ParticleMap.fill_elem EMPTY)).set (0 >>> 1) _)[0 >>> 1]? = some 2
    rw [List.getElem?_set_self]
    · decide
    · rw [List.length_replicate]; decide
  · refine (ParticleMap.get_at (e := 0) (b := 2) (by decide) (by decide) ?_).trans (by decide)
    rw [ParticleMap.init_wrapped]
    show ((List.replicate 32768 (ParticleMap.fill_elem EMPTY)).set (0 >>> 1) _)[0 >>> 1]? = some 2
    rw [List.getElem?_set_self]
    · decide
    · rw [List.length_replicate]; decide

/-- C4, amended: on a grid whose cell count does not wrap in `size_t`
(width * height + 1 < 2^32, with the block of (width * height + 1) >> 1 bytes
the constructor then allocates), for every in-range coordinate `loc` and every
4-bit code `t` (0..15, so in particular the five cell types), `set(loc, t)`
returns, then `get(loc)` returns `t`, and `get` at every other in-range
coordinate, the one packed into the same byte included, returns what it
returned before. -/
theorem C4_set_get_round_trip (m : ParticleMap) (hm : m.wf) (loc : Point)
    (hl : m.check_loc loc = true) (t : CellType) (ht : t < 16) :
    ∃ m2, m.set loc t = .ok m2 ∧ m2.get loc = .ok t ∧
      ∀ loc2, m.check_loc loc2 = true → loc2 ≠ loc → m2.get loc2 = m.get loc2 := by
  obtain ⟨m2, h2⟩ := ParticleMap.set_ok hm hl t
  refine ⟨m2, h2, ?_, ?_⟩
  · rw [ParticleMap.get_set hm ht h2, if_pos rfl]
  · intro loc2 _ hne
    rw [ParticleMap.get_set hm ht h2, if_neg hne]

/-- Instance of C4 on a 3x3 grid: the cells (0,0) and (1,0) share the first byte. -/
theorem C4_witness :
    ∃ m2, (grid_of ⟨3, 3⟩ [(⟨0, 0⟩, PARTICLE_HEAVY)]).set ⟨1, 0⟩ 15 = .ok m2 ∧
      m2.get ⟨1, 0⟩ = .ok 15 ∧
      ∀ loc2, (grid_of ⟨3, 3⟩ [(⟨0, 0⟩, PARTICLE_HEAVY)]).check_loc loc2 = true →
        loc2 ≠ ⟨1, 0⟩ →
        m2.get loc2 = (grid_of ⟨3, 3⟩ [(⟨0, 0⟩, PARTICLE_HEAVY)]).get loc2 :=
  C4_set_get_round_trip (grid_of ⟨3, 3⟩ [(⟨0, 0⟩, PARTICLE_HEAVY)]) (by decide) ⟨1, 0⟩
    (by decide) 15 (by decide)

/-- C5, as stated (for any dimensions), fails: the constructor computes the
cell count in `size_t` without an overflow check (line 88). For width = height
= 65536 the count 2^32 wraps to 0 and the block has 0 bytes, so `get((0,0))`,
an in-range coordinate, reads outside the block right after construction with
PARTICLE_WATER and after `fill(PARTICLE_WATER)`. For width 65536 and height
65537 the count wraps to 65536 and the block has 32768 bytes, while the
in-range coordinate (0,1) has byte index 32768, so `get((0,1))` reads outside
the block as well. -/
theorem C5_counterexample :
    (ParticleMap.init ⟨65536, 65536⟩ PARTICLE_WATER).check_loc ⟨0, 0⟩ = true ∧
    (ParticleMap.init ⟨65536, 65536⟩ PARTICLE_WATER).buf_size = 0 ∧
    (ParticleMap.init ⟨65536, 65536⟩ PARTICLE_WATER).get ⟨0, 0⟩ = .error Fault.out_of_bounds ∧
    ((ParticleMap.init ⟨65536, 65536⟩ EMPTY).fill PARTICLE_WATER).get ⟨0, 0⟩ =
      .error Fault.out_of_bounds ∧
    (ParticleMap.init ⟨65536, 65537⟩ PARTICLE_WATER).check_loc ⟨0, 1⟩ = true ∧
    (ParticleMap.init ⟨65536, 65537⟩ PARTICLE_WATER).buf_size = 32768 ∧
    (ParticleMap.init ⟨65536, 65537⟩ PARTICLE_WATER).elem_idx ⟨0, 1⟩ >>> 1 = 32768 ∧
    (ParticleMap.init ⟨65536, 65537⟩ PARTICLE_WATER).get ⟨0, 1⟩ = .error Fault.out_of_bounds ∧
    ((ParticleMap.init ⟨65536, 65537⟩ EMPTY).fill PARTICLE_WATER).get ⟨0, 1⟩ =
      .error Fault.out_of_bounds := by
  have hn :
      (List.replicate 32768 (ParticleMap.fill_elem PARTICLE_WATER))[65536 >>> 1]? = none := by
    rw [List.getElem?_replicate]; decide
  refine ⟨by decide, by decide, by decide, by decide, by decide, by decide, by decide, ?_, ?_⟩
  · refine ParticleMap.get_beyond (e := 65536) (by decide) (by decide) ?_
    rw [ParticleMap.init_wrapped]
    exact hn
  · refine ParticleMap.get_beyond (e := 65536) (by decide) (by decide) ?_
    rw [ParticleMap.init_wrapped]
    exact hn

/-- C5, amended: on a grid whose cell count does not wrap in `size_t`
(width * height + 1 < 2^32, with the block of (width * height + 1) >> 1 bytes
the constructor then allocates; an odd number of cells included) and for
every cell code `T` below 16 (the five cell types among them), after
`fill(T)`, and likewise right after construction with initial type `T`,
`get(loc)` returns `T` at every in-range coordinate. -/
theorem C5_fill_reads_back (m : ParticleMap) (hm : m.wf) (T : CellType) (hT : T < 16)
    (loc : Point) (hl : m.check_loc loc = true) :
    (m.fill T).get loc = .ok T ∧ (ParticleMap.init m.dims T).get loc = .ok T :=
  ⟨ParticleMap.fill_get hm hT hl, ParticleMap.init_get hm.1 hT hl⟩

/-- Instance of C5 on a 3x3 grid (9 cells, 5 bytes) at the last cell. -/
theorem C5_witness :
    ((grid_of ⟨3, 3⟩ [(⟨2, 2⟩, OBSTACLE)]).fill PARTICLE_WATER).get ⟨2, 2⟩ = .ok PARTICLE_WATER ∧
      (ParticleMap.init (grid_of ⟨3, 3⟩ [(⟨2, 2⟩, OBSTACLE)]).dims PARTICLE_WATER).get ⟨2, 2⟩ =
        .ok PARTICLE_WATER :=
  C5_fill_reads_back (grid_of ⟨3, 3⟩ [(⟨2, 2⟩, OBSTACLE)]) (by decide) PARTICLE_WATER
    (by decide) ⟨2, 2⟩ (by decide)

/-- C6: for two well-formed grids of identical dimensions `a.swap(b)` returns
(no abort) and afterwards `a.get` reads at every coordinate what `b.get` read
before, and `b.get` what `a.get` read before. -/
theorem C6_swap_exchanges (a b : ParticleMap) (ha : a.wf) (hb : b.wf) (hd : a.dims = b.dims) :
    ∃ a2 b2, a.swap b = .ok (a2, b2) ∧
      ∀ loc, a2.get loc = b.get loc ∧ b2.get loc = a.get loc := by
  have hsz : a.buf_size = b.buf_size := by rw [ha.2.1, hb.2.1, hd]
  refine ⟨_, _, ParticleMap.swap_eq_ok hsz, ?_⟩
  have h1 : ({ a with buf := b.buf } : ParticleMap) = b := by
    cases a; cases b
    simp only at hsz hd
    simp [hsz, hd]
  have h2 : ({ b with buf := a.buf } : ParticleMap) = a := by
    cases a; cases b
    simp only at hsz hd
    simp [hsz, hd]
  intro loc
  rw [h1, h2]
  exact ⟨rfl, rfl⟩

/-- Instance of C6 on two 3x3 grids. -/
theorem C6_witness :
    ∃ a2 b2, (grid_of ⟨3, 3⟩ [(⟨1, 1⟩, PARTICLE_LIGHT)]).swap
        (grid_of ⟨3, 3⟩ [(⟨2, 0⟩, OBSTACLE)]) = .ok (a2, b2) ∧
      ∀ loc, a2.get loc = (grid_of ⟨3, 3⟩ [(⟨2, 0⟩, OBSTACLE)]).get loc ∧
        b2.get loc = (grid_of ⟨3, 3⟩ [(⟨1, 1⟩, PARTICLE_LIGHT)]).get loc :=
  C6_swap_exchanges (grid_of ⟨3, 3⟩ [(⟨1, 1⟩, PARTICLE_LIGHT)])
    (grid_of ⟨3, 3⟩ [(⟨2, 0⟩, OBSTACLE)]) (by decide) (by decide) (by decide)

/-- C7, as stated, fails: a grid of 3 cells and a grid of 4 cells have
different cell counts but the same `buf_size` (2 bytes), so `swap` does not
abort and exchanges the two blocks. -/
theorem C7_counterexample :
    (ParticleMap.init ⟨3, 1⟩ PARTICLE_HEAVY).wf ∧ (ParticleMap.init ⟨4, 1⟩ PARTICLE_WATER).wf ∧
    (ParticleMap.init ⟨3, 1⟩ PARTICLE_HEAVY).dims.x * (ParticleMap.init ⟨3, 1⟩ PARTICLE_HEAVY).dims.y ≠
      (ParticleMap.init ⟨4, 1⟩ PARTICLE_WATER).dims.x *
        (ParticleMap.init ⟨4, 1⟩ PARTICLE_WATER).dims.y ∧
    ((ParticleMap.init ⟨3, 1⟩ PARTICLE_HEAVY).swap (ParticleMap.init ⟨4, 1⟩ PARTICLE_WATER)).map
      (fun r => (r.1.get ⟨0, 0⟩, r.2.get ⟨0, 0⟩)) =
      .ok (.ok PARTICLE_WATER, .ok PARTICLE_HEAVY) := by
  decide

/-- C7, amended: for two well-formed grids, `a.swap(b)` aborts (and so
exchanges nothing) exactly when their byte counts `(width*height + 1) >> 1`
differ. -/
theorem C7_swap_aborts_iff_byte_counts_differ (a b : ParticleMap) (ha : a.wf) (hb : b.wf) :
    a.swap b = .error Fault.abort ↔
      (a.dims.x * a.dims.y + 1) >>> 1 ≠ (b.dims.x * b.dims.y + 1) >>> 1 := by
  rw [ParticleMap.swap_abort_iff, ha.2.1, hb.2.1]

/-- Instance of C7 (amended): a grid of 3 cells (2 bytes) and a grid of 5 cells (3 bytes). -/
theorem C7_witness :
    (ParticleMap.init ⟨3, 1⟩ PARTICLE_HEAVY).swap (ParticleMap.init ⟨5, 1⟩ PARTICLE_WATER) =
      .error Fault.abort :=
  (C7_swap_aborts_iff_byte_counts_differ (ParticleMap.init ⟨3, 1⟩ PARTICLE_HEAVY)
    (ParticleMap.init ⟨5, 1⟩ PARTICLE_WATER) (by decide) (by decide)).mpr (by decide)

/-- C1, as stated, fails: on the 10x10 grid with a single PARTICLE_HEAVY at
(5,5), when the draw for the drift is 1 (drift -1) the particle lands at (4,6)
and (5,6) reads EMPTY after the tick. -/
theorem C1_counterexample :
    (FluxState.mk (ParticleMap.init ⟨10, 10⟩ EMPTY)
        (grid_of ⟨10, 10⟩ [(⟨5, 5⟩, PARTICLE_HEAVY)])).wf ∧
    (∀ px < 10, ∀ py < 10,
      (grid_of ⟨10, 10⟩ [(⟨5, 5⟩, PARTICLE_HEAVY)]).get ⟨px, py⟩ =
        .ok (if px = 5 ∧ py = 5 then PARTICLE_HEAVY else EMPTY)) ∧
    (3 ≤ 5 ∧ 5 ≤ 10 - 3 ∧ 3 ≤ 5 + 1 ∧ 5 + 1 < 10 - 3) ∧
    (update_world ⟨ParticleMap.init ⟨10, 10⟩ EMPTY,
        grid_of ⟨10, 10⟩ [(⟨5, 5⟩, PARTICLE_HEAVY)]⟩ (fun _ => 1) 0).map
      (fun w => (w.1.front.get ⟨5, 5⟩, w.1.front.get ⟨5, 6⟩, w.1.front.get ⟨4, 6⟩)) =
      .ok (.ok EMPTY, .ok EMPTY, .ok PARTICLE_HEAVY) := by
  decide

/-- C1, amended: on a well-formed state whose front grid is EMPTY except for
a single PARTICLE_HEAVY at (x,y), with 3 <= x <= width-3 and
3 <= y+1 < height-3, for every stream of draws one `update_world` returns
after consuming one draw r, the front then reads EMPTY at (x,y), and it reads
PARTICLE_HEAVY at (x,y+1) exactly when r mod 5 is neither 1 nor 3, that is
when the drift r mod 5 - 2 is not -1 or 1. -/
theorem C1_single_heavy_falls (s : FluxState) (hs : s.wf) (x y : Nat)
    (hx : 3 ≤ x ∧ x ≤ s.dims.x - 3) (hy : 3 ≤ y + 1 ∧ y + 1 < s.dims.y - 3)
    (hfront : ∀ px < s.dims.x, ∀ py < s.dims.y,
      s.get_particle ⟨px, py⟩ = .ok (if px = x ∧ py = y then PARTICLE_HEAVY else EMPTY))
    (rng : Nat → Nat) (k : Nat) :
    ∃ s2, update_world s rng k = .ok (s2, k + 1) ∧
      s2.front.get ⟨x, y⟩ = .ok EMPTY ∧
      (s2.front.get ⟨x, y + 1⟩ = .ok PARTICLE_HEAVY ↔ (rng k % 5 ≠ 1 ∧ rng k % 5 ≠ 3)) := by
  have hdx : s.dims = s.back.dims := rfl
  rw [hdx] at hx hy
  have hl : s.back.check_loc ⟨x, y⟩ = true := by
    rw [ParticleMap.check_loc_iff]; exact ⟨by show x < _; omega, by show y < _; omega⟩
  have hl2 : s.back.check_loc ⟨x, y + 1⟩ = true := by
    rw [ParticleMap.check_loc_iff]; exact ⟨by show x < _; omega, by show y + 1 < _; omega⟩
  have hdl := dims_lt hs.1 hl
  have hcells : ∀ p, s.back.check_loc p = true →
      s.front.cell p = if p = ⟨x, y⟩ then PARTICLE_HEAVY else EMPTY := by
    intro p hp
    rw [cell_of_get hs hfront p hp]
    cases p
    simp only [Point.mk.injEq]
  obtain ⟨s2, h2, hg⟩ := single_tick_row hs x y (y + 1) hl PARTICLE_HEAVY
    (by decide) (by decide) hcells (by omega) (by omega) (by omega) (by omega) rng k (by
      intro s1 hw1 hf1 hd1 hback
      have hb : below ⟨x, y⟩ = ⟨x, y + 1⟩ := below_eq (by show y + 1 < SIZE_MOD; omega)
      have hfe : s1.is_fully_empty (below ⟨x, y⟩) = .ok true := by
        rw [hb]
        refine fully_empty_of_cells hw1
          (by rw [ParticleMap.check_loc_iff, hd1]; exact (ParticleMap.check_loc_iff _ _).mp hl2)
          (hback _ hl2) ?_
        rw [hf1, hcells _ hl2, if_neg (by simp)]
      have := heavy_rule_below hfe rng (k + 1)
      rw [hb] at this
      simp only [provisional, beq_self_eq_true, if_true]
      exact this)
  refine ⟨s2, h2, ?_, ?_⟩
  · rw [hg _ hl, if_neg]
    rintro ⟨_, h⟩
    simp only [Point.mk.injEq] at h
    omega
  · rw [hg _ hl2, hdx, culled_eq (by omega) hdl.1 (by omega) hdl.2]
    rcases leftright_cases (rng k) with ⟨h, hr⟩ | ⟨h, hr⟩ | ⟨ha, hb, hr1, hr3⟩
    · rw [h, hr]
      have hxx : ¬ (x = x - 1) := by omega
      simp [hxx, PARTICLE_HEAVY, EMPTY]
    · rw [h, hr]
      simp [PARTICLE_HEAVY, EMPTY]
    · simp only [ha, hb, if_false, hr1, hr3, ne_eq, not_false_eq_true, and_self, iff_true]
      rw [if_pos]
      refine ⟨?_, trivial⟩
      simp only [Bool.or_eq_false_iff, decide_eq_false_iff_not]
      omega

/-- Instance of C1 (amended) on the 10x10 grid with the particle at (5,5) and drift draw 7. -/
theorem C1_witness :
    ∃ s2, update_world ⟨ParticleMap.init ⟨10, 10⟩ PARTICLE_LIGHT,
        grid_of ⟨10, 10⟩ [(⟨5, 5⟩, PARTICLE_HEAVY)]⟩ (fun _ => 7) 0 = .ok (s2, 0 + 1) ∧
      s2.front.get ⟨5, 5⟩ = .ok EMPTY ∧
      (s2.front.get ⟨5, 5 + 1⟩ = .ok PARTICLE_HEAVY ↔ ((fun _ => 7) 0 % 5 ≠ 1 ∧
        (fun _ => 7) 0 % 5 ≠ 3)) :=
  C1_single_heavy_falls
    ⟨ParticleMap.init ⟨10, 10⟩ PARTICLE_LIGHT, grid_of ⟨10, 10⟩ [(⟨5, 5⟩, PARTICLE_HEAVY)]⟩
    (by decide) 5 5 (by decide) (by decide) (by decide) (fun _ => 7) 0

/-- C8: on a well-formed state whose front grid is EMPTY except for a single
PARTICLE_LIGHT at (x,y), with 4 <= x <= width-4 and 4 <= y <= height-3, for
every stream of draws one `update_world` returns after consuming one draw; the
front then reads EMPTY at (x,y) and PARTICLE_LIGHT at exactly one cell, which
is in row y-1 and in column x-1, x+1 or x as the drift is -1, 1 or another
value. -/
theorem C8_single_light_rises (s : FluxState) (hs : s.wf) (x y : Nat)
    (hx : 4 ≤ x ∧ x ≤ s.dims.x - 4) (hy : 4 ≤ y ∧ y ≤ s.dims.y - 3)
    (hfront : ∀ px < s.dims.x, ∀ py < s.dims.y,
      s.get_particle ⟨px, py⟩ = .ok (if px = x ∧ py = y then PARTICLE_LIGHT else EMPTY))
    (rng : Nat → Nat) (k : Nat) :
    ∃ s2 c, update_world s rng k = .ok (s2, k + 1) ∧
      c = (if leftright_of (rng k) = -1 then x - 1
        else if leftright_of (rng k) = 1 then x + 1 else x) ∧
      s2.front.get ⟨x, y⟩ = .ok EMPTY ∧
      s2.front.get ⟨c, y - 1⟩ = .ok PARTICLE_LIGHT ∧
      ∀ px < s.dims.x, ∀ py < s.dims.y,
        s2.front.get ⟨px, py⟩ = .ok (if px = c ∧ py = y - 1 then PARTICLE_LIGHT else EMPTY) := by
  have hdx : s.dims = s.back.dims := rfl
  rw [hdx] at hx hy
  have hl : s.back.check_loc ⟨x, y⟩ = true := by
    rw [ParticleMap.check_loc_iff]; exact ⟨by show x < _; omega, by show y < _; omega⟩
  have hl2 : s.back.check_loc ⟨x, y - 1⟩ = true := by
    rw [ParticleMap.check_loc_iff]; exact ⟨by show x < _; omega, by show y - 1 < _; omega⟩
  have hdl := dims_lt hs.1 hl
  have hcells : ∀ p, s.back.check_loc p = true →
      s.front.cell p = if p = ⟨x, y⟩ then PARTICLE_LIGHT else EMPTY := by
    intro p hp
    rw [cell_of_get hs hfront p hp]
    cases p
    simp only [Point.mk.injEq]
  obtain ⟨s2, h2, hg⟩ := single_tick_row hs x y (y - 1) hl PARTICLE_LIGHT
    (by decide) (by decide) hcells (by omega) (by omega) (by omega) (by omega) rng k (by
      intro s1 hw1 hf1 hd1 hback
      have hb : above ⟨x, y⟩ = ⟨x, y - 1⟩ :=
        above_eq (by show 1 ≤ y; omega) (by show y < SIZE_MOD; omega)
      have hfe : s1.is_fully_empty (above ⟨x, y⟩) = .ok true := by
        rw [hb]
        refine fully_empty_of_cells hw1
          (by rw [ParticleMap.check_loc_iff, hd1]; exact (ParticleMap.check_loc_iff _ _).mp hl2)
          (hback _ hl2) ?_
        rw [hf1, hcells _ hl2, if_neg]
        intro h
        simp only [Point.mk.injEq] at h
        omega
      have := light_rule_above hfe rng (k + 1)
      rw [hb] at this
      have hne : (PARTICLE_LIGHT == PARTICLE_HEAVY) = false := by decide
      simp only [provisional, hne, beq_self_eq_true, if_true]
      exact this)
  have hcol : 3 ≤ (if leftright_of (rng k) = -1 then x - 1
        else if leftright_of (rng k) = 1 then x + 1 else x) ∧
      (if leftright_of (rng k) = -1 then x - 1
        else if leftright_of (rng k) = 1 then x + 1 else x) ≤ s.back.dims.x - 3 := by
    split
    · omega
    · split <;> omega
  have hnc : culled s.dims ⟨if leftright_of (rng k) = -1 then x - 1
        else if leftright_of (rng k) = 1 then x + 1 else x, y - 1⟩ = false := by
    rw [hdx, culled_eq (by omega) hdl.1 (by omega) hdl.2]
    simp only [Bool.or_eq_false_iff, decide_eq_false_iff_not]
    omega
  have hall : ∀ p, s.back.check_loc p = true →
      s2.front.get p = .ok (if p = ⟨if leftright_of (rng k) = -1 then x - 1
        else if leftright_of (rng k) = 1 then x + 1 else x, y - 1⟩
        then PARTICLE_LIGHT else EMPTY) := by
    intro p hp
    rw [hg p hp, hnc]
    simp
  refine ⟨s2, _, h2, rfl, ?_, ?_, ?_⟩
  · rw [hall _ hl, if_neg]
    intro h
    simp only [Point.mk.injEq] at h
    omega
  · rw [hall _ (by
      rw [ParticleMap.check_loc_iff]
      exact ⟨by show (if _ then _ else _) < _; omega, by show y - 1 < _; omega⟩), if_pos rfl]
  · intro px hpx py hpy
    rw [hall _ (by rw [ParticleMap.check_loc_iff]; exact ⟨hpx, hpy⟩)]
    simp only [Point.mk.injEq]

/-- Instance of C8 on the 10x10 grid with the particle at (5,5) and drift draw 3. -/
theorem C8_witness :
    ∃ s2 c, update_world ⟨ParticleMap.init ⟨10, 10⟩ OBSTACLE,
        grid_of ⟨10, 10⟩ [(⟨5, 5⟩, PARTICLE_LIGHT)]⟩ (fun _ => 3) 0 = .ok (s2, 0 + 1) ∧
      c = (if leftright_of ((fun _ => 3) 0) = -1 then 5 - 1
        else if leftright_of ((fun _ => 3) 0) = 1 then 5 + 1 else 5) ∧
      s2.front.get ⟨5, 5⟩ = .ok EMPTY ∧
      s2.front.get ⟨c, 5 - 1⟩ = .ok PARTICLE_LIGHT ∧
      ∀ px < 10, ∀ py < 10,
        s2.front.get ⟨px, py⟩ = .ok (if px = c ∧ py = 5 - 1 then PARTICLE_LIGHT else EMPTY) :=
  C8_single_light_rises
    ⟨ParticleMap.init ⟨10, 10⟩ OBSTACLE, grid_of ⟨10, 10⟩ [(⟨5, 5⟩, PARTICLE_LIGHT)]⟩
    (by decide) 5 5 (by decide) (by decide) (by decide) (fun _ => 3) 0

/-- C3: for every well-formed state and stream of draws on which
`update_world` returns, and every source cell `loc` for which pass 2 finds a
particle and computes the final (post-drift) destination `d`, if `d` meets the
culling test of line 333 (d.x < 3 or d.x > width-3 or d.y < 3 or
d.y >= height-3) then after the tick the front reads EMPTY at `loc`, no source
cell has written a particle at `d`, and the front reads EMPTY at `d`. -/
theorem C3_culled_destination_deletes (s : FluxState) (hs : s.wf) (rng : Nat → Nat) (k : Nat)
    (s2 : FluxState) (k2 : Nat) (h : update_world s rng k = .ok (s2, k2))
    (loc d : Point) (ty : CellType)
    (hfd : final_destination s rng k loc = some (ty, d))
    (hmargin : d.x < 3 ∨ d.x > s.dims.x - 3 ∨ d.y < 3 ∨ d.y ≥ s.dims.y - 3) :
    s2.front.get loc = .ok EMPTY ∧ (∀ loc2 t2, ¬ WritesTo s rng k loc2 t2 d) ∧
      s2.front.get d = .ok EMPTY := by
  have hdr := (final_destination_range hs hfd).2.1
  have hdxy := (ParticleMap.check_loc_iff _ _).mp hdr
  have hdl := dims_lt hs.1 hdr
  have hc : culled s.dims d = true := by
    rw [show s.dims = s.back.dims from rfl] at hmargin ⊢
    rw [culled_iff_margin hdxy.1 hdxy.2 hdl.1 hdl.2]
    omega
  obtain ⟨h1, h2⟩ := culled_particle_removed hs h hfd hc
  refine ⟨h1, ?_, h2⟩
  intro loc2 t2 hw
  rw [hw.2] at hc
  exact absurd hc (by simp)

/-- Instance of C3 on the 10x10 grid with a single PARTICLE_HEAVY at (5,6), culled at (5,7). -/
theorem C3_witness :
    (FluxState.mk (grid_of ⟨10, 10⟩ [(⟨5, 6⟩, PARTICLE_HEAVY)])
        (ParticleMap.init ⟨10, 10⟩ EMPTY)).front.get ⟨5, 6⟩ = .ok EMPTY ∧
      (∀ loc2 t2, ¬ WritesTo ⟨ParticleMap.init ⟨10, 10⟩ EMPTY,
        grid_of ⟨10, 10⟩ [(⟨5, 6⟩, PARTICLE_HEAVY)]⟩ (fun _ => 0) 0 loc2 t2 ⟨5, 7⟩) ∧
      (FluxState.mk (grid_of ⟨10, 10⟩ [(⟨5, 6⟩, PARTICLE_HEAVY)])
        (ParticleMap.init ⟨10, 10⟩ EMPTY)).front.get ⟨5, 7⟩ = .ok EMPTY :=
  C3_culled_destination_deletes
    ⟨ParticleMap.init ⟨10, 10⟩ EMPTY, grid_of ⟨10, 10⟩ [(⟨5, 6⟩, PARTICLE_HEAVY)]⟩
    (by decide) (fun _ => 0) 0
    ⟨grid_of ⟨10, 10⟩ [(⟨5, 6⟩, PARTICLE_HEAVY)], ParticleMap.init ⟨10, 10⟩ EMPTY⟩ 1
    (by decide) ⟨5, 6⟩ ⟨5, 7⟩ PARTICLE_HEAVY (by decide) (by decide)

/-- C9, as stated, fails: on the 10x10 grid a PARTICLE_WATER at (1,1) whose
eight neighbours are in range and OBSTACLE stays in place, but (1,1) lies in
the culling margin, so the particle is deleted and (1,1) reads EMPTY after the
tick. -/
theorem C9_counterexample :
    (FluxState.mk (ParticleMap.init ⟨10, 10⟩ EMPTY)
      (grid_of ⟨10, 10⟩ [(⟨0, 0⟩, OBSTACLE), (⟨1, 0⟩, OBSTACLE), (⟨2, 0⟩, OBSTACLE),
        (⟨0, 1⟩, OBSTACLE), (⟨1, 1⟩, PARTICLE_WATER), (⟨2, 1⟩, OBSTACLE),
        (⟨0, 2⟩, OBSTACLE), (⟨1, 2⟩, OBSTACLE), (⟨2, 2⟩, OBSTACLE)])).wf ∧
    (∀ n ∈ [left ⟨1, 1⟩, right ⟨1, 1⟩, above ⟨1, 1⟩, below ⟨1, 1⟩, left (above ⟨1, 1⟩),
        right (above ⟨1, 1⟩), left (below ⟨1, 1⟩), right (below ⟨1, 1⟩)],
      (grid_of ⟨10, 10⟩ [(⟨0, 0⟩, OBSTACLE), (⟨1, 0⟩, OBSTACLE), (⟨2, 0⟩, OBSTACLE),
        (⟨0, 1⟩, OBSTACLE), (⟨1, 1⟩, PARTICLE_WATER), (⟨2, 1⟩, OBSTACLE),
        (⟨0, 2⟩, OBSTACLE), (⟨1, 2⟩, OBSTACLE), (⟨2, 2⟩, OBSTACLE)]).get n = .ok OBSTACLE) ∧
    (grid_of ⟨10, 10⟩ [(⟨0, 0⟩, OBSTACLE), (⟨1, 0⟩, OBSTACLE), (⟨2, 0⟩, OBSTACLE),
        (⟨0, 1⟩, OBSTACLE), (⟨1, 1⟩, PARTICLE_WATER), (⟨2, 1⟩, OBSTACLE),
        (⟨0, 2⟩, OBSTACLE), (⟨1, 2⟩, OBSTACLE), (⟨2, 2⟩, OBSTACLE)]).get ⟨1, 1⟩ =
      .ok PARTICLE_WATER ∧
    (update_world ⟨ParticleMap.init ⟨10, 10⟩ EMPTY,
      grid_of ⟨10, 10⟩ [(⟨0, 0⟩, OBSTACLE), (⟨1, 0⟩, OBSTACLE), (⟨2, 0⟩, OBSTACLE),
        (⟨0, 1⟩, OBSTACLE), (⟨1, 1⟩, PARTICLE_WATER), (⟨2, 1⟩, OBSTACLE),
        (⟨0, 2⟩, OBSTACLE), (⟨1, 2⟩, OBSTACLE), (⟨2, 2⟩, OBSTACLE)]⟩ (fun _ => 0) 0).map
      (fun w => w.1.front.get ⟨1, 1⟩) = .ok (.ok EMPTY) := by
  decide

/-- C9, amended: for every well-formed state in which a cell `loc` outside
the culling margin (3 <= x <= width-3 and 3 <= y < height-3, so that the test
of line 333 is false at `loc`) holds PARTICLE_HEAVY, PARTICLE_LIGHT or
PARTICLE_WATER and all eight neighbours of
`loc` are in range and OBSTACLE in the front grid, and for every stream of
draws on which `update_world` returns, the front at `loc` holds the same
particle type after the tick. -/
theorem C9_boxed_interior_particle_stays (s : FluxState) (hs : s.wf) (loc : Point)
    (ty : CellType) (hty : s.get_particle loc = .ok ty)
    (hkind : ty = PARTICLE_HEAVY ∨ ty = PARTICLE_LIGHT ∨ ty = PARTICLE_WATER)
    (hbox : ∀ n ∈ [left loc, right loc, above loc, below loc, left (above loc),
      right (above loc), left (below loc), right (below loc)], s.get_particle n = .ok OBSTACLE)
    (hint : 3 ≤ loc.x ∧ loc.x ≤ s.dims.x - 3 ∧ 3 ≤ loc.y ∧ loc.y < s.dims.y - 3)
    (rng : Nat → Nat) (k : Nat) (s2 : FluxState) (k2 : Nat)
    (h : update_world s rng k = .ok (s2, k2)) : s2.front.get loc = .ok ty := by
  have hl : s.back.check_loc loc = true := by
    by_contra hn
    rw [FluxState.get_particle_eq hs, if_neg hn] at hty
    exact absurd hty (by simp)
  have hxy := (ParticleMap.check_loc_iff _ _).mp hl
  have hdl := dims_lt hs.1 hl
  have hc : culled s.dims loc = false := by
    rw [show s.dims = s.back.dims from rfl] at hint ⊢
    rw [Bool.eq_false_iff, ne_eq, culled_iff_margin hxy.1 hxy.2 hdl.1 hdl.2]
    omega
  refine boxed_particle_stays hs h hty ?_ ?_ hbox hc
  · rcases hkind with h | h | h <;> rw [h] <;> decide
  · rcases hkind with h | h | h <;> rw [h] <;> decide

/-- Instance of C9 (amended) on the 10x10 grid with a boxed PARTICLE_HEAVY at (4,4). -/
theorem C9_witness :
    (FluxState.mk
      (grid_of ⟨10, 10⟩ [(⟨3, 3⟩, OBSTACLE), (⟨4, 3⟩, OBSTACLE), (⟨5, 3⟩, OBSTACLE),
        (⟨3, 4⟩, OBSTACLE), (⟨4, 4⟩, PARTICLE_HEAVY), (⟨5, 4⟩, OBSTACLE),
        (⟨3, 5⟩, OBSTACLE), (⟨4, 5⟩, OBSTACLE), (⟨5, 5⟩, OBSTACLE)])
      (grid_of ⟨10, 10⟩ [(⟨3, 3⟩, OBSTACLE), (⟨4, 3⟩, OBSTACLE), (⟨5, 3⟩, OBSTACLE),
        (⟨3, 4⟩, OBSTACLE), (⟨4, 4⟩, PARTICLE_HEAVY), (⟨5, 4⟩, OBSTACLE),
        (⟨3, 5⟩, OBSTACLE), (⟨4, 5⟩, OBSTACLE), (⟨5, 5⟩, OBSTACLE)])).front.get ⟨4, 4⟩ =
      .ok PARTICLE_HEAVY :=
  C9_boxed_interior_particle_stays
    ⟨ParticleMap.init ⟨10, 10⟩ EMPTY,
      grid_of ⟨10, 10⟩ [(⟨3, 3⟩, OBSTACLE), (⟨4, 3⟩, OBSTACLE), (⟨5, 3⟩, OBSTACLE),
        (⟨3, 4⟩, OBSTACLE), (⟨4, 4⟩, PARTICLE_HEAVY), (⟨5, 4⟩, OBSTACLE),
        (⟨3, 5⟩, OBSTACLE), (⟨4, 5⟩, OBSTACLE), (⟨5, 5⟩, OBSTACLE)]⟩
    (by decide) ⟨4, 4⟩ PARTICLE_HEAVY (by decide) (by decide) (by decide) (by decide)
    (fun n => n) 0
    ⟨grid_of ⟨10, 10⟩ [(⟨3, 3⟩, OBSTACLE), (⟨4, 3⟩, OBSTACLE), (⟨5, 3⟩, OBSTACLE),
        (⟨3, 4⟩, OBSTACLE), (⟨4, 4⟩, PARTICLE_HEAVY), (⟨5, 4⟩, OBSTACLE),
        (⟨3, 5⟩, OBSTACLE), (⟨4, 5⟩, OBSTACLE), (⟨5, 5⟩, OBSTACLE)],
      grid_of ⟨10, 10⟩ [(⟨3, 3⟩, OBSTACLE), (⟨4, 3⟩, OBSTACLE), (⟨5, 3⟩, OBSTACLE),
        (⟨3, 4⟩, OBSTACLE), (⟨4, 4⟩, PARTICLE_HEAVY), (⟨5, 4⟩, OBSTACLE),
        (⟨3, 5⟩, OBSTACLE), (⟨4, 5⟩, OBSTACLE), (⟨5, 5⟩, OBSTACLE)]⟩ 2
    (by decide)

/-- C10: in every `update_world` that returns on a well-formed state, every
particle write of pass 2 lands on a back cell that reads EMPTY in the state
in which the source cell is processed; two source cells with the same
non-culled final destination are the same cell (the map from non-culled
source cells to final destinations is injective); and for every particle
type `t` (a code other than EMPTY and OBSTACLE) the number of cells of type
`t` in the new front plus the number of particles of type `t` that were
culled is the number of cells of type `t` in the old front. -/
theorem C10_no_two_writes_to_one_cell (s : FluxState) (hs : s.wf) (rng : Nat → Nat) (k : Nat)
    (s2 : FluxState) (k2 : Nat) (h : update_world s rng k = .ok (s2, k2)) :
    (∀ loc ty d w, final_destination s rng k loc = some (ty, d) → culled s.dims d = false →
      pass2_before s rng k loc = .ok w → w.1.back.get d = .ok EMPTY) ∧
    (∀ loc1 loc2 t1 t2 d, final_destination s rng k loc1 = some (t1, d) →
      final_destination s rng k loc2 = some (t2, d) → culled s.dims d = false → loc1 = loc2) ∧
    (∀ t, t ≠ EMPTY → t ≠ OBSTACLE →
      count_type s2.front t + count_culled s rng k t = count_type s.front t) := by
  refine ⟨?_, ?_, ?_⟩
  · intro loc ty d w hfd _ hw
    exact write_lands_on_empty hs h hfd hw
  · intro loc1 loc2 t1 t2 d h1 h2 hc
    obtain ⟨_, _, _, _, hW, _⟩ := tick_end hs h
    have hm : ∀ {loc t}, final_destination s rng k loc = some (t, d) →
        loc ∈ scan_order s.dims := by
      intro loc t hfd
      rw [mem_scan_order]
      exact (ParticleMap.check_loc_iff _ _).mp (final_destination_range hs hfd).1
    exact hW.2.2 loc1 (hm h1) loc2 (hm h2) t1 t2 d ⟨h1, hc⟩ ⟨h2, hc⟩
  · intro t ht0 ht1
    rw [count_new_moved hs h ht0 ht1, count_old_split hs h ht0 ht1]

/-- Instance of C10 on the 10x10 grid with PARTICLE_HEAVY at (5,5) and (5,6): the first moves to (6,6), the second is culled. -/
theorem C10_witness :
    (∀ loc ty d w,
      final_destination ⟨ParticleMap.init ⟨10, 10⟩ EMPTY,
        grid_of ⟨10, 10⟩ [(⟨5, 5⟩, PARTICLE_HEAVY), (⟨5, 6⟩, PARTICLE_HEAVY)]⟩
        (fun n => n) 0 loc = some (ty, d) →
      culled (FluxState.mk (ParticleMap.init ⟨10, 10⟩ EMPTY)
        (grid_of ⟨10, 10⟩ [(⟨5, 5⟩, PARTICLE_HEAVY), (⟨5, 6⟩, PARTICLE_HEAVY)])).dims d =
          false →
      pass2_before ⟨ParticleMap.init ⟨10, 10⟩ EMPTY,
        grid_of ⟨10, 10⟩ [(⟨5, 5⟩, PARTICLE_HEAVY), (⟨5, 6⟩, PARTICLE_HEAVY)]⟩
        (fun n => n) 0 loc = .ok w → w.1.back.get d = .ok EMPTY) ∧
    (∀ loc1 loc2 t1 t2 d,
      final_destination ⟨ParticleMap.init ⟨10, 10⟩ EMPTY,
        grid_of ⟨10, 10⟩ [(⟨5, 5⟩, PARTICLE_HEAVY), (⟨5, 6⟩, PARTICLE_HEAVY)]⟩
        (fun n => n) 0 loc1 = some (t1, d) →
      final_destination ⟨ParticleMap.init ⟨10, 10⟩ EMPTY,
        grid_of ⟨10, 10⟩ [(⟨5, 5⟩, PARTICLE_HEAVY), (⟨5, 6⟩, PARTICLE_HEAVY)]⟩
        (fun n => n) 0 loc2 = some (t2, d) →
      culled (FluxState.mk (ParticleMap.init ⟨10, 10⟩ EMPTY)
        (grid_of ⟨10, 10⟩ [(⟨5, 5⟩, PARTICLE_HEAVY), (⟨5, 6⟩, PARTICLE_HEAVY)])).dims d =
          false → loc1 = loc2) ∧
    (∀ t, t ≠ EMPTY → t ≠ OBSTACLE →
      count_type (grid_of ⟨10, 10⟩ [(⟨6, 6⟩, PARTICLE_HEAVY)]) t +
        count_culled ⟨ParticleMap.init ⟨10, 10⟩ EMPTY,
          grid_of ⟨10, 10⟩ [(⟨5, 5⟩, PARTICLE_HEAVY), (⟨5, 6⟩, PARTICLE_HEAVY)]⟩
          (fun n => n) 0 t =
      count_type (grid_of ⟨10, 10⟩ [(⟨5, 5⟩, PARTICLE_HEAVY), (⟨5, 6⟩, PARTICLE_HEAVY)]) t) :=
  C10_no_two_writes_to_one_cell
    ⟨ParticleMap.init ⟨10, 10⟩ EMPTY,
      grid_of ⟨10, 10⟩ [(⟨5, 5⟩, PARTICLE_HEAVY), (⟨5, 6⟩, PARTICLE_HEAVY)]⟩
    (by decide) (fun n => n) 0
    ⟨grid_of ⟨10, 10⟩ [(⟨5, 5⟩, PARTICLE_HEAVY), (⟨5, 6⟩, PARTICLE_HEAVY)],
      grid_of ⟨10, 10⟩ [(⟨6, 6⟩, PARTICLE_HEAVY)]⟩ 3 (by decide)

/-- C11: for every well-formed state with width >= 6 and height >= 7 in which
every front cell that is neither EMPTY nor OBSTACLE lies at
3 <= x <= width-3 and 3 <= y <= height-4, and for every stream of draws,
`update_world` returns: no `get` or `set` is called on an out-of-range
coordinate (such a call aborts) and no access leaves the block. -/
theorem C11_interior_tick_returns (s : FluxState) (hs : s.wf) (hw : 6 ≤ s.dims.x)
    (hh : 7 ≤ s.dims.y)
    (hint : ∀ x < s.dims.x, ∀ y < s.dims.y,
      s.get_particle ⟨x, y⟩ = .ok EMPTY ∨ s.get_particle ⟨x, y⟩ = .ok OBSTACLE ∨
        (3 ≤ x ∧ x ≤ s.dims.x - 3 ∧ 3 ≤ y ∧ y ≤ s.dims.y - 4))
    (rng : Nat → Nat) (k : Nat) : ∃ s2 k2, update_world s rng k = .ok (s2, k2) := by
  apply interior_tick_total hs
  intro p hp h0 h1
  have hxy := (ParticleMap.check_loc_iff _ _).mp hp
  have hg := front_get_eq hs hp
  rw [show s.dims = s.back.dims from rfl] at hint hw hh
  rcases hint p.x hxy.1 p.y hxy.2 with h | h | h
  · rw [show s.get_particle ⟨p.x, p.y⟩ = s.front.get p from rfl, hg] at h
    exact absurd (Except.ok.inj h) h0
  · rw [show s.get_particle ⟨p.x, p.y⟩ = s.front.get p from rfl, hg] at h
    exact absurd (Except.ok.inj h) h1
  · omega

/-- Instance of C11 on the 10x10 grid with particles of the three kinds in the interior. -/
theorem C11_witness :
    ∃ s2 k2, update_world ⟨ParticleMap.init ⟨10, 10⟩ EMPTY,
      grid_of ⟨10, 10⟩ [(⟨3, 3⟩, PARTICLE_LIGHT), (⟨7, 6⟩, PARTICLE_HEAVY),
        (⟨3, 6⟩, PARTICLE_WATER), (⟨0, 0⟩, OBSTACLE)]⟩ (fun n => 3 * n + 1) 0 = .ok (s2, k2) :=
  C11_interior_tick_returns
    ⟨ParticleMap.init ⟨10, 10⟩ EMPTY,
      grid_of ⟨10, 10⟩ [(⟨3, 3⟩, PARTICLE_LIGHT), (⟨7, 6⟩, PARTICLE_HEAVY),
        (⟨3, 6⟩, PARTICLE_WATER), (⟨0, 0⟩, OBSTACLE)]⟩
    (by decide) (by decide) (by decide) (by decide) (fun n => 3 * n + 1) 0

/-- C12: for every well-formed state and stream of draws on which
`update_world` returns, and every coordinate `loc` (in range or not), the new
front reads OBSTACLE at `loc` if and only if the old front read OBSTACLE at
`loc`. -/
theorem C12_obstacles_unchanged (s : FluxState) (hs : s.wf) (rng : Nat → Nat) (k : Nat)
    (s2 : FluxState) (k2 : Nat) (h : update_world s rng k = .ok (s2, k2)) (loc : Point) :
    s2.front.get loc = .ok OBSTACLE ↔ s.front.get loc = .ok OBSTACLE := by
  obtain ⟨s1, wfin, hJ, hw2, hd2, hg⟩ := tick_cells hs h
  by_cases hl : s.back.check_loc loc = true
  · rw [hg loc hl, front_get_eq hs hl]
    simp only [Except.ok.injEq]
    exact hJ.2.2.2.2.1 loc hl
  · have hlf := Bool.eq_false_iff.mpr hl
    have h1 : s.front.check_loc loc = false := by rw [FluxState.check_front hs]; exact hlf
    have h2 : s2.front.check_loc loc = false := by
      rw [FluxState.check_front hw2, check_of_dims hd2]; exact hlf
    rw [ParticleMap.get_out h1, ParticleMap.get_out h2]

/-- Instance of C12 on the 10x10 grid with a PARTICLE_HEAVY at (5,5) resting on an obstacle
at (5,6), at the obstacle. -/
theorem C12_witness :
    (grid_of ⟨10, 10⟩ [(⟨5, 6⟩, OBSTACLE), (⟨6, 6⟩, PARTICLE_HEAVY)]).get ⟨5, 6⟩ = .ok OBSTACLE ↔
      (grid_of ⟨10, 10⟩ [(⟨5, 5⟩, PARTICLE_HEAVY), (⟨5, 6⟩, OBSTACLE)]).get ⟨5, 6⟩ =
        .ok OBSTACLE :=
  C12_obstacles_unchanged
    ⟨ParticleMap.init ⟨10, 10⟩ EMPTY,
      grid_of ⟨10, 10⟩ [(⟨5, 5⟩, PARTICLE_HEAVY), (⟨5, 6⟩, OBSTACLE)]⟩
    (by decide) (fun n => n) 0
    ⟨grid_of ⟨10, 10⟩ [(⟨5, 5⟩, PARTICLE_HEAVY), (⟨5, 6⟩, OBSTACLE)],
      grid_of ⟨10, 10⟩ [(⟨5, 6⟩, OBSTACLE), (⟨6, 6⟩, PARTICLE_HEAVY)]⟩ 2
    (by decide) ⟨5, 6⟩

/-- C13: for two well-formed states of the same dimensions whose front grids
read the same at every cell (the back grids are arbitrary) and the same
stream of draws, `update_world` fails on one iff it fails on the other, in
the same way, and when it returns on one it returns on the other with the
same draw count and a new front grid that reads the same at every
coordinate. -/
theorem C13_tick_ignores_back_grid (s t : FluxState) (hs : s.wf) (ht : t.wf)
    (hd : s.dims = t.dims)
    (hfront : ∀ x < s.dims.x, ∀ y < s.dims.y, s.front.get ⟨x, y⟩ = t.front.get ⟨x, y⟩)
    (rng : Nat → Nat) (k : Nat) :
    (∀ e, update_world s rng k = .error e ↔ update_world t rng k = .error e) ∧
    (∀ s2 k2, update_world s rng k = .ok (s2, k2) →
      ∃ t2, update_world t rng k = .ok (t2, k2) ∧ ∀ p, s2.front.get p = t2.front.get p) := by
  have hd2 : s.back.dims = t.back.dims := hd
  have hf : ∀ p, s.front.get p = t.front.get p := by
    intro p
    by_cases hp : s.back.check_loc p = true
    · have hxy := (ParticleMap.check_loc_iff _ _).mp hp
      exact hfront p.x hxy.1 p.y hxy.2
    · have hpf := Bool.eq_false_iff.mpr hp
      rw [ParticleMap.get_out (by rw [FluxState.check_front hs]; exact hpf),
        ParticleMap.get_out (by rw [FluxState.check_front ht, ← check_of_dims hd2]; exact hpf)]
  have key := tick_same hs ht hd2 hf rng k
  cases e1 : update_world s rng k with
  | error e =>
    cases e2 : update_world t rng k with
    | error e3 =>
      rw [e1, e2] at key
      simp only at key
      subst key
      exact ⟨fun _ => Iff.rfl, fun _ _ h => absurd h (by simp)⟩
    | ok v2 => rw [e1, e2] at key; exact absurd key (by simp)
  | ok v =>
    cases e2 : update_world t rng k with
    | error e3 => rw [e1, e2] at key; exact absurd key (by simp)
    | ok v2 =>
      rw [e1, e2] at key
      simp only at key
      refine ⟨fun e => by simp, ?_⟩
      intro s2 k2 h
      simp only [Except.ok.injEq] at h
      subst h
      obtain ⟨v2s, v2k⟩ := v2
      simp only at key
      exact ⟨v2s, by rw [key.1], key.2⟩

/-- Instance of C13 on two 10x10 states with the same front grid and back grids full of
water codes and of light codes. -/
theorem C13_witness :
    (∀ e, update_world ⟨ParticleMap.init ⟨10, 10⟩ PARTICLE_WATER,
        grid_of ⟨10, 10⟩ [(⟨5, 5⟩, PARTICLE_HEAVY), (⟨5, 6⟩, OBSTACLE)]⟩ (fun n => n) 0 =
          .error e ↔
      update_world ⟨ParticleMap.init ⟨10, 10⟩ PARTICLE_LIGHT,
        grid_of ⟨10, 10⟩ [(⟨5, 5⟩, PARTICLE_HEAVY), (⟨5, 6⟩, OBSTACLE)]⟩ (fun n => n) 0 =
          .error e) ∧
    (∀ s2 k2, update_world ⟨ParticleMap.init ⟨10, 10⟩ PARTICLE_WATER,
        grid_of ⟨10, 10⟩ [(⟨5, 5⟩, PARTICLE_HEAVY), (⟨5, 6⟩, OBSTACLE)]⟩ (fun n => n) 0 =
          .ok (s2, k2) →
      ∃ t2, update_world ⟨ParticleMap.init ⟨10, 10⟩ PARTICLE_LIGHT,
        grid_of ⟨10, 10⟩ [(⟨5, 5⟩, PARTICLE_HEAVY), (⟨5, 6⟩, OBSTACLE)]⟩ (fun n => n) 0 =
          .ok (t2, k2) ∧ ∀ p, s2.front.get p = t2.front.get p) :=
  C13_tick_ignores_back_grid
    ⟨ParticleMap.init ⟨10, 10⟩ PARTICLE_WATER,
      grid_of ⟨10, 10⟩ [(⟨5, 5⟩, PARTICLE_HEAVY), (⟨5, 6⟩, OBSTACLE)]⟩
    ⟨ParticleMap.init ⟨10, 10⟩ PARTICLE_LIGHT,
      grid_of ⟨10, 10⟩ [(⟨5, 5⟩, PARTICLE_HEAVY), (⟨5, 6⟩, OBSTACLE)]⟩
    (by decide) (by decide) (by decide) (by decide) (fun n => n) 0

/-- C14: in a tick on a well-formed state, whenever pass 2 takes the culling
branch for a source cell `loc` (it reaches `loc` in the state `w`, finds a
particle there and computes a culled destination), the back cell at `loc`
already reads EMPTY immediately before `back_set_particle(loc, EMPTY)` runs;
and `update_world` with that write removed yields the same result as
`update_world` for every stream of draws. -/
theorem C14_cull_write_is_no_op (s : FluxState) (hs : s.wf) (rng : Nat → Nat) (k : Nat) :
    (∀ loc w ty r, pass2_before s rng k loc = .ok w → w.1.get_particle loc = .ok ty →
      ty ≠ EMPTY → ty ≠ OBSTACLE → destination w.1 rng w.2 loc ty = .ok r →
      culled s.dims r.1 = true → w.1.back.get loc = .ok EMPTY) ∧
    update_world_without_cull_write s rng k = update_world s rng k := by
  refine ⟨?_, update_world_without_cull_write_eq hs rng k⟩
  intro loc w ty r hw hg h0 h1 _ _
  obtain ⟨s1, pre, hpre, hJ⟩ := pass2_before_inv hs hw
  obtain ⟨hin, hcell⟩ := back_empty_before hJ hpre hg h0 h1
  rw [ParticleMap.get_in hJ.2.1.1 hin, hcell]

/-- Instance of C14 on the 10x10 grid with a PARTICLE_HEAVY at (5,6), culled at (5,7). -/
theorem C14_witness :
    (∀ loc w ty r, pass2_before ⟨ParticleMap.init ⟨10, 10⟩ PARTICLE_WATER,
        grid_of ⟨10, 10⟩ [(⟨5, 6⟩, PARTICLE_HEAVY)]⟩ (fun _ => 0) 0 loc = .ok w →
      w.1.get_particle loc = .ok ty →
      ty ≠ EMPTY → ty ≠ OBSTACLE → destination w.1 (fun _ => 0) w.2 loc ty = .ok r →
      culled (FluxState.mk (ParticleMap.init ⟨10, 10⟩ PARTICLE_WATER)
        (grid_of ⟨10, 10⟩ [(⟨5, 6⟩, PARTICLE_HEAVY)])).dims r.1 = true →
      w.1.back.get loc = .ok EMPTY) ∧
    update_world_without_cull_write ⟨ParticleMap.init ⟨10, 10⟩ PARTICLE_WATER,
        grid_of ⟨10, 10⟩ [(⟨5, 6⟩, PARTICLE_HEAVY)]⟩ (fun _ => 0) 0 =
      update_world ⟨ParticleMap.init ⟨10, 10⟩ PARTICLE_WATER,
        grid_of ⟨10, 10⟩ [(⟨5, 6⟩, PARTICLE_HEAVY)]⟩ (fun _ => 0) 0 :=
  C14_cull_write_is_no_op
    ⟨ParticleMap.init ⟨10, 10⟩ PARTICLE_WATER, grid_of ⟨10, 10⟩ [(⟨5, 6⟩, PARTICLE_HEAVY)]⟩
    (by decide) (fun _ => 0) 0

/-- C15: for a particle whose final destination `d` is computed, the drift
value is (draw mod 5) - 2 for the draw number `k`, a natural number taken
before the draws of the movement rule (which start at `k + 1`); with `q` the
provisional destination, `d = q` whenever the drift value is -2, 0 or 2; `d` is
the left neighbour of `q` iff the drift value is -1 and that neighbour is
fully empty, and the right neighbour iff the drift value is 1 and that
neighbour is fully empty. -/
theorem C15_drift_after_rule (s : FluxState) (rng : Nat → Nat) (k : Nat) (loc : Point)
    (ty : CellType) (d : Point) (k2 : Nat) (h : destination s rng k loc ty = .ok (d, k2)) :
    ∃ q, provisional s rng (k + 1) loc ty = .ok (q, k2) ∧
      leftright_of (rng k) = ((rng k % 5 : Nat) : Int) - 2 ∧
      (leftright_of (rng k) = -2 ∨ leftright_of (rng k) = 0 ∨ leftright_of (rng k) = 2 →
        d = q) ∧
      (d = left q ↔ leftright_of (rng k) = -1 ∧ s.is_fully_empty (left q) = .ok true) ∧
      (d = right q ↔ leftright_of (rng k) = 1 ∧ s.is_fully_empty (right q) = .ok true) := by
  obtain ⟨q, hp, hd⟩ := destination_iff.mp h
  refine ⟨q, hp, rfl, ?_, ?_, ?_⟩
  · intro hlr
    rcases apply_drift_iff.mp hd with ⟨h1, _⟩ | ⟨h1, _⟩ | ⟨_, _, h3⟩
    · rw [h1] at hlr; rcases hlr with h | h | h <;> exact absurd h (by decide)
    · rw [h1] at hlr; rcases hlr with h | h | h <;> exact absurd h (by decide)
    · exact h3
  · constructor
    · intro hdl
      rcases apply_drift_iff.mp hd with ⟨h1, (⟨h2, _⟩ | ⟨_, h3⟩)⟩ | ⟨_, (⟨_, h3⟩ | ⟨_, h3⟩)⟩ |
        ⟨_, _, h3⟩
      · exact ⟨h1, h2⟩
      · rw [h3] at hdl; exact absurd hdl.symm (left_ne_self q)
      · rw [h3] at hdl; exact absurd hdl.symm (left_ne_right q)
      · rw [h3] at hdl; exact absurd hdl.symm (left_ne_self q)
      · rw [h3] at hdl; exact absurd hdl.symm (left_ne_self q)
    · rintro ⟨h1, h2⟩
      rcases apply_drift_iff.mp hd with ⟨_, (⟨_, h3⟩ | ⟨h4, _⟩)⟩ | ⟨h5, _⟩ | ⟨h5, _, _⟩
      · exact h3
      · rw [h2] at h4; exact absurd h4 (by simp)
      · rw [h1] at h5; exact absurd h5 (by decide)
      · exact absurd h1 h5
  · constructor
    · intro hdr
      rcases apply_drift_iff.mp hd with ⟨_, (⟨_, h3⟩ | ⟨_, h3⟩)⟩ | ⟨h1, (⟨h2, _⟩ | ⟨_, h3⟩)⟩ |
        ⟨_, _, h3⟩
      · rw [h3] at hdr; exact absurd hdr (left_ne_right q)
      · rw [h3] at hdr; exact absurd hdr.symm (right_ne_self q)
      · exact ⟨h1, h2⟩
      · rw [h3] at hdr; exact absurd hdr.symm (right_ne_self q)
      · rw [h3] at hdr; exact absurd hdr.symm (right_ne_self q)
    · rintro ⟨h1, h2⟩
      rcases apply_drift_iff.mp hd with ⟨h5, _⟩ | ⟨_, (⟨_, h3⟩ | ⟨h4, _⟩)⟩ | ⟨_, h5, _⟩
      · rw [h1] at h5; exact absurd h5 (by decide)
      · exact h3
      · rw [h2] at h4; exact absurd h4 (by simp)
      · exact absurd h1 h5

/-- Instance of C15 on the 10x10 grid with a PARTICLE_HEAVY at (5,5) and drift draw 1. -/
theorem C15_witness :
    ∃ q, provisional ⟨ParticleMap.init ⟨10, 10⟩ EMPTY,
        grid_of ⟨10, 10⟩ [(⟨5, 5⟩, PARTICLE_HEAVY)]⟩ (fun _ => 1) (0 + 1) ⟨5, 5⟩
        PARTICLE_HEAVY = .ok (q, 1) ∧
      leftright_of ((fun _ => 1) 0) = (((fun _ => 1) 0 % 5 : Nat) : Int) - 2 ∧
      (leftright_of ((fun _ => 1) 0) = -2 ∨ leftright_of ((fun _ => 1) 0) = 0 ∨
        leftright_of ((fun _ => 1) 0) = 2 → (⟨4, 6⟩ : Point) = q) ∧
      ((⟨4, 6⟩ : Point) = left q ↔ leftright_of ((fun _ => 1) 0) = -1 ∧
        (FluxState.mk (ParticleMap.init ⟨10, 10⟩ EMPTY)
          (grid_of ⟨10, 10⟩ [(⟨5, 5⟩, PARTICLE_HEAVY)])).is_fully_empty (left q) = .ok true) ∧
      ((⟨4, 6⟩ : Point) = right q ↔ leftright_of ((fun _ => 1) 0) = 1 ∧
        (FluxState.mk (ParticleMap.init ⟨10, 10⟩ EMPTY)
          (grid_of ⟨10, 10⟩ [(⟨5, 5⟩, PARTICLE_HEAVY)])).is_fully_empty (right q) = .ok true) :=
  C15_drift_after_rule
    ⟨ParticleMap.init ⟨10, 10⟩ EMPTY, grid_of ⟨10, 10⟩ [(⟨5, 5⟩, PARTICLE_HEAVY)]⟩
    (fun _ => 1) 0 ⟨5, 5⟩ PARTICLE_HEAVY ⟨4, 6⟩ 1 (by decide)

/-- C16: for a PARTICLE_WATER at `loc` in a well-formed state, whenever the
provisional destination is computed (no examined neighbour is out of range) it
is the first cell of the list [below, down-left, down-right, left, right] that
reads EMPTY in both the front and the back grid, and `loc` itself when none
does, and the draw count is unchanged: no direction draw is consumed. It is
computed whenever the five neighbours are in range. -/
theorem C16_water_provisional (s : FluxState) (hs : s.wf) (rng : Nat → Nat) (k : Nat)
    (loc : Point) :
    (∀ d k2, provisional s rng k loc PARTICLE_WATER = .ok (d, k2) →
      k2 = k ∧ d = first_fully_empty s
        [below loc, left (below loc), right (below loc), left loc, right loc] loc) ∧
    ((∀ p ∈ [below loc, left (below loc), right (below loc), left loc, right loc],
        s.back.check_loc p = true) →
      provisional s rng k loc PARTICLE_WATER = .ok (first_fully_empty s
        [below loc, left (below loc), right (below loc), left loc, right loc] loc, k)) := by
  rw [provisional_water]
  constructor
  · intro d k2 h
    cases hw : water_rule s loc with
    | error e => rw [hw] at h; exact absurd h (by simp [bind, Except.bind])
    | ok d2 =>
      rw [hw] at h
      simp only [bind, Except.bind, pure, Except.pure, Except.ok.injEq, Prod.mk.injEq] at h
      rw [← h.1, ← h.2]
      exact ⟨rfl, water_rule_first hw⟩
  · intro hin
    obtain ⟨d, hd⟩ := water_rule_total (fun p hp => fe_total hs (hin p hp))
    rw [hd, water_rule_first hd]
    rfl

/-- Instance of C16 on the 10x10 grid with a PARTICLE_WATER at (5,5) above an obstacle. -/
theorem C16_witness :
    (∀ d k2, provisional ⟨grid_of ⟨10, 10⟩ [(⟨5, 6⟩, OBSTACLE)],
        grid_of ⟨10, 10⟩ [(⟨5, 5⟩, PARTICLE_WATER), (⟨5, 6⟩, OBSTACLE)]⟩ (fun n => n) 1 ⟨5, 5⟩
        PARTICLE_WATER = .ok (d, k2) →
      k2 = 1 ∧ d = first_fully_empty ⟨grid_of ⟨10, 10⟩ [(⟨5, 6⟩, OBSTACLE)],
        grid_of ⟨10, 10⟩ [(⟨5, 5⟩, PARTICLE_WATER), (⟨5, 6⟩, OBSTACLE)]⟩
        [below ⟨5, 5⟩, left (below ⟨5, 5⟩), right (below ⟨5, 5⟩), left ⟨5, 5⟩, right ⟨5, 5⟩]
        ⟨5, 5⟩) ∧
    ((∀ p ∈ [below ⟨5, 5⟩, left (below ⟨5, 5⟩), right (below ⟨5, 5⟩), left ⟨5, 5⟩,
        right ⟨5, 5⟩],
        (grid_of ⟨10, 10⟩ [(⟨5, 6⟩, OBSTACLE)]).check_loc p = true) →
      provisional ⟨grid_of ⟨10, 10⟩ [(⟨5, 6⟩, OBSTACLE)],
        grid_of ⟨10, 10⟩ [(⟨5, 5⟩, PARTICLE_WATER), (⟨5, 6⟩, OBSTACLE)]⟩ (fun n => n) 1 ⟨5, 5⟩
        PARTICLE_WATER = .ok (first_fully_empty ⟨grid_of ⟨10, 10⟩ [(⟨5, 6⟩, OBSTACLE)],
        grid_of ⟨10, 10⟩ [(⟨5, 5⟩, PARTICLE_WATER), (⟨5, 6⟩, OBSTACLE)]⟩
        [below ⟨5, 5⟩, left (below ⟨5, 5⟩), right (below ⟨5, 5⟩), left ⟨5, 5⟩, right ⟨5, 5⟩]
        ⟨5, 5⟩, 1)) :=
  C16_water_provisional
    ⟨grid_of ⟨10, 10⟩ [(⟨5, 6⟩, OBSTACLE)],
      grid_of ⟨10, 10⟩ [(⟨5, 5⟩, PARTICLE_WATER), (⟨5, 6⟩, OBSTACLE)]⟩
    (by decide) (fun n => n) 1 ⟨5, 5⟩

/-- C17: the provisional destination of a PARTICLE_HEAVY at `loc` is computed
as `(d, k2)` from draw number `k` exactly in these cases: below(loc) is fully
empty, `d` is below(loc) and no draw is consumed (`k2 = k`); or below(loc) is
not fully empty, one draw is consumed (`k2 = k + 1`), an even draw chooses
the left and an odd draw the right diagonal-below cell, and `d` is the chosen
cell if it is fully empty and `loc` if it is not, whatever the other
diagonal-below cell holds. -/
theorem C17_heavy_provisional (s : FluxState) (rng : Nat → Nat) (k : Nat) (loc d : Point)
    (k2 : Nat) :
    provisional s rng k loc PARTICLE_HEAVY = .ok (d, k2) ↔
      (s.is_fully_empty (below loc) = .ok true ∧ d = below loc ∧ k2 = k) ∨
      (s.is_fully_empty (below loc) = .ok false ∧ k2 = k + 1 ∧
        ((s.is_fully_empty (if rng k % 2 = 0 then left (below loc) else right (below loc)) =
            .ok true ∧
          d = (if rng k % 2 = 0 then left (below loc) else right (below loc))) ∨
         (s.is_fully_empty (if rng k % 2 = 0 then left (below loc) else right (below loc)) =
            .ok false ∧ d = loc))) := by
  have hprov : provisional s rng k loc PARTICLE_HEAVY = heavy_rule s rng k loc := by
    simp [provisional]
  rw [hprov]
  unfold heavy_rule
  simp only [bind_ite_ok, and_then_true, and_then_false, pure, Except.pure, Except.ok.injEq,
    Prod.mk.injEq]
  by_cases hpar : rng k % 2 = 0
  · have hd1 : (direction_of (rng k) == -1) = true := by simp [direction_of, hpar]
    have hd2 : (direction_of (rng k) == 1) = false := by simp [direction_of, hpar]
    simp only [hd1, hd2, hpar, if_true, true_and, Bool.true_eq_false, false_or,
      Bool.false_eq_true, false_and, true_or]
    constructor
    · rintro (⟨h1, h2, h3⟩ | ⟨h1, (⟨h2, h3, h4⟩ | ⟨h2, h3, h4⟩)⟩)
      · exact Or.inl ⟨h1, h2.symm, h3.symm⟩
      · exact Or.inr ⟨h1, h4.symm, Or.inl ⟨h2, h3.symm⟩⟩
      · exact Or.inr ⟨h1, h4.symm, Or.inr ⟨h2, h3.symm⟩⟩
    · rintro (⟨h1, h2, h3⟩ | ⟨h1, h4, (⟨h2, h3⟩ | ⟨h2, h3⟩)⟩)
      · exact Or.inl ⟨h1, h2.symm, h3.symm⟩
      · exact Or.inr ⟨h1, Or.inl ⟨h2, h3.symm, h4.symm⟩⟩
      · exact Or.inr ⟨h1, Or.inr ⟨h2, h3.symm, h4.symm⟩⟩
  · have hd1 : (direction_of (rng k) == -1) = false := by simp [direction_of, hpar]
    have hd2 : (direction_of (rng k) == 1) = true := by simp [direction_of, hpar]
    simp only [hd1, hd2, hpar, if_false, true_and, Bool.false_eq_true, false_and, false_or,
      true_or, Bool.true_eq_false]
    constructor
    · rintro (⟨h1, h2, h3⟩ | ⟨h1, (⟨h2, h3, h4⟩ | ⟨h2, h3, h4⟩)⟩)
      · exact Or.inl ⟨h1, h2.symm, h3.symm⟩
      · exact Or.inr ⟨h1, h4.symm, Or.inl ⟨h2, h3.symm⟩⟩
      · exact Or.inr ⟨h1, h4.symm, Or.inr ⟨h2, h3.symm⟩⟩
    · rintro (⟨h1, h2, h3⟩ | ⟨h1, h4, (⟨h2, h3⟩ | ⟨h2, h3⟩)⟩)
      · exact Or.inl ⟨h1, h2.symm, h3.symm⟩
      · exact Or.inr ⟨h1, Or.inl ⟨h2, h3.symm, h4.symm⟩⟩
      · exact Or.inr ⟨h1, Or.inr ⟨h2, h3.symm, h4.symm⟩⟩

/-- C18, as stated, fails: for width = height = 65536 the cell count 2^32
wraps to 0 in `size_t`, the constructor computes `buf_size = 0`, and the byte
index 0 of the in-range coordinate (0,0) is not below `buf_size`: `get` reads
outside the block. -/
theorem C18_counterexample :
    (ParticleMap.init ⟨65536, 65536⟩ EMPTY).check_loc ⟨0, 0⟩ = true ∧
    (ParticleMap.init ⟨65536, 65536⟩ EMPTY).buf_size = 0 ∧
    ¬ ((ParticleMap.init ⟨65536, 65536⟩ EMPTY).elem_idx ⟨0, 0⟩ >>> 1 <
      (ParticleMap.init ⟨65536, 65536⟩ EMPTY).buf_size) ∧
    (ParticleMap.init ⟨65536, 65536⟩ EMPTY).get ⟨0, 0⟩ = .error Fault.out_of_bounds := by
  decide

/-- C18, amended: for every grid whose cell count did not wrap around in
`size_t` (width*height + 1 < 2^32, the block holds (width*height + 1) >> 1
bytes) and every in-range coordinate (x,y), the element index used by `get`
and `set` is y*width + x, the byte index (y*width + x) >> 1 is strictly less
than `buf_size` = (width*height + 1) >> 1, the bit offset of the cell in its
byte is 0 (low nibble) when y*width + x is even and 4 (high nibble) when it is
odd, and two distinct in-range coordinates never have the same byte index and
bit offset. -/
theorem C18_index_in_block (m : ParticleMap) (hm : m.wf) (loc : Point)
    (hl : m.check_loc loc = true) :
    m.elem_idx loc = loc.y * m.dims.x + loc.x ∧
    m.elem_idx loc >>> 1 < m.buf_size ∧
    m.buf_size = (m.dims.x * m.dims.y + 1) >>> 1 ∧
    ((loc.y * m.dims.x + loc.x) % 2 = 0 → (m.elem_idx loc &&& 1) <<< 2 = 0) ∧
    ((loc.y * m.dims.x + loc.x) % 2 = 1 → (m.elem_idx loc &&& 1) <<< 2 = 4) ∧
    ∀ loc2, m.check_loc loc2 = true → loc2 ≠ loc →
      (m.elem_idx loc2 >>> 1, (m.elem_idx loc2 &&& 1) <<< 2) ≠
        (m.elem_idx loc >>> 1, (m.elem_idx loc &&& 1) <<< 2) := by
  have he := ParticleMap.elem_idx_eq hm hl
  have hb := ParticleMap.byte_idx_lt hm hl
  rw [hm.2.2.1] at hb
  refine ⟨he, hb, hm.2.1, ?_, ?_, ?_⟩
  · intro hpar
    rcases offset_cases (m.elem_idx loc) with ⟨h, _⟩ | ⟨_, h⟩
    · exact h
    · rw [he] at h; omega
  · intro hpar
    rcases offset_cases (m.elem_idx loc) with ⟨_, h⟩ | ⟨h, _⟩
    · rw [he] at h; omega
    · exact h
  · intro loc2 hl2 hne heq
    simp only [Prod.mk.injEq] at heq
    have he2 := ParticleMap.elem_idx_eq hm hl2
    have hidx : m.elem_idx loc2 = m.elem_idx loc := by
      have h1 := heq.1
      simp only [Nat.shiftRight_eq_div_pow] at h1
      rcases offset_cases (m.elem_idx loc) with ⟨ho, hp⟩ | ⟨ho, hp⟩ <;>
        rcases offset_cases (m.elem_idx loc2) with ⟨ho2, hp2⟩ | ⟨ho2, hp2⟩
      · omega
      · rw [ho, ho2] at heq; exact absurd heq.2 (by decide)
      · rw [ho, ho2] at heq; exact absurd heq.2 (by decide)
      · omega
    rw [he, he2] at hidx
    have hxy := (ParticleMap.check_loc_iff _ _).mp hl
    have hxy2 := (ParticleMap.check_loc_iff _ _).mp hl2
    have := ParticleMap.index_inj hxy2.1 hxy.1 hidx
    apply hne
    cases loc; cases loc2
    simp only [Point.mk.injEq]
    exact this

/-- Instance of C18 (amended) on a 3x3 grid at the cell (1,0). -/
theorem C18_witness :
    (ParticleMap.init ⟨3, 3⟩ EMPTY).elem_idx ⟨1, 0⟩ = 0 * 3 + 1 ∧
    (ParticleMap.init ⟨3, 3⟩ EMPTY).elem_idx ⟨1, 0⟩ >>> 1 <
      (ParticleMap.init ⟨3, 3⟩ EMPTY).buf_size ∧
    (ParticleMap.init ⟨3, 3⟩ EMPTY).buf_size = (3 * 3 + 1) >>> 1 ∧
    ((0 * 3 + 1) % 2 = 0 → ((ParticleMap.init ⟨3, 3⟩ EMPTY).elem_idx ⟨1, 0⟩ &&& 1) <<< 2 = 0) ∧
    ((0 * 3 + 1) % 2 = 1 → ((ParticleMap.init ⟨3, 3⟩ EMPTY).elem_idx ⟨1, 0⟩ &&& 1) <<< 2 = 4) ∧
    ∀ loc2, (ParticleMap.init ⟨3, 3⟩ EMPTY).check_loc loc2 = true → loc2 ≠ ⟨1, 0⟩ →
      ((ParticleMap.init ⟨3, 3⟩ EMPTY).elem_idx loc2 >>> 1,
        ((ParticleMap.init ⟨3, 3⟩ EMPTY).elem_idx loc2 &&& 1) <<< 2) ≠
      ((ParticleMap.init ⟨3, 3⟩ EMPTY).elem_idx ⟨1, 0⟩ >>> 1,
        ((ParticleMap.init ⟨3, 3⟩ EMPTY).elem_idx ⟨1, 0⟩ &&& 1) <<< 2) :=
  C18_index_in_block (ParticleMap.init ⟨3, 3⟩ EMPTY) (by decide) ⟨1, 0⟩ (by decide)

/-- C19: for every well-formed input state (particles anywhere) and stream of
draws on which `update_world` returns, every cell of the new front holds
EMPTY or OBSTACLE or satisfies 3 <= x <= width-3 and 3 <= y < height-3; hence
the precondition that all particles lie in the interior is re-established:
the next `update_world` returns for every stream of draws. -/
theorem C19_tick_reestablishes_interior (s : FluxState) (hs : s.wf) (rng : Nat → Nat)
    (k : Nat) (s2 : FluxState) (k2 : Nat) (h : update_world s rng k = .ok (s2, k2)) :
    (∀ x < s2.dims.x, ∀ y < s2.dims.y,
      s2.get_particle ⟨x, y⟩ = .ok EMPTY ∨ s2.get_particle ⟨x, y⟩ = .ok OBSTACLE ∨
        (3 ≤ x ∧ x ≤ s2.dims.x - 3 ∧ 3 ≤ y ∧ y < s2.dims.y - 3)) ∧
    (∀ rng2 k3, ∃ s3 k4, update_world s2 rng2 k3 = .ok (s3, k4)) := by
  obtain ⟨_, _, _, hw2, hd2, _⟩ := tick_cells hs h
  have hin : ∀ p, s2.back.check_loc p = true → s2.front.cell p ≠ EMPTY →
      s2.front.cell p ≠ OBSTACLE →
      3 ≤ p.x ∧ p.x + 3 ≤ s2.back.dims.x ∧ 3 ≤ p.y ∧ p.y + 4 ≤ s2.back.dims.y := by
    intro p hp h0 h1
    rw [hd2]
    exact particles_in_interior hs h (by rw [← check_of_dims hd2]; exact hp) h0 h1
  constructor
  · intro x hx y hy
    have hp : s2.back.check_loc ⟨x, y⟩ = true := (ParticleMap.check_loc_iff _ _).mpr ⟨hx, hy⟩
    rw [show s2.get_particle ⟨x, y⟩ = s2.front.get ⟨x, y⟩ from rfl, front_get_eq hw2 hp]
    by_cases h0 : s2.front.cell ⟨x, y⟩ = EMPTY
    · exact Or.inl (by rw [h0])
    · by_cases h1 : s2.front.cell ⟨x, y⟩ = OBSTACLE
      · exact Or.inr (Or.inl (by rw [h1]))
      · have := hin ⟨x, y⟩ hp h0 h1
        simp only at this
        rw [show s2.dims = s2.back.dims from rfl]
        exact Or.inr (Or.inr (by omega))
  · intro rng2 k3
    apply interior_tick_total hw2
    intro p hp h0 h1
    have := hin p hp h0 h1
    omega

/-- Instance of C19 on the 10x10 grid with PARTICLE_HEAVY at (5,5) and (5,6): the tick
leaves one particle, at (6,6). -/
theorem C19_witness :
    (∀ x < 10, ∀ y < 10,
      (FluxState.mk (grid_of ⟨10, 10⟩ [(⟨5, 5⟩, PARTICLE_HEAVY), (⟨5, 6⟩, PARTICLE_HEAVY)])
        (grid_of ⟨10, 10⟩ [(⟨6, 6⟩, PARTICLE_HEAVY)])).get_particle ⟨x, y⟩ = .ok EMPTY ∨
      (FluxState.mk (grid_of ⟨10, 10⟩ [(⟨5, 5⟩, PARTICLE_HEAVY), (⟨5, 6⟩, PARTICLE_HEAVY)])
        (grid_of ⟨10, 10⟩ [(⟨6, 6⟩, PARTICLE_HEAVY)])).get_particle ⟨x, y⟩ = .ok OBSTACLE ∨
        (3 ≤ x ∧ x ≤ 10 - 3 ∧ 3 ≤ y ∧ y < 10 - 3)) ∧
    (∀ rng2 k3, ∃ s3 k4,
      update_world ⟨grid_of ⟨10, 10⟩ [(⟨5, 5⟩, PARTICLE_HEAVY), (⟨5, 6⟩, PARTICLE_HEAVY)],
        grid_of ⟨10, 10⟩ [(⟨6, 6⟩, PARTICLE_HEAVY)]⟩ rng2 k3 = .ok (s3, k4)) :=
  C19_tick_reestablishes_interior
    ⟨ParticleMap.init ⟨10, 10⟩ EMPTY,
      grid_of ⟨10, 10⟩ [(⟨5, 5⟩, PARTICLE_HEAVY), (⟨5, 6⟩, PARTICLE_HEAVY)]⟩
    (by decide) (fun n => n) 0
    ⟨grid_of ⟨10, 10⟩ [(⟨5, 5⟩, PARTICLE_HEAVY), (⟨5, 6⟩, PARTICLE_HEAVY)],
      grid_of ⟨10, 10⟩ [(⟨6, 6⟩, PARTICLE_HEAVY)]⟩ 3 (by decide)

end Sandbox
